import Mathlib

/-!
# Delivery physics and procedural meshes of the airship scene (`src/main.cpp`)

Shallow embedding of the scene state and of the functions `drop_package`,
`update_physics`, the drop guard of `main` and `generate_random_positions`,
and of the mesh code: `computeTangents`, the generators `generate_package`,
`generate_terrain`, `generate_tree`, `generate_rock`, `generate_house`,
`generate_airship`, and the vertex list of `create_object`.

Number models.  The `float` code is embedded twice.

Binary32 arithmetic (the definitions with the suffix `_fl`).  A finite `float`
is the rational it denotes and every operation of the source is followed by its
rounding: `a + b` is `fl (a + b)`, and so on, one rounding per operation in the
order of the source, with `sqrt` the function `sqrt` on `float`.  The pair
`(fl, sqrt)` is a parameter (`Rounding`); `f32` is IEEE 754 binary32 with
rounding to nearest, ties to even, and the correctly rounded square root.  The
statements that depend on the values the code computes (C1, C2, C6, C8, C9, C14,
C18) are made in this embedding, for every rounding or for roundings with stated
properties that binary32 is proved to have, and the concrete evaluations are
in `f32`.  Infinities and NaN are outside the model (the exponent range is
unbounded above), as are fused multiply-add and wider intermediate precision.

Exact arithmetic (the definitions without the suffix).  The same code with
`+`, `-`, `*`, `/`, `<=`, `<` the exact operations on `ℚ`;
`glm::distance(a, b) < 20.0f` becomes the comparison of the squared distance
with `20 * 20` (`distance_lt`, justified against `Real.sqrt` by
`distance_lt_iff_sqrt`).  It carries the statements about flags, order and
counts (C3, C4, C5, C7, C10), which do not depend on rounding and are repeated
for the binary32 embedding as lemmas, and the idealised forms of the other
statements (the theorems named `exact_...`), which hold for the real program
only up to rounding.

The `int` counter `deliveredPackages` is an unbounded `Int` (signed overflow is
undefined in C++).  `rand()` returns a non-negative `int`, embedded as a `Nat`
argument.

The mesh generators are embedded over an arbitrary linearly ordered field `F`,
with the library functions `sin`, `cos`, `sqrt` as a parameter (`FloatLib`), so
that the definitions run over `ℚ` and the idealised statements about
normalization can be read over `ℝ` with the real functions.
`computeTangents` and `generate_airship` are embedded in binary32 arithmetic as
well; for `generate_airship` the functions `sin` and `cos` that the calls
resolve to, and the arithmetic of their result type, are a parameter (`CMath`).
-/

namespace Indiv3

/-! ## Data model (main.cpp 24-81) -/

/-- The vector type `glm::vec3`. -/
structure Vec3 where
  x : ℚ
  y : ℚ
  z : ℚ
deriving DecidableEq

/-- The record `struct House` (main.cpp 29-33). -/
structure House where
  position : Vec3
  hasPackage : Bool
  houseType : Int
deriving DecidableEq

/-- The record `struct Package` (main.cpp 35-41). -/
structure Package where
  position : Vec3
  velocity : Vec3
  active : Bool
  rotation : ℚ
  rotationSpeed : ℚ
deriving DecidableEq

/-- The record `struct TreeObject` (main.cpp 43-47). -/
structure TreeObject where
  position : Vec3
  windOffset : ℚ
  treeHeight : ℚ
deriving DecidableEq

/-- The global mutable scene state that the physics reads and writes
(main.cpp 66-81): the four collections, the airship pose, `windTime` and the
two counters. -/
structure Scene where
  houses : List House
  treePositions : List TreeObject
  rockPositions : List Vec3
  packages : List Package
  airshipPosition : Vec3
  airshipRotation : ℚ
  windTime : ℚ
  deliveredPackages : Int
  totalHouses : Int
deriving DecidableEq

/-- The constant `const int NUM_PACKAGES_MAX = 20;` (main.cpp 27). -/
def NUM_PACKAGES_MAX : Nat := 20

/-! ## `glm` vector operations used by the physics -/

/-- Sum `a + b` on `glm::vec3`. -/
def Vec3.add (a b : Vec3) : Vec3 := ⟨a.x + b.x, a.y + b.y, a.z + b.z⟩

/-- Difference `a - b` on `glm::vec3`. -/
def Vec3.sub (a b : Vec3) : Vec3 := ⟨a.x - b.x, a.y - b.y, a.z - b.z⟩

/-- Product `v * s` of a `glm::vec3` with a scalar. -/
def Vec3.scale (v : Vec3) (s : ℚ) : Vec3 := ⟨v.x * s, v.y * s, v.z * s⟩

/-- The dot product `glm::dot`. -/
def Vec3.dot (a b : Vec3) : ℚ := a.x * b.x + a.y * b.y + a.z * b.z

/-- The square of `glm::distance(p0, p1) = length(p0 - p1) = sqrt(dot(d, d))`. -/
def distanceSq (p0 p1 : Vec3) : ℚ := Vec3.dot (Vec3.sub p0 p1) (Vec3.sub p0 p1)

/-- The test `glm::distance(p0, p1) < r`, decided on squares:
`sqrt(d) < r` holds exactly when `0 < r` and `d < r * r`. -/
def distance_lt (p0 p1 : Vec3) (r : ℚ) : Bool :=
  decide (0 < r ∧ distanceSq p0 p1 < r * r)

/-! ## `drop_package` and the drop guard -/

/-- The function `drop_package()` (main.cpp 569-578); `rnd` is the value returned
by `rand()`, a non-negative `int`. -/
def drop_package (rnd : Nat) (s : Scene) : Scene :=
  let pkg : Package :=
    { position := Vec3.add s.airshipPosition ⟨0, -10, 0⟩
      velocity := ⟨0, -20, 0⟩
      active := true
      rotation := 0
      rotationSpeed := ((rnd % 100 : Nat) : ℚ) / 100 * 2 }
  { s with packages := s.packages ++ [pkg] }

/-- The guarded drop request of `main` (main.cpp 778-781):
`if (packages.size() < NUM_PACKAGES_MAX) drop_package();`. -/
def main_drop_request (rnd : Nat) (s : Scene) : Scene :=
  if s.packages.length < NUM_PACKAGES_MAX then drop_package rnd s else s

/-! ## `update_physics` -/

/-- The inner loop `for (auto& house : houses)` of `update_physics`
(main.cpp 596-610) for a package that landed at `pkgPos`: the first house that
has no package and is at distance `< 20` from `(pkgPos.x, 0, pkgPos.z)` is
marked, the counter is incremented and the loop breaks. -/
def update_physics_houses (pkgPos : Vec3) : List House → Int → List House × Int
  | [], delivered => ([], delivered)
  | house :: rest, delivered =>
    if house.hasPackage = false then
      if distance_lt ⟨pkgPos.x, 0, pkgPos.z⟩ house.position 20 = true then
        ({ house with hasPackage := true } :: rest, delivered + 1)
      else
        let r := update_physics_houses pkgPos rest delivered
        (house :: r.1, r.2)
    else
      let r := update_physics_houses pkgPos rest delivered
      (house :: r.1, r.2)

/-- The integration statements of the loop body (main.cpp 587-590), in source
order: position, rotation, then `velocity.y`. -/
def update_physics_integrate (deltaTime : ℚ) (pkg : Package) : Package :=
  let pkg1 := { pkg with position := Vec3.add pkg.position (Vec3.scale pkg.velocity deltaTime) }
  let pkg2 := { pkg1 with rotation := pkg1.rotation + pkg1.rotationSpeed * deltaTime }
  { pkg2 with velocity := { pkg2.velocity with y := pkg2.velocity.y - 9.8 * deltaTime * 5 } }

/-- The body of `for (auto& pkg : packages)` (main.cpp 584-611) for one
package, on the current houses and counter: an inactive package is skipped
(`continue`); an active one is integrated and, when its new `position.y <= 5.0f`,
deactivated and matched against the houses at its new position. -/
def update_physics_package (deltaTime : ℚ) (pkg : Package) (houses : List House)
    (delivered : Int) : Package × List House × Int :=
  if pkg.active = false then (pkg, houses, delivered)
  else
    let pkg3 := update_physics_integrate deltaTime pkg
    if pkg3.position.y ≤ 5 then
      let r := update_physics_houses pkg3.position houses delivered
      ({ pkg3 with active := false }, r.1, r.2)
    else (pkg3, houses, delivered)

/-- The loop `for (auto& pkg : packages)` (main.cpp 584-611), in stored order. -/
def update_physics_loop (deltaTime : ℚ) :
    List Package → List House → Int → List Package × List House × Int
  | [], houses, delivered => ([], houses, delivered)
  | pkg :: rest, houses, delivered =>
    let r := update_physics_package deltaTime pkg houses delivered
    let t := update_physics_loop deltaTime rest r.2.1 r.2.2
    (r.1 :: t.1, t.2.1, t.2.2)

/-- The function `update_physics(deltaTime)` (main.cpp 580-618): advance
`windTime`, run the package loop, then erase every package with `!active`
(`std::remove_if` keeps the order of the packages that stay). -/
def update_physics (deltaTime : ℚ) (s : Scene) : Scene :=
  let r := update_physics_loop deltaTime s.packages s.houses s.deliveredPackages
  { s with
    windTime := s.windTime + deltaTime
    packages := r.1.filter (fun p => p.active)
    houses := r.2.1
    deliveredPackages := r.2.2 }

/-! ## Runs of the frame loop -/

/-- The two things a frame of `main` does to the delivery state: the physics
tick (main.cpp 744) and, on the E key, the guarded drop request (778-781). -/
inductive Action where
  | tick (deltaTime : ℚ)
  | drop (rnd : Nat)

/-- One action on the scene. -/
def Action.apply (s : Scene) : Action → Scene
  | Action.tick deltaTime => update_physics deltaTime s
  | Action.drop rnd => main_drop_request rnd s

/-- A finite run of actions, first action first. -/
def run (s : Scene) (acts : List Action) : Scene := acts.foldl Action.apply s

/-- The scene after `n` calls of `update_physics(deltaTime)` in a row. -/
def ticks (deltaTime : ℚ) : Nat → Scene → Scene
  | 0, s => s
  | n + 1, s => ticks deltaTime n (update_physics deltaTime s)

/-! ## Specification-side vocabulary -/

/-- Square of the horizontal `(x, z)` distance between a point and a house. -/
def horizontalSq (p : Vec3) (h : House) : ℚ :=
  (p.x - h.position.x) ^ 2 + (p.z - h.position.z) ^ 2

/-- A house that a package landing at `p` may be delivered to, in the words of
the specification: undelivered and at horizontal distance `< 20`. -/
def eligible (p : Vec3) (h : House) : Prop :=
  h.hasPackage = false ∧ horizontalSq p h < 20 ^ 2

instance (p : Vec3) (h : House) : Decidable (eligible p h) :=
  inferInstanceAs (Decidable (h.hasPackage = false ∧ horizontalSq p h < 20 ^ 2))

/-- An active package whose integrated height is at most `5.0` lands in this tick. -/
def lands (deltaTime : ℚ) (p : Package) : Prop :=
  p.active = true ∧ p.position.y + p.velocity.y * deltaTime ≤ 5

instance (deltaTime : ℚ) (p : Package) : Decidable (lands deltaTime p) :=
  inferInstanceAs (Decidable (p.active = true ∧ p.position.y + p.velocity.y * deltaTime ≤ 5))

/-- Number of houses whose flag is `false` in `before` and `true` in `after`,
position by position. -/
def flippedCount (before after : List House) : Nat :=
  ((before.zip after).filter (fun ab => !ab.1.hasPackage && ab.2.hasPackage)).length

/-- What a tick may do to one house: position and type stay, and the flag
can only go from `false` to `true`. -/
def HouseStep (a b : House) : Prop :=
  a.position = b.position ∧ a.houseType = b.houseType ∧
    (a.hasPackage = true → b.hasPackage = true)

/-- The point `position + velocity * deltaTime` a package is moved to by a tick. -/
def landingPoint (deltaTime : ℚ) (p : Package) : Vec3 :=
  Vec3.add p.position (Vec3.scale p.velocity deltaTime)

/-- A scene with the given houses, packages and counter, the airship at its
initial pose `(0, 100, 0)` and no trees or rocks; used for concrete evaluations. -/
def sceneOf (houses : List House) (packages : List Package) (delivered : Int) : Scene :=
  { houses := houses
    treePositions := []
    rockPositions := []
    packages := packages
    airshipPosition := ⟨0, 100, 0⟩
    airshipRotation := 0
    windTime := 0
    deliveredPackages := delivered
    totalHouses := houses.length }

/-! ## Mesh data model and library functions (main.cpp 49-55)

The mesh code is embedded over an arbitrary linearly ordered field `F` of
exact numbers, and the library functions `sin`, `cos` and `sqrt` it calls are
taken as a parameter `lib`: over `ℚ` with any functions the definitions run,
over `ℝ` with `Real.sin`, `Real.cos` and `Real.sqrt` they have the exact
meaning of the C++ expressions. -/

/-- The vector type `glm::vec2` of the mesh code. -/
structure GVec2 (F : Type) where
  x : F
  y : F
deriving DecidableEq

/-- The vector type `glm::vec3` of the mesh code. -/
structure GVec3 (F : Type) where
  x : F
  y : F
  z : F
deriving DecidableEq

/-- The record `struct Vertex` (main.cpp 49-55). -/
structure Vertex (F : Type) where
  position : GVec3 F
  texCoords : GVec2 F
  normal : GVec3 F
  tangent : GVec3 F
  type : F
deriving DecidableEq

/-- The functions of the C math library that the mesh code calls. -/
structure FloatLib (F : Type) where
  sin : F → F
  cos : F → F
  sqrt : F → F

/-- The macro `M_PI` (main.cpp 20-22). -/
def M_PI {F : Type} [LinearOrderedField F] : F := 3.14159265358979323846

/-- Difference `a - b` on `glm::vec2`. -/
def GVec2.sub {F : Type} [LinearOrderedField F] (a b : GVec2 F) : GVec2 F :=
  ⟨a.x - b.x, a.y - b.y⟩

/-- Sum `a + b` on `glm::vec3`. -/
def GVec3.add {F : Type} [LinearOrderedField F] (a b : GVec3 F) : GVec3 F :=
  ⟨a.x + b.x, a.y + b.y, a.z + b.z⟩

/-- Difference `a - b` on `glm::vec3`. -/
def GVec3.sub {F : Type} [LinearOrderedField F] (a b : GVec3 F) : GVec3 F :=
  ⟨a.x - b.x, a.y - b.y, a.z - b.z⟩

/-- Product `v * s` of a `glm::vec3` with a scalar. -/
def GVec3.scale {F : Type} [LinearOrderedField F] (v : GVec3 F) (s : F) : GVec3 F :=
  ⟨v.x * s, v.y * s, v.z * s⟩

/-- The dot product `glm::dot`. -/
def GVec3.dot {F : Type} [LinearOrderedField F] (a b : GVec3 F) : F :=
  a.x * b.x + a.y * b.y + a.z * b.z

/-- The function `glm::length(v) = sqrt(dot(v, v))`. -/
def glm_length {F : Type} [LinearOrderedField F] (lib : FloatLib F) (v : GVec3 F) : F :=
  lib.sqrt (GVec3.dot v v)

/-- The function `glm::inversesqrt(x) = 1 / sqrt(x)`. -/
def glm_inversesqrt {F : Type} [LinearOrderedField F] (lib : FloatLib F) (x : F) : F :=
  1 / lib.sqrt x

/-- The function `glm::normalize(v) = v * inversesqrt(dot(v, v))`. -/
def glm_normalize {F : Type} [LinearOrderedField F] (lib : FloatLib F) (v : GVec3 F) :
    GVec3 F :=
  GVec3.scale v (glm_inversesqrt lib (GVec3.dot v v))

/-! ## `computeTangents` (main.cpp 137-172) -/

/-- The body of the loop of `computeTangents` for one triple: the tangent that
is written to `v0`, `v1` and `v2`. -/
def computeTangents_tangent {F : Type} [LinearOrderedField F] (lib : FloatLib F)
    (v0 v1 v2 : Vertex F) : GVec3 F :=
  let edge1 := GVec3.sub v1.position v0.position
  let edge2 := GVec3.sub v2.position v0.position
  let deltaUV1 := GVec2.sub v1.texCoords v0.texCoords
  let deltaUV2 := GVec2.sub v2.texCoords v0.texCoords
  let denom := deltaUV1.x * deltaUV2.y - deltaUV2.x * deltaUV1.y
  let f : F := if 0.0001 < |denom| then 1 / denom else 1
  let tangent : GVec3 F :=
    ⟨f * (deltaUV2.y * edge1.x - deltaUV1.y * edge2.x),
     f * (deltaUV2.y * edge1.y - deltaUV1.y * edge2.y),
     f * (deltaUV2.y * edge1.z - deltaUV1.y * edge2.z)⟩
  if 0.0001 < glm_length lib tangent then glm_normalize lib tangent else ⟨1, 0, 0⟩

/-- The function `computeTangents(vertices)` (main.cpp 137-172): the loop takes
the vertices three at a time and stops (`break`) when fewer than three are
left. -/
def computeTangents {F : Type} [LinearOrderedField F] (lib : FloatLib F) :
    List (Vertex F) → List (Vertex F)
  | v0 :: v1 :: v2 :: rest =>
    let tangent := computeTangents_tangent lib v0 v1 v2
    { v0 with tangent := tangent } :: { v1 with tangent := tangent }
      :: { v2 with tangent := tangent } :: computeTangents lib rest
  | vertices => vertices

/-! ## The generators (main.cpp 174-463) -/

/-- The table `faces[6][4]` of the three box generators. -/
def box_faces : List (Nat × Nat × Nat × Nat) :=
  [(0, 1, 2, 3), (4, 5, 6, 7), (0, 1, 5, 4), (2, 3, 7, 6), (0, 3, 7, 4), (1, 2, 6, 5)]

/-- The table `normals[6]` of the three box generators. -/
def box_normals {F : Type} [LinearOrderedField F] : List (GVec3 F) :=
  [⟨0, -1, 0⟩, ⟨0, 1, 0⟩, ⟨0, 0, -1⟩, ⟨0, 0, 1⟩, ⟨-1, 0, 0⟩, ⟨1, 0, 0⟩]

/-- The table `verticesList[8]` of `generate_package` and `generate_rock`. -/
def box_verticesList {F : Type} [LinearOrderedField F] (size : F) : List (GVec3 F) :=
  [⟨-size, -size, -size⟩, ⟨size, -size, -size⟩, ⟨size, -size, size⟩, ⟨-size, -size, size⟩,
   ⟨-size, size, -size⟩, ⟨size, size, -size⟩, ⟨size, size, size⟩, ⟨-size, size, size⟩]

/-- The table `base[8]` of `generate_house`. -/
def house_base {F : Type} [LinearOrderedField F] (size height : F) : List (GVec3 F) :=
  [⟨-size, 0, -size⟩, ⟨size, 0, -size⟩, ⟨size, 0, size⟩, ⟨-size, 0, size⟩,
   ⟨-size, height, -size⟩, ⟨size, height, -size⟩, ⟨size, height, size⟩,
   ⟨-size, height, size⟩]

/-- The body of the loop `for (int face = 0; face < 6; face++)` of the three box
generators: six `push_back` calls, with the corner table and the type tag of
the generator. -/
def box_face {F : Type} [LinearOrderedField F] (corners : List (GVec3 F)) (type : F)
    (vertices : List (Vertex F)) (face : Nat) : List (Vertex F) :=
  let normal : GVec3 F := box_normals.getD face ⟨0, 0, 0⟩
  let f := box_faces.getD face (0, 0, 0, 0)
  let c0 := corners.getD f.1 ⟨0, 0, 0⟩
  let c1 := corners.getD f.2.1 ⟨0, 0, 0⟩
  let c2 := corners.getD f.2.2.1 ⟨0, 0, 0⟩
  let c3 := corners.getD f.2.2.2 ⟨0, 0, 0⟩
  vertices ++
    [⟨c0, ⟨0, 0⟩, normal, ⟨1, 0, 0⟩, type⟩, ⟨c1, ⟨1, 0⟩, normal, ⟨1, 0, 0⟩, type⟩,
     ⟨c2, ⟨1, 1⟩, normal, ⟨1, 0, 0⟩, type⟩, ⟨c0, ⟨0, 0⟩, normal, ⟨1, 0, 0⟩, type⟩,
     ⟨c2, ⟨1, 1⟩, normal, ⟨1, 0, 0⟩, type⟩, ⟨c3, ⟨0, 1⟩, normal, ⟨1, 0, 0⟩, type⟩]

/-- The function `generate_package(vertices)` (main.cpp 174-214): a box of size
`0.5` with type tag `1.0f`, then `computeTangents` on the whole list. -/
def generate_package {F : Type} [LinearOrderedField F] (lib : FloatLib F)
    (vertices : List (Vertex F)) : List (Vertex F) :=
  computeTangents lib ((List.range 6).foldl (box_face (box_verticesList 0.5) 1) vertices)

/-- The function `generate_rock(vertices)` (main.cpp 328-358): a box of size `3`
with type tag `0.0f`. -/
def generate_rock {F : Type} [LinearOrderedField F] (vertices : List (Vertex F)) :
    List (Vertex F) :=
  (List.range 6).foldl (box_face (box_verticesList 3) 0) vertices

/-- The function `generate_house(vertices, type)` (main.cpp 360-391): a box on
the ground of half-width `5` and height `8` with type tag `0.0f`; the argument
`type` is not used. -/
def generate_house {F : Type} [LinearOrderedField F] (vertices : List (Vertex F))
    (_type : Int) : List (Vertex F) :=
  (List.range 6).foldl (box_face (house_base 5 8) 0) vertices

/-- The six vertices that `generate_terrain` pushes for the cell `(x, z)`. -/
def generate_terrain_cell {F : Type} [LinearOrderedField F] (width height : Nat) (scale : F)
    (z x : Nat) : List (Vertex F) :=
  let x0 : F := ((x : F) / ((width - 1 : Nat) : F) - 0.5) * scale
  let x1 : F := (((x + 1 : Nat) : F) / ((width - 1 : Nat) : F) - 0.5) * scale
  let z0 : F := ((z : F) / ((height - 1 : Nat) : F) - 0.5) * scale
  let z1 : F := (((z + 1 : Nat) : F) / ((height - 1 : Nat) : F) - 0.5) * scale
  let p00 : GVec3 F := ⟨x0, 0, z0⟩
  let p10 : GVec3 F := ⟨x1, 0, z0⟩
  let p01 : GVec3 F := ⟨x0, 0, z1⟩
  let p11 : GVec3 F := ⟨x1, 0, z1⟩
  let normal : GVec3 F := ⟨0, 1, 0⟩
  [⟨p00, ⟨0, 0⟩, normal, ⟨1, 0, 0⟩, 0⟩, ⟨p10, ⟨1, 0⟩, normal, ⟨1, 0, 0⟩, 0⟩,
   ⟨p01, ⟨0, 1⟩, normal, ⟨1, 0, 0⟩, 0⟩, ⟨p10, ⟨1, 0⟩, normal, ⟨1, 0, 0⟩, 0⟩,
   ⟨p11, ⟨1, 1⟩, normal, ⟨1, 0, 0⟩, 0⟩, ⟨p01, ⟨0, 1⟩, normal, ⟨1, 0, 0⟩, 0⟩]

/-- The function `generate_terrain(vertices)` (main.cpp 220-256): `width = 10`,
`height = 10`, `scale = 500`, the loops run over `z < height - 1` and
`x < width - 1`. -/
def generate_terrain {F : Type} [LinearOrderedField F] (vertices : List (Vertex F)) :
    List (Vertex F) :=
  (List.range (10 - 1)).foldl
    (fun vs z => (List.range (10 - 1)).foldl
      (fun ws x => ws ++ generate_terrain_cell 10 10 500 z x) vs)
    vertices

/-- The six vertices that the trunk loop of `generate_tree` pushes for segment `i`. -/
def generate_tree_trunk {F : Type} [LinearOrderedField F] (lib : FloatLib F)
    (trunkRadius trunkHeight : F) (trunkSegments i : Nat) : List (Vertex F) :=
  let angle1 : F := 2 * M_PI * (i : F) / (trunkSegments : F)
  let angle2 : F := 2 * M_PI * ((i + 1 : Nat) : F) / (trunkSegments : F)
  let p1 : GVec3 F := ⟨lib.cos angle1 * trunkRadius, 0, lib.sin angle1 * trunkRadius⟩
  let p2 : GVec3 F := ⟨lib.cos angle2 * trunkRadius, 0, lib.sin angle2 * trunkRadius⟩
  let p3 := GVec3.add p1 ⟨0, trunkHeight, 0⟩
  let p4 := GVec3.add p2 ⟨0, trunkHeight, 0⟩
  let normal1 := glm_normalize lib ⟨p1.x, 0, p1.z⟩
  let normal2 := glm_normalize lib ⟨p2.x, 0, p2.z⟩
  [⟨p1, ⟨0, 0⟩, normal1, ⟨1, 0, 0⟩, 2⟩, ⟨p2, ⟨1, 0⟩, normal2, ⟨1, 0, 0⟩, 2⟩,
   ⟨p3, ⟨0, 1⟩, normal1, ⟨1, 0, 0⟩, 2⟩, ⟨p2, ⟨1, 0⟩, normal2, ⟨1, 0, 0⟩, 2⟩,
   ⟨p4, ⟨1, 1⟩, normal2, ⟨1, 0, 0⟩, 2⟩, ⟨p3, ⟨0, 1⟩, normal1, ⟨1, 0, 0⟩, 2⟩]

/-- The three vertices that the crown loop of `generate_tree` pushes for segment `i`. -/
def generate_tree_crown {F : Type} [LinearOrderedField F] (lib : FloatLib F)
    (crownRadius trunkHeight crownHeight : F) (crownSegments i : Nat) : List (Vertex F) :=
  let crownTop : GVec3 F := ⟨0, trunkHeight + crownHeight, 0⟩
  let angle1 : F := 2 * M_PI * (i : F) / (crownSegments : F)
  let angle2 : F := 2 * M_PI * ((i + 1 : Nat) : F) / (crownSegments : F)
  let p1 : GVec3 F := ⟨lib.cos angle1 * crownRadius, trunkHeight, lib.sin angle1 * crownRadius⟩
  let p2 : GVec3 F := ⟨lib.cos angle2 * crownRadius, trunkHeight, lib.sin angle2 * crownRadius⟩
  let normal1 := glm_normalize lib ⟨p1.x, crownRadius * 0.5, p1.z⟩
  let normal2 := glm_normalize lib ⟨p2.x, crownRadius * 0.5, p2.z⟩
  [⟨p1, ⟨0, 0⟩, normal1, ⟨1, 0, 0⟩, 2⟩, ⟨p2, ⟨1, 0⟩, normal2, ⟨1, 0, 0⟩, 2⟩,
   ⟨crownTop, ⟨0.5, 1⟩, glm_normalize lib (GVec3.add normal1 normal2), ⟨1, 0, 0⟩, 2⟩]

/-- The three vertices that the cap loop of `generate_tree` pushes for segment `i`. -/
def generate_tree_cap {F : Type} [LinearOrderedField F] (lib : FloatLib F)
    (crownRadius trunkHeight : F) (crownSegments i : Nat) : List (Vertex F) :=
  let angle1 : F := 2 * M_PI * (i : F) / (crownSegments : F)
  let angle2 : F := 2 * M_PI * ((i + 1 : Nat) : F) / (crownSegments : F)
  let p1 : GVec3 F := ⟨lib.cos angle1 * crownRadius, trunkHeight, lib.sin angle1 * crownRadius⟩
  let p2 : GVec3 F := ⟨lib.cos angle2 * crownRadius, trunkHeight, lib.sin angle2 * crownRadius⟩
  let center : GVec3 F := ⟨0, trunkHeight, 0⟩
  let normal : GVec3 F := ⟨0, -1, 0⟩
  [⟨center, ⟨0.5, 0.5⟩, normal, ⟨1, 0, 0⟩, 2⟩, ⟨p1, ⟨0, 0⟩, normal, ⟨1, 0, 0⟩, 2⟩,
   ⟨p2, ⟨1, 0⟩, normal, ⟨1, 0, 0⟩, 2⟩]

/-- The function `generate_tree(vertices, height)` (main.cpp 258-326): the trunk
loop over 8 segments, the crown loop and the cap loop over 16 segments each. -/
def generate_tree {F : Type} [LinearOrderedField F] (lib : FloatLib F)
    (vertices : List (Vertex F)) (height : F) : List (Vertex F) :=
  let trunkRadius : F := 0.8
  let trunkHeight : F := height * 0.6
  let crownRadius : F := 2.5
  let crownHeight : F := height * 0.4
  let vs1 := (List.range 8).foldl
    (fun vs i => vs ++ generate_tree_trunk lib trunkRadius trunkHeight 8 i) vertices
  let vs2 := (List.range 16).foldl
    (fun vs i => vs ++ generate_tree_crown lib crownRadius trunkHeight crownHeight 16 i) vs1
  (List.range 16).foldl
    (fun vs i => vs ++ generate_tree_cap lib crownRadius trunkHeight 16 i) vs2

/-- The point of the ellipsoid with radii `10`, `5`, `20` at the angles
`phi`, `theta`, as `generate_airship` computes `p1` to `p4`. -/
def generate_airship_point {F : Type} [LinearOrderedField F] (lib : FloatLib F)
    (phi theta : F) : GVec3 F :=
  ⟨10 * lib.sin phi * lib.cos theta, 5 * lib.cos phi, 20 * lib.sin phi * lib.sin theta⟩

/-- The vector `p2 - p1` that `generate_airship` normalizes into `tangent` for
the stack `i` and the sector `j`; `numStacks` and `numSectors` stand for the
locals `stacks` and `sectors`. -/
def generate_airship_edge {F : Type} [LinearOrderedField F] (lib : FloatLib F)
    (numStacks numSectors i j : Nat) : GVec3 F :=
  let phi1 : F := M_PI * (i : F) / (numStacks : F)
  let theta1 : F := 2 * M_PI * (j : F) / (numSectors : F)
  let theta2 : F := 2 * M_PI * ((j + 1 : Nat) : F) / (numSectors : F)
  GVec3.sub (generate_airship_point lib phi1 theta2) (generate_airship_point lib phi1 theta1)

/-- The body of the two loops of `generate_airship` for the stack `i` and the
sector `j`: the vertices it pushes. -/
def generate_airship_cell {F : Type} [LinearOrderedField F] (lib : FloatLib F)
    (numStacks numSectors i j : Nat) : List (Vertex F) :=
  let phi1 : F := M_PI * (i : F) / (numStacks : F)
  let phi2 : F := M_PI * ((i + 1 : Nat) : F) / (numStacks : F)
  let theta1 : F := 2 * M_PI * (j : F) / (numSectors : F)
  let theta2 : F := 2 * M_PI * ((j + 1 : Nat) : F) / (numSectors : F)
  let p1 := generate_airship_point lib phi1 theta1
  let p2 := generate_airship_point lib phi1 theta2
  let p3 := generate_airship_point lib phi2 theta1
  let p4 := generate_airship_point lib phi2 theta2
  let normal1 := glm_normalize lib p1
  let normal2 := glm_normalize lib p2
  let normal3 := glm_normalize lib p3
  let normal4 := glm_normalize lib p4
  let tangent := glm_normalize lib (generate_airship_edge lib numStacks numSectors i j)
  if i = 0 then
    [⟨p1, ⟨0, 0⟩, normal1, tangent, 0⟩, ⟨p2, ⟨1, 0⟩, normal2, tangent, 0⟩,
     ⟨p3, ⟨0, 1⟩, normal3, tangent, 0⟩]
  else if i = numStacks - 1 then
    [⟨p3, ⟨0, 1⟩, normal3, tangent, 0⟩, ⟨p2, ⟨1, 0⟩, normal2, tangent, 0⟩,
     ⟨p4, ⟨1, 1⟩, normal4, tangent, 0⟩]
  else
    [⟨p1, ⟨0, 0⟩, normal1, tangent, 0⟩, ⟨p2, ⟨1, 0⟩, normal2, tangent, 0⟩,
     ⟨p4, ⟨1, 1⟩, normal4, tangent, 0⟩, ⟨p1, ⟨0, 0⟩, normal1, tangent, 0⟩,
     ⟨p4, ⟨1, 1⟩, normal4, tangent, 0⟩, ⟨p3, ⟨0, 1⟩, normal3, tangent, 0⟩]

/-- The inner loop `for (int j = 0; j < numSectors; ++j)` of `generate_airship` for
the stack `i`: one ring of the hull. -/
def generate_airship_ring {F : Type} [LinearOrderedField F] (lib : FloatLib F)
    (numStacks numSectors : Nat) (vertices : List (Vertex F)) (i : Nat) : List (Vertex F) :=
  (List.range numSectors).foldl
    (fun vs j => vs ++ generate_airship_cell lib numStacks numSectors i j) vertices

/-- The function `generate_airship(vertices)` (main.cpp 393-463) with
`stacks = 8` and `sectors = 16`. -/
def generate_airship {F : Type} [LinearOrderedField F] (lib : FloatLib F)
    (vertices : List (Vertex F)) : List (Vertex F) :=
  (List.range 8).foldl (generate_airship_ring lib 8 16) vertices

/-! ## `create_object` (main.cpp 465-535) -/

/-- The vertex list that `create_object(type, ...)` builds and hands to
`glBufferData` (main.cpp 469-502): the generator chosen by the type string,
the package generator when the list is still empty, then `computeTangents`. -/
def create_object_vertices {F : Type} [LinearOrderedField F] (lib : FloatLib F)
    (type : String) : List (Vertex F) :=
  let vertices0 : List (Vertex F) := []
  let vertices1 : List (Vertex F) :=
    if type = "FIELD" then generate_terrain vertices0
    else if type = "TREE" then generate_tree lib vertices0 12
    else if type = "ROCK" then generate_rock vertices0
    else if type = "HOUSE1" ∨ type = "HOUSE2" ∨ type = "HOUSE3" then
      generate_house vertices0 0
    else if type = "AIRSHIP" then generate_airship lib vertices0
    else if type = "PACKAGE" then generate_package lib vertices0
    else vertices0
  let vertices2 := if vertices1.isEmpty then generate_package lib vertices1 else vertices1
  computeTangents lib vertices2

/-! ## `generate_random_positions` (main.cpp 537-567) -/

/-- The outcomes of the random sources of `generate_random_positions`: the
successive values of `distPos(rng)`, of `distType(rng)` and of `rand()`. -/
structure RandomDraws where
  distPos : Nat → ℚ
  distType : Nat → Int
  rand : Nat → Nat

/-- The constant `const int NUM_HOUSES = 10;` (main.cpp 24). -/
def NUM_HOUSES : Nat := 10

/-- The constant `const int NUM_TREES = 15;` (main.cpp 25). -/
def NUM_TREES : Nat := 15

/-- The constant `const int NUM_ROCKS = 10;` (main.cpp 26). -/
def NUM_ROCKS : Nat := 10

/-- The function `generate_random_positions()` (main.cpp 537-567).  The three
collections are cleared and refilled; house `i` takes two position draws and one
type draw, tree `i` three position draws and one `rand()`, rock `i` two position
draws, in the order of the calls (C++ does not fix which of the two draws inside
one `glm::vec3(...)` call comes first; here the first draw is `x`). -/
def generate_random_positions (draws : RandomDraws) (s : Scene) : Scene :=
  let houses : List House := (List.range NUM_HOUSES).foldl
    (fun hs i => hs ++ [{ position := ⟨draws.distPos (2 * i), 0, draws.distPos (2 * i + 1)⟩
                          hasPackage := false
                          houseType := draws.distType i }]) []
  let treePositions : List TreeObject := (List.range NUM_TREES).foldl
    (fun ts i => ts ++ [{ position := ⟨draws.distPos (2 * NUM_HOUSES + 3 * i), 0,
                            draws.distPos (2 * NUM_HOUSES + 3 * i + 1)⟩
                          windOffset := draws.distPos (2 * NUM_HOUSES + 3 * i + 2)
                          treeHeight := 10 + ((draws.rand i % 50 : Nat) : ℚ) / 10 }]) []
  let rockPositions : List Vec3 := (List.range NUM_ROCKS).foldl
    (fun rs i => rs ++ [⟨draws.distPos (2 * NUM_HOUSES + 3 * NUM_TREES + 2 * i), 0,
                          draws.distPos (2 * NUM_HOUSES + 3 * NUM_TREES + 2 * i + 1)⟩]) []
  { s with
    houses := houses
    treePositions := treePositions
    rockPositions := rockPositions
    totalHouses := NUM_HOUSES
    deliveredPackages := 0 }

/-! ## Specification-side vocabulary for the meshes -/

/-- A vertex with its tangent set to zero: everything of a vertex but the tangent. -/
def Vertex.withoutTangent {F : Type} [LinearOrderedField F] (v : Vertex F) : Vertex F :=
  { v with tangent := ⟨0, 0, 0⟩ }

/-- The contract of an exact square root: on non-negative numbers `sqrt x` is
the non-negative number whose square is `x`. -/
def FloatLib.SqrtExact {F : Type} [LinearOrderedField F] (lib : FloatLib F) : Prop :=
  ∀ x : F, 0 ≤ x → 0 ≤ lib.sqrt x ∧ lib.sqrt x * lib.sqrt x = x

/-- The contract of exact `sin` and `cos` that the hull needs: the Pythagorean
identity. -/
def FloatLib.TrigExact {F : Type} [LinearOrderedField F] (lib : FloatLib F) : Prop :=
  ∀ x : F, lib.sin x ^ 2 + lib.cos x ^ 2 = 1

/-- The number `denom = d1.x * d2.y - d2.x * d1.y` of the tangent solver, in the
words of the specification, with `d1 = v1.uv - v0.uv` and `d2 = v2.uv - v0.uv`. -/
def tangentDenom {F : Type} [LinearOrderedField F] (v0 v1 v2 : Vertex F) : F :=
  (GVec2.sub v1.texCoords v0.texCoords).x * (GVec2.sub v2.texCoords v0.texCoords).y
    - (GVec2.sub v2.texCoords v0.texCoords).x * (GVec2.sub v1.texCoords v0.texCoords).y

/-- The vector `r = f * (d2.y * e1 - d1.y * e2)` of the tangent solver, in the
words of the specification, with `f = 1 / denom` if `|denom| > 1e-4` else `1`,
`e1 = v1.pos - v0.pos` and `e2 = v2.pos - v0.pos`. -/
def tangentRaw {F : Type} [LinearOrderedField F] (v0 v1 v2 : Vertex F) : GVec3 F :=
  GVec3.scale
    (GVec3.sub
      (GVec3.scale (GVec3.sub v1.position v0.position)
        (GVec2.sub v2.texCoords v0.texCoords).y)
      (GVec3.scale (GVec3.sub v2.position v0.position)
        (GVec2.sub v1.texCoords v0.texCoords).y))
    (if 0.0001 < |tangentDenom v0 v1 v2| then 1 / tangentDenom v0 v1 v2 else 1)

/-- The tangent of a triangle in the words of the specification: `r / |r|` if
`|r| > 1e-4` and the X axis otherwise. -/
def tangentSpec {F : Type} [LinearOrderedField F] (lib : FloatLib F) (v0 v1 v2 : Vertex F) :
    GVec3 F :=
  if 0.0001 < glm_length lib (tangentRaw v0 v1 v2) then
    ⟨(tangentRaw v0 v1 v2).x / glm_length lib (tangentRaw v0 v1 v2),
     (tangentRaw v0 v1 v2).y / glm_length lib (tangentRaw v0 v1 v2),
     (tangentRaw v0 v1 v2).z / glm_length lib (tangentRaw v0 v1 v2)⟩
  else ⟨1, 0, 0⟩

/-! ## Binary32 arithmetic

The second embedding of `drop_package`, `update_physics` and
`computeTangents` keeps the rounding of every `float` operation.  A finite
`float` is the rational it denotes; an operation of the source stores the
`float` nearest to its exact result, so `a + b` of the source is
`fl (a + b)`, `a * b` is `fl (a * b)`, and so on, one rounding per operation in
the order of the source (no fused multiply-add, no wider intermediate
precision).  Literals that are `float` values (`0`, `5.0f`, `20.0f`, ...) stand
for themselves; `9.8f` and `0.0001f` are `fl 9.8` and `fl 0.0001`.  Results
beyond the largest finite `float` (infinities) and NaN are outside the model:
the exponent range is unbounded above. -/

/-- The arithmetic of the C++ type `float` as far as the code uses it: `fl x`
is the `float` an operation stores when its exact result is `x`, and `sqrt`
is the function `sqrt` on `float` (called by `glm::length` and
`glm::inversesqrt`). -/
structure Rounding where
  fl : ℚ → ℚ
  sqrt : ℚ → ℚ

/-- The number `floor (log2 n)` for `n ≥ 1` (and `0` for `n = 0`), by halving;
the first argument bounds the number of halvings. -/
def log2Aux : Nat → Nat → Nat
  | 0, _ => 0
  | fuel + 1, n => if n < 2 then 0 else log2Aux fuel (n / 2) + 1

/-- The number `floor (log2 n)` for `n ≥ 1`. -/
def natLog2 (n : Nat) : Nat := log2Aux n n

/-- The number `q * 2 ^ k` for an integer `k`. -/
def scale2 (q : ℚ) (k : Int) : ℚ :=
  if 0 ≤ k then q * ((2 ^ k.toNat : Nat) : ℚ) else q / ((2 ^ (-k).toNat : Nat) : ℚ)

/-- The binary exponent of a positive rational: the integer `e` with
`2 ^ e ≤ x < 2 ^ (e + 1)`. -/
def ilog2 (x : ℚ) : Int :=
  let e0 : Int := (natLog2 x.num.natAbs : Int) - (natLog2 x.den : Int)
  if scale2 1 e0 ≤ x then e0 else e0 - 1

/-- The integer nearest to `q`, ties to the even one. -/
def roundHalfEven (q : ℚ) : Int :=
  if q - ⌊q⌋ < 1 / 2 then ⌊q⌋
  else if 1 / 2 < q - ⌊q⌋ then ⌊q⌋ + 1
  else if ⌊q⌋ % 2 = 0 then ⌊q⌋ else ⌊q⌋ + 1

/-- Rounding to IEEE 754 binary32 (the type `float`), to nearest, ties to even:
24 significant bits, least exponent `-126` with gradual underflow below it. -/
def roundF32 (x : ℚ) : ℚ :=
  if x = 0 then 0
  else
    let e : Int := max (ilog2 |x|) (-126)
    let y : ℚ := scale2 (roundHalfEven (scale2 |x| (23 - e)) : ℚ) (e - 23)
    if x < 0 then -y else y

/-- The integer square root of `n < 4 ^ i`, bit by bit from bit `i - 1` down;
`r` holds the bits found so far. -/
def isqrtAux (n : Nat) : Nat → Nat → Nat
  | 0, r => r
  | i + 1, r =>
    if (r + 2 ^ i) * (r + 2 ^ i) ≤ n then isqrtAux n i (r + 2 ^ i) else isqrtAux n i r

/-- The correctly rounded square root of binary32 (`sqrtf`): the argument is
scaled by a power of four into `[2 ^ 46, 2 ^ 48)`, whose integer square root `s`
has 24 bits, and `s` or `s + 1` is chosen by comparing with `(s + 1/2) ^ 2`. -/
def sqrtF32 (x : ℚ) : ℚ :=
  if x ≤ 0 then 0
  else
    let h : Int := ilog2 x / 2
    let t : ℚ := scale2 x (2 * (23 - h))
    let s : Nat := isqrtAux ⌊t⌋.toNat 24 0
    let m : ℚ := ((s * s + s : Nat) : ℚ) + 1 / 4
    let n : Nat := if t < m then s else if m < t then s + 1 else if s % 2 = 0 then s else s + 1
    scale2 (n : ℚ) (h - 23)

/-- The arithmetic of IEEE 754 binary32. -/
def f32 : Rounding := ⟨roundF32, sqrtF32⟩

/-- Sum `a + b` on `glm::vec3`, each component rounded. -/
def Vec3.add_fl (R : Rounding) (a b : Vec3) : Vec3 :=
  ⟨R.fl (a.x + b.x), R.fl (a.y + b.y), R.fl (a.z + b.z)⟩

/-- Difference `a - b` on `glm::vec3`, each component rounded. -/
def Vec3.sub_fl (R : Rounding) (a b : Vec3) : Vec3 :=
  ⟨R.fl (a.x - b.x), R.fl (a.y - b.y), R.fl (a.z - b.z)⟩

/-- Product `v * s` of a `glm::vec3` with a scalar, each component rounded. -/
def Vec3.scale_fl (R : Rounding) (v : Vec3) (s : ℚ) : Vec3 :=
  ⟨R.fl (v.x * s), R.fl (v.y * s), R.fl (v.z * s)⟩

/-- The dot product `glm::dot` on `glm::vec3`: `tmp = a * b` componentwise, then
`tmp.x + tmp.y + tmp.z`. -/
def Vec3.dot_fl (R : Rounding) (a b : Vec3) : ℚ :=
  R.fl (R.fl (R.fl (a.x * b.x) + R.fl (a.y * b.y)) + R.fl (a.z * b.z))

/-- The function `glm::distance(p0, p1) = length(p1 - p0)`, with
`length(v) = sqrt(dot(v, v))`. -/
def glm_distance_fl (R : Rounding) (p0 p1 : Vec3) : ℚ :=
  R.sqrt (Vec3.dot_fl R (Vec3.sub_fl R p1 p0) (Vec3.sub_fl R p1 p0))

/-- The function `drop_package()` (main.cpp 569-578) in `float` arithmetic; `rnd`
is the value returned by `rand()`.  The conversion of `rand() % 100` to `float`
is exact. -/
def drop_package_fl (R : Rounding) (rnd : Nat) (s : Scene) : Scene :=
  let pkg : Package :=
    { position := Vec3.add_fl R s.airshipPosition ⟨0, -10, 0⟩
      velocity := ⟨0, -20, 0⟩
      active := true
      rotation := 0
      rotationSpeed := R.fl (R.fl (((rnd % 100 : Nat) : ℚ) / 100) * 2) }
  { s with packages := s.packages ++ [pkg] }

/-- The guarded drop request of `main` (main.cpp 778-781) in `float` arithmetic. -/
def main_drop_request_fl (R : Rounding) (rnd : Nat) (s : Scene) : Scene :=
  if s.packages.length < NUM_PACKAGES_MAX then drop_package_fl R rnd s else s

/-- The inner loop `for (auto& house : houses)` of `update_physics`
(main.cpp 596-610) in `float` arithmetic, for a package that landed at `pkgPos`:
the first house that has no package and for which the computed
`glm::distance(glm::vec3(pkgPos.x, 0, pkgPos.z), house.position)` is `< 20.0f`
is marked, the counter is incremented and the loop breaks. -/
def update_physics_houses_fl (R : Rounding) (pkgPos : Vec3) :
    List House → Int → List House × Int
  | [], delivered => ([], delivered)
  | house :: rest, delivered =>
    if house.hasPackage = false then
      if glm_distance_fl R ⟨pkgPos.x, 0, pkgPos.z⟩ house.position < 20 then
        ({ house with hasPackage := true } :: rest, delivered + 1)
      else
        let r := update_physics_houses_fl R pkgPos rest delivered
        (house :: r.1, r.2)
    else
      let r := update_physics_houses_fl R pkgPos rest delivered
      (house :: r.1, r.2)

/-- The integration statements of the loop body (main.cpp 587-590) in `float`
arithmetic, in source order: `position += velocity * deltaTime`,
`rotation += rotationSpeed * deltaTime`,
`velocity.y -= 9.8f * deltaTime * 5.0f`. -/
def update_physics_integrate_fl (R : Rounding) (deltaTime : ℚ) (pkg : Package) : Package :=
  let pkg1 :=
    { pkg with position := Vec3.add_fl R pkg.position (Vec3.scale_fl R pkg.velocity deltaTime) }
  let pkg2 := { pkg1 with rotation := R.fl (pkg1.rotation + R.fl (pkg1.rotationSpeed * deltaTime)) }
  { pkg2 with
    velocity :=
      { pkg2.velocity with
        y := R.fl (pkg2.velocity.y - R.fl (R.fl (R.fl 9.8 * deltaTime) * 5)) } }

/-- The body of `for (auto& pkg : packages)` (main.cpp 584-611) for one package
in `float` arithmetic. -/
def update_physics_package_fl (R : Rounding) (deltaTime : ℚ) (pkg : Package)
    (houses : List House) (delivered : Int) : Package × List House × Int :=
  if pkg.active = false then (pkg, houses, delivered)
  else
    let pkg3 := update_physics_integrate_fl R deltaTime pkg
    if pkg3.position.y ≤ 5 then
      let r := update_physics_houses_fl R pkg3.position houses delivered
      ({ pkg3 with active := false }, r.1, r.2)
    else (pkg3, houses, delivered)

/-- The loop `for (auto& pkg : packages)` (main.cpp 584-611) in `float`
arithmetic, in stored order. -/
def update_physics_loop_fl (R : Rounding) (deltaTime : ℚ) :
    List Package → List House → Int → List Package × List House × Int
  | [], houses, delivered => ([], houses, delivered)
  | pkg :: rest, houses, delivered =>
    let r := update_physics_package_fl R deltaTime pkg houses delivered
    let t := update_physics_loop_fl R deltaTime rest r.2.1 r.2.2
    (r.1 :: t.1, t.2.1, t.2.2)

/-- The function `update_physics(deltaTime)` (main.cpp 580-618) in `float`
arithmetic: advance `windTime`, run the package loop, then erase every package
with `!active`. -/
def update_physics_fl (R : Rounding) (deltaTime : ℚ) (s : Scene) : Scene :=
  let r := update_physics_loop_fl R deltaTime s.packages s.houses s.deliveredPackages
  { s with
    windTime := R.fl (s.windTime + deltaTime)
    packages := r.1.filter (fun p => p.active)
    houses := r.2.1
    deliveredPackages := r.2.2 }

/-- The scene after `n` calls of `update_physics(deltaTime)` in a row, in
`float` arithmetic. -/
def ticks_fl (R : Rounding) (deltaTime : ℚ) : Nat → Scene → Scene
  | 0, s => s
  | n + 1, s => ticks_fl R deltaTime n (update_physics_fl R deltaTime s)

/-- The scene after calls of `update_physics` with the tick lengths of the list,
first length first, in `float` arithmetic. -/
def tickList_fl (R : Rounding) (s : Scene) (dts : List ℚ) : Scene :=
  dts.foldl (fun t dt => update_physics_fl R dt t) s

/-- The point `position + velocity * deltaTime` as the code computes it. -/
def landingPoint_fl (R : Rounding) (deltaTime : ℚ) (p : Package) : Vec3 :=
  Vec3.add_fl R p.position (Vec3.scale_fl R p.velocity deltaTime)

/-- The landing test of the code: the package is active and its computed new
height is `<= 5.0f`. -/
def lands_fl (R : Rounding) (deltaTime : ℚ) (p : Package) : Prop :=
  p.active = true ∧ (landingPoint_fl R deltaTime p).y ≤ 5

instance (R : Rounding) (deltaTime : ℚ) (p : Package) : Decidable (lands_fl R deltaTime p) :=
  inferInstanceAs (Decidable (p.active = true ∧ (landingPoint_fl R deltaTime p).y ≤ 5))

/-- The delivery test of the code for a package that landed at `p`: the house
has no package and the computed distance between `(p.x, 0, p.z)` and the house
position is `< 20.0f`. -/
def accepts_fl (R : Rounding) (p : Vec3) (h : House) : Prop :=
  h.hasPackage = false ∧ glm_distance_fl R ⟨p.x, 0, p.z⟩ h.position < 20

instance (R : Rounding) (p : Vec3) (h : House) : Decidable (accepts_fl R p h) :=
  inferInstanceAs
    (Decidable (h.hasPackage = false ∧ glm_distance_fl R ⟨p.x, 0, p.z⟩ h.position < 20))

/-! ## `computeTangents` in binary32 arithmetic -/

/-- Difference `a - b` on `glm::vec2`, each component rounded. -/
def GVec2.sub_fl (R : Rounding) (a b : GVec2 ℚ) : GVec2 ℚ :=
  ⟨R.fl (a.x - b.x), R.fl (a.y - b.y)⟩

/-- Difference `a - b` on `glm::vec3` of the mesh code, each component rounded. -/
def GVec3.sub_fl (R : Rounding) (a b : GVec3 ℚ) : GVec3 ℚ :=
  ⟨R.fl (a.x - b.x), R.fl (a.y - b.y), R.fl (a.z - b.z)⟩

/-- Product `v * s` with a scalar, each component rounded. -/
def GVec3.scale_fl (R : Rounding) (v : GVec3 ℚ) (s : ℚ) : GVec3 ℚ :=
  ⟨R.fl (v.x * s), R.fl (v.y * s), R.fl (v.z * s)⟩

/-- The dot product `glm::dot`: `tmp = a * b` componentwise, then
`tmp.x + tmp.y + tmp.z`. -/
def GVec3.dot_fl (R : Rounding) (a b : GVec3 ℚ) : ℚ :=
  R.fl (R.fl (R.fl (a.x * b.x) + R.fl (a.y * b.y)) + R.fl (a.z * b.z))

/-- The function `glm::length(v) = sqrt(dot(v, v))` on `float`. -/
def glm_length_fl (R : Rounding) (v : GVec3 ℚ) : ℚ := R.sqrt (GVec3.dot_fl R v v)

/-- The function `glm::inversesqrt(x) = 1.0f / sqrt(x)` on `float`. -/
def glm_inversesqrt_fl (R : Rounding) (x : ℚ) : ℚ := R.fl (1 / R.sqrt x)

/-- The function `glm::normalize(v) = v * inversesqrt(dot(v, v))` on `float`. -/
def glm_normalize_fl (R : Rounding) (v : GVec3 ℚ) : GVec3 ℚ :=
  GVec3.scale_fl R v (glm_inversesqrt_fl R (GVec3.dot_fl R v v))

/-- The accuracy of binary32 arithmetic that the tolerance statements use:
rounding is monotone and leaves `0` as it is, its error is at most `2^-24` of
the exact result plus `2^-150` (half a unit in the last place, with gradual
underflow), `sqrt 0` is `0`, and for `x > 0` the result `y` of `sqrt` is
positive with `x` between `(y (1 - 1e-7))^2` and `(y (1 + 1e-7))^2` (half a unit
in the last place again). -/
def Rounding.Accurate (R : Rounding) : Prop :=
  (∀ x y : ℚ, x ≤ y → R.fl x ≤ R.fl y) ∧
  R.fl 0 = 0 ∧
  (∀ z : ℚ, |R.fl z - z| ≤ |z| / 16777216 + 1 / 2 ^ 150) ∧
  R.sqrt 0 = 0 ∧
  (∀ x : ℚ, 0 < x → 0 < R.sqrt x ∧ R.sqrt x ^ 2 * (1 - 1 / 10000000) ^ 2 ≤ x ∧
    x ≤ R.sqrt x ^ 2 * (1 + 1 / 10000000) ^ 2)


/-- IEEE 754 binary64, round to nearest, ties to even, on finite values: the
`double` arithmetic of the expressions with `M_PI`. -/
def roundF64 (x : ℚ) : ℚ :=
  if x = 0 then 0
  else
    let e : Int := max (ilog2 |x|) (-1022)
    let y : ℚ := scale2 (roundHalfEven (scale2 |x| (52 - e)) : ℚ) (e - 52)
    if x < 0 then -y else y

/-- What `generate_airship` takes from the C++ implementation it is compiled
with.  The calls `sin (phi1)`, `cos (theta1)` are unqualified calls with a
`float` argument: they resolve to the overloads for `float` where `<cmath>`
declares them in the global namespace, and to the C functions on `double`
otherwise.  `sin` and `cos` are the functions that are called, `wide` is the
arithmetic of their result type (`float` or `double`), in which the products
with the radii are evaluated before the constructor of `glm::vec3` converts
them to `float` (a conversion that changes nothing where they are `float`
already), and `double` is the rounding to `double` of the expressions with
`M_PI`. -/
structure CMath where
  sin : ℚ → ℚ
  cos : ℚ → ℚ
  wide : Rounding
  double : ℚ → ℚ

/-- The partial sum of an alternating power series: `t` is the term of degree
`k`, the next one is `- t * x2 / ((k + 1) (k + 2))`. -/
def seriesSum (x2 : ℚ) : Nat → Nat → ℚ → ℚ → ℚ
  | 0, _, _, acc => acc
  | fuel + 1, k, t, acc =>
    seriesSum x2 fuel (k + 2) (-(t * x2) / (((k + 1) * (k + 2) : Nat) : ℚ)) (acc + t)

/-- The first 24 terms of the power series of the sine. -/
def sinSeries (x : ℚ) : ℚ := seriesSum (x * x) 24 1 x 0

/-- The first 24 terms of the power series of the cosine. -/
def cosSeries (x : ℚ) : ℚ := seriesSum (x * x) 24 0 1 0

/-- A reference implementation for concrete evaluations: the overloads of `sin`
and `cos` for `float`, computed as the power series rounded to binary32 (for
the angles of the airship the series is within `1e-20` of the exact value), all
products in `float`. -/
def refMath : CMath :=
  ⟨fun x => roundF32 (sinSeries x), fun x => roundF32 (cosSeries x), f32, roundF64⟩

/-- The bounds on the values of `sin` and `cos` at the angle `x` that the
statements about the airship assume: both at most `1` in absolute value, and
the sum of their squares at least `0.99`. -/
def CMath.Bounded (P : CMath) (x : ℚ) : Prop :=
  |P.sin x| ≤ 1 ∧ |P.cos x| ≤ 1 ∧ 99 / 100 ≤ P.sin x * P.sin x + P.cos x * P.cos x

instance (P : CMath) (x : ℚ) : Decidable (P.Bounded x) :=
  inferInstanceAs (Decidable
    (|P.sin x| ≤ 1 ∧ |P.cos x| ≤ 1 ∧ 99 / 100 ≤ P.sin x * P.sin x + P.cos x * P.cos x))

/-- The angles `phi1`, `phi2` of `generate_airship` (main.cpp 407-408):
`M_PI * k / stacks`, product and quotient in `double`, converted to `float`. -/
def airship_phi (R : Rounding) (P : CMath) (numStacks k : Nat) : ℚ :=
  R.fl (P.double (P.double (P.double M_PI * (k : ℚ)) / (numStacks : ℚ)))

/-- The angles `theta1`, `theta2` of `generate_airship` (main.cpp 409-410):
`2 * M_PI * k / sectors`, products and quotient in `double`, converted to
`float`. -/
def airship_theta (R : Rounding) (P : CMath) (numSectors k : Nat) : ℚ :=
  R.fl (P.double (P.double (P.double (2 * P.double M_PI) * (k : ℚ)) / (numSectors : ℚ)))

/-- The point of the ellipsoid with radii `10`, `5`, `20` at the angles `phi`,
`theta`, as `generate_airship` computes `p1` to `p4` (main.cpp 412-434). -/
def generate_airship_point_fl (R : Rounding) (P : CMath) (phi theta : ℚ) : GVec3 ℚ :=
  ⟨R.fl (P.wide.fl (P.wide.fl (10 * P.sin phi) * P.cos theta)),
   R.fl (P.wide.fl (5 * P.cos phi)),
   R.fl (P.wide.fl (P.wide.fl (20 * P.sin phi) * P.sin theta))⟩

/-- The body of the two loops of `generate_airship` for the stack `i` and the
sector `j` in floating-point arithmetic: the vertices it pushes
(main.cpp 407-460). -/
def generate_airship_cell_fl (R : Rounding) (P : CMath) (numStacks numSectors i j : Nat) :
    List (Vertex ℚ) :=
  let phi1 := airship_phi R P numStacks i
  let phi2 := airship_phi R P numStacks (i + 1)
  let theta1 := airship_theta R P numSectors j
  let theta2 := airship_theta R P numSectors (j + 1)
  let p1 := generate_airship_point_fl R P phi1 theta1
  let p2 := generate_airship_point_fl R P phi1 theta2
  let p3 := generate_airship_point_fl R P phi2 theta1
  let p4 := generate_airship_point_fl R P phi2 theta2
  let normal1 := glm_normalize_fl R p1
  let normal2 := glm_normalize_fl R p2
  let normal3 := glm_normalize_fl R p3
  let normal4 := glm_normalize_fl R p4
  let tangent := glm_normalize_fl R (GVec3.sub_fl R p2 p1)
  if i = 0 then
    [⟨p1, ⟨0, 0⟩, normal1, tangent, 0⟩, ⟨p2, ⟨1, 0⟩, normal2, tangent, 0⟩,
     ⟨p3, ⟨0, 1⟩, normal3, tangent, 0⟩]
  else if i = numStacks - 1 then
    [⟨p3, ⟨0, 1⟩, normal3, tangent, 0⟩, ⟨p2, ⟨1, 0⟩, normal2, tangent, 0⟩,
     ⟨p4, ⟨1, 1⟩, normal4, tangent, 0⟩]
  else
    [⟨p1, ⟨0, 0⟩, normal1, tangent, 0⟩, ⟨p2, ⟨1, 0⟩, normal2, tangent, 0⟩,
     ⟨p4, ⟨1, 1⟩, normal4, tangent, 0⟩, ⟨p1, ⟨0, 0⟩, normal1, tangent, 0⟩,
     ⟨p4, ⟨1, 1⟩, normal4, tangent, 0⟩, ⟨p3, ⟨0, 1⟩, normal3, tangent, 0⟩]

/-- The inner loop `for (int j = 0; j < sectors; ++j)` of `generate_airship` for
the stack `i` in floating-point arithmetic. -/
def generate_airship_ring_fl (R : Rounding) (P : CMath) (numStacks numSectors : Nat)
    (vertices : List (Vertex ℚ)) (i : Nat) : List (Vertex ℚ) :=
  (List.range numSectors).foldl
    (fun vs j => vs ++ generate_airship_cell_fl R P numStacks numSectors i j) vertices

/-- The function `generate_airship(vertices)` (main.cpp 393-463) in
floating-point arithmetic, with `stacks = 8` and `sectors = 16`. -/
def generate_airship_fl (R : Rounding) (P : CMath) (vertices : List (Vertex ℚ)) :
    List (Vertex ℚ) :=
  (List.range 8).foldl (generate_airship_ring_fl R P 8 16) vertices

/-! ## The distance test -/

/-- The comparison on squares is the comparison of the real square root:
`distance_lt p0 p1 r` holds exactly when `sqrt (distanceSq p0 p1) < r`. -/
theorem distance_lt_iff_sqrt (p0 p1 : Vec3) (r : ℚ) :
    distance_lt p0 p1 r = true ↔ Real.sqrt ((distanceSq p0 p1 : ℚ) : ℝ) < (r : ℝ) := by
  unfold distance_lt
  rw [decide_eq_true_eq]
  constructor
  · rintro ⟨hr, hd⟩
    have hr2 : (0 : ℝ) < (r : ℝ) := by exact_mod_cast hr
    rw [Real.sqrt_lt' hr2]
    have hd2 : ((distanceSq p0 p1 : ℚ) : ℝ) < (r : ℝ) * (r : ℝ) := by exact_mod_cast hd
    nlinarith [hd2]
  · intro h
    have hr2 : (0 : ℝ) < (r : ℝ) := lt_of_le_of_lt (Real.sqrt_nonneg _) h
    rw [Real.sqrt_lt' hr2] at h
    refine ⟨by exact_mod_cast hr2, ?_⟩
    have h2 : ((distanceSq p0 p1 : ℚ) : ℝ) < (r : ℝ) * (r : ℝ) := by nlinarith [h]
    exact_mod_cast h2

/-- The squared distance the code computes between `(p.x, 0, p.z)` and a house
is the squared horizontal distance plus the square of the house's height. -/
theorem distanceSq_landing (p : Vec3) (h : House) :
    distanceSq ⟨p.x, 0, p.z⟩ h.position = horizontalSq p h + h.position.y ^ 2 := by
  unfold distanceSq horizontalSq Vec3.dot Vec3.sub
  ring

/-- For a house on the plane `y = 0` the code's test is the horizontal test. -/
theorem distance_lt_plane (p : Vec3) (h : House) (hy : h.position.y = 0) :
    distance_lt ⟨p.x, 0, p.z⟩ h.position 20 = true ↔ horizontalSq p h < 20 ^ 2 := by
  unfold distance_lt
  rw [decide_eq_true_eq, distanceSq_landing, hy]
  constructor
  · rintro ⟨_, h2⟩
    linarith
  · intro h2
    exact ⟨by norm_num, by linarith⟩

/-- Whatever the height of the house, a house the code accepts is within
horizontal distance `20`. -/
theorem horizontal_of_distance_lt (p : Vec3) (h : House)
    (hd : distance_lt ⟨p.x, 0, p.z⟩ h.position 20 = true) : horizontalSq p h < 20 ^ 2 := by
  unfold distance_lt at hd
  rw [decide_eq_true_eq, distanceSq_landing] at hd
  nlinarith [hd.2, sq_nonneg h.position.y]

/-- The horizontal test of the specification, on squares, is the test on the
real horizontal distance `sqrt ((p.x - h.x)^2 + (p.z - h.z)^2) < 20`. -/
theorem eligible_iff_sqrt (p : Vec3) (h : House) :
    eligible p h ↔
      h.hasPackage = false ∧ Real.sqrt ((horizontalSq p h : ℚ) : ℝ) < 20 := by
  unfold eligible
  have h20 : (0 : ℝ) < 20 := by norm_num
  rw [Real.sqrt_lt' h20]
  constructor
  · rintro ⟨h1, h2⟩
    refine ⟨h1, ?_⟩
    have h3 : ((horizontalSq p h : ℚ) : ℝ) < ((20 ^ 2 : ℚ) : ℝ) := by exact_mod_cast h2
    simpa using h3
  · rintro ⟨h1, h2⟩
    refine ⟨h1, ?_⟩
    have h3 : ((horizontalSq p h : ℚ) : ℝ) < ((20 ^ 2 : ℚ) : ℝ) := by simpa using h2
    exact_mod_cast h3

/-! ## The house loop -/

theorem houses_nil (p : Vec3) (d : Int) : update_physics_houses p [] d = ([], d) := rfl

/-- The house loop at a house it accepts: mark it, count it, `break`. -/
theorem houses_cons_hit (p : Vec3) (h : House) (t : List House) (d : Int)
    (hp : h.hasPackage = false) (hd : distance_lt ⟨p.x, 0, p.z⟩ h.position 20 = true) :
    update_physics_houses p (h :: t) d = ({ h with hasPackage := true } :: t, d + 1) := by
  unfold update_physics_houses
  rw [if_pos hp, if_pos hd]

/-- The house loop at a house it does not accept: go on with the next house. -/
theorem houses_cons_miss (p : Vec3) (h : House) (t : List House) (d : Int)
    (hn : ¬ (h.hasPackage = false ∧ distance_lt ⟨p.x, 0, p.z⟩ h.position 20 = true)) :
    update_physics_houses p (h :: t) d
      = (h :: (update_physics_houses p t d).1, (update_physics_houses p t d).2) := by
  rw [update_physics_houses]
  by_cases hp : h.hasPackage = false
  · have hd : ¬ distance_lt ⟨p.x, 0, p.z⟩ h.position 20 = true := fun hd => hn ⟨hp, hd⟩
    rw [if_pos hp, if_neg hd]
  · rw [if_neg hp]

/-- When no house is eligible the house loop changes nothing. -/
theorem houses_none (p : Vec3) (hs : List House) (d : Int)
    (hno : ∀ h ∈ hs, ¬ eligible p h) : update_physics_houses p hs d = (hs, d) := by
  induction hs with
  | nil => rfl
  | cons h t ih =>
    have iht := ih (fun g hg => hno g (List.mem_cons_of_mem _ hg))
    have hh := hno h (List.mem_cons_self _ _)
    unfold update_physics_houses
    by_cases hp : h.hasPackage = false
    · have hd : ¬ distance_lt ⟨p.x, 0, p.z⟩ h.position 20 = true :=
        fun hd => hh ⟨hp, horizontal_of_distance_lt p h hd⟩
      simp [hp, hd, iht]
    · simp [hp, iht]

/-- On houses of the plane `y = 0`, the house loop marks the first eligible
house, leaves the houses before and after it as they are, and adds one to the
counter. -/
theorem houses_first (p : Vec3) (pre post : List House) (h : House) (d : Int)
    (hpre : ∀ g ∈ pre, ¬ eligible p g) (hy : h.position.y = 0) (hel : eligible p h) :
    update_physics_houses p (pre ++ h :: post) d
      = (pre ++ { h with hasPackage := true } :: post, d + 1) := by
  induction pre with
  | nil =>
    have hd : distance_lt ⟨p.x, 0, p.z⟩ h.position 20 = true :=
      (distance_lt_plane p h hy).2 hel.2
    simp [update_physics_houses, hel.1, hd]
  | cons g t ih =>
    have iht := ih (fun k hk => hpre k (List.mem_cons_of_mem _ hk))
    have hg := hpre g (List.mem_cons_self _ _)
    rw [List.cons_append]
    unfold update_physics_houses
    by_cases hp : g.hasPackage = false
    · have hd : ¬ distance_lt ⟨p.x, 0, p.z⟩ g.position 20 = true :=
        fun hd => hg ⟨hp, horizontal_of_distance_lt p g hd⟩
      simp [hp, hd, iht]
    · simp [hp, iht]

/-- A list with an eligible house splits at its first eligible house. -/
theorem exists_first_eligible (p : Vec3) (hs : List House) (hex : ∃ h ∈ hs, eligible p h) :
    ∃ pre h post, hs = pre ++ h :: post ∧ (∀ g ∈ pre, ¬ eligible p g) ∧ eligible p h := by
  induction hs with
  | nil => simp at hex
  | cons a t ih =>
    by_cases ha : eligible p a
    · exact ⟨[], a, t, rfl, by simp, ha⟩
    · have hex2 : ∃ h ∈ t, eligible p h := by
        obtain ⟨h, hm, he⟩ := hex
        rcases List.mem_cons.1 hm with rfl | hm2
        · exact absurd he ha
        · exact ⟨h, hm2, he⟩
      obtain ⟨pre, h, post, rfl, hpre, hel⟩ := ih hex2
      refine ⟨a :: pre, h, post, rfl, ?_, hel⟩
      intro g hg
      rcases List.mem_cons.1 hg with rfl | hg2
      · exact ha
      · exact hpre g hg2

/-! ## The loop body for one package -/

theorem integrate_position (dt : ℚ) (p : Package) :
    (update_physics_integrate dt p).position = landingPoint dt p := rfl

theorem integrate_active (dt : ℚ) (p : Package) :
    (update_physics_integrate dt p).active = p.active := rfl

theorem landingPoint_y (dt : ℚ) (p : Package) :
    (landingPoint dt p).y = p.position.y + p.velocity.y * dt := rfl

/-- An inactive package is skipped (`continue`). -/
theorem package_inactive (dt : ℚ) (p : Package) (hs : List House) (d : Int)
    (ha : p.active = false) : update_physics_package dt p hs d = (p, hs, d) := by
  simp [update_physics_package, ha]

/-- An active package that stays above `5.0` is integrated and nothing else happens. -/
theorem package_flying (dt : ℚ) (p : Package) (hs : List House) (d : Int)
    (ha : p.active = true) (hy : 5 < p.position.y + p.velocity.y * dt) :
    update_physics_package dt p hs d = (update_physics_integrate dt p, hs, d) := by
  have h1 : ¬ (update_physics_integrate dt p).position.y ≤ 5 := by
    rw [integrate_position, landingPoint_y]
    exact not_le.2 hy
  simp [update_physics_package, ha, h1]

/-- An active package that reaches `5.0` is deactivated and the house loop runs
at its integrated position. -/
theorem package_landed (dt : ℚ) (p : Package) (hs : List House) (d : Int)
    (hl : lands dt p) :
    update_physics_package dt p hs d
      = ({ update_physics_integrate dt p with active := false },
          (update_physics_houses (landingPoint dt p) hs d).1,
          (update_physics_houses (landingPoint dt p) hs d).2) := by
  have h1 : (update_physics_integrate dt p).position.y ≤ 5 := by
    rw [integrate_position, landingPoint_y]
    exact hl.2
  have h0 : ¬ p.active = false := by simp [hl.1]
  unfold update_physics_package
  rw [if_neg h0]
  rw [integrate_position] at h1
  simp only [integrate_position, if_pos h1]

/-- The three cases of the loop body. -/
theorem package_cases (dt : ℚ) (p : Package) :
    p.active = false ∨ (p.active = true ∧ 5 < p.position.y + p.velocity.y * dt) ∨ lands dt p := by
  unfold lands
  cases hp : p.active
  · exact Or.inl rfl
  · rcases lt_or_le 5 (p.position.y + p.velocity.y * dt) with h | h
    · exact Or.inr (Or.inl ⟨rfl, h⟩)
    · exact Or.inr (Or.inr ⟨rfl, h⟩)

/-- The package the loop body leaves does not depend on the houses. -/
theorem package_fst (dt : ℚ) (p : Package) (hs : List House) (d : Int) :
    (update_physics_package dt p hs d).1 = (update_physics_package dt p [] 0).1 := by
  rcases package_cases dt p with h | h | h
  · rw [package_inactive dt p hs d h, package_inactive dt p [] 0 h]
  · rw [package_flying dt p hs d h.1 h.2, package_flying dt p [] 0 h.1 h.2]
  · rw [package_landed dt p hs d h, package_landed dt p [] 0 h]

theorem loop_nil (dt : ℚ) (hs : List House) (d : Int) :
    update_physics_loop dt [] hs d = ([], hs, d) := rfl

/-- One iteration of the package loop: the body for the first package, then
the loop over the rest on the houses and counter the body left. -/
theorem loop_cons (dt : ℚ) (p : Package) (t : List Package) (hs : List House) (d : Int) :
    update_physics_loop dt (p :: t) hs d
      = ((update_physics_package dt p hs d).1
            :: (update_physics_loop dt t (update_physics_package dt p hs d).2.1
                  (update_physics_package dt p hs d).2.2).1,
          (update_physics_loop dt t (update_physics_package dt p hs d).2.1
              (update_physics_package dt p hs d).2.2).2) := rfl

/-! ## Houses only gain flags -/

theorem houseStep_refl (a : House) : HouseStep a a := ⟨rfl, rfl, id⟩

theorem houseStep_trans {a b c : House} (h1 : HouseStep a b) (h2 : HouseStep b c) :
    HouseStep a c :=
  ⟨h1.1.trans h2.1, h1.2.1.trans h2.2.1, fun h => h2.2.2 (h1.2.2 h)⟩

theorem housesStep_refl (hs : List House) : List.Forall₂ HouseStep hs hs := by
  induction hs with
  | nil => exact List.Forall₂.nil
  | cons a t ih => exact List.Forall₂.cons (houseStep_refl a) ih

theorem housesStep_trans {l1 l2 l3 : List House} (h1 : List.Forall₂ HouseStep l1 l2)
    (h2 : List.Forall₂ HouseStep l2 l3) : List.Forall₂ HouseStep l1 l3 := by
  induction h1 generalizing l3 with
  | nil => cases h2; exact List.Forall₂.nil
  | cons hab _ ih =>
    cases h2 with
    | cons hbc ht => exact List.Forall₂.cons (houseStep_trans hab hbc) (ih ht)

/-- The house loop keeps every position and type and only raises flags. -/
theorem houses_step (p : Vec3) (hs : List House) (d : Int) :
    List.Forall₂ HouseStep hs (update_physics_houses p hs d).1 := by
  induction hs with
  | nil => exact List.Forall₂.nil
  | cons h t ih =>
    unfold update_physics_houses
    by_cases hp : h.hasPackage = false
    · by_cases hd : distance_lt ⟨p.x, 0, p.z⟩ h.position 20 = true
      · simp only [hp, hd, if_true]
        exact List.Forall₂.cons ⟨rfl, rfl, fun _ => rfl⟩ (housesStep_refl t)
      · simp only [hp, hd, if_true, if_false]
        exact List.Forall₂.cons (houseStep_refl h) ih
    · simp only [hp, if_false]
      exact List.Forall₂.cons (houseStep_refl h) ih

/-- The loop body keeps every position and type and only raises flags. -/
theorem package_step (dt : ℚ) (p : Package) (hs : List House) (d : Int) :
    List.Forall₂ HouseStep hs (update_physics_package dt p hs d).2.1 := by
  rcases package_cases dt p with h | h | h
  · rw [package_inactive dt p hs d h]
    exact housesStep_refl hs
  · rw [package_flying dt p hs d h.1 h.2]
    exact housesStep_refl hs
  · rw [package_landed dt p hs d h]
    exact houses_step _ hs d

/-- The package loop keeps every position and type and only raises flags. -/
theorem loop_step (dt : ℚ) (ps : List Package) (hs : List House) (d : Int) :
    List.Forall₂ HouseStep hs (update_physics_loop dt ps hs d).2.1 := by
  induction ps generalizing hs d with
  | nil => exact housesStep_refl hs
  | cons p t ih =>
    rw [loop_cons]
    exact housesStep_trans (package_step dt p hs d) (ih _ _)

/-- A house that is not eligible before a step is not eligible after it. -/
theorem not_eligible_of_step (p : Vec3) {l1 l2 : List House}
    (h : List.Forall₂ HouseStep l1 l2) (hno : ∀ a ∈ l1, ¬ eligible p a) :
    ∀ b ∈ l2, ¬ eligible p b := by
  induction h with
  | nil => simp
  | cons hab _ ih =>
    intro b hb
    rcases List.mem_cons.1 hb with rfl | hb2
    · intro he
      refine hno _ (List.mem_cons_self _ _) ⟨?_, ?_⟩
      · cases hf : House.hasPackage _ with
        | false => rfl
        | true =>
          have := hab.2.2 hf
          rw [he.1] at this
          exact absurd this (by simp)
      · have := he.2
        unfold horizontalSq at this ⊢
        rw [hab.1]
        exact this
    · exact ih (fun a ha => hno a (List.mem_cons_of_mem _ ha)) b hb2

/-! ## The package loop -/

theorem loop_append (dt : ℚ) (a b : List Package) (hs : List House) (d : Int) :
    update_physics_loop dt (a ++ b) hs d
      = ((update_physics_loop dt a hs d).1
            ++ (update_physics_loop dt b (update_physics_loop dt a hs d).2.1
                  (update_physics_loop dt a hs d).2.2).1,
          (update_physics_loop dt b (update_physics_loop dt a hs d).2.1
              (update_physics_loop dt a hs d).2.2).2) := by
  induction a generalizing hs d with
  | nil => rfl
  | cons p t ih =>
    rw [List.cons_append, loop_cons, loop_cons, ih]
    rfl

/-- The packages the loop leaves do not depend on the houses. -/
theorem loop_packages (dt : ℚ) (ps : List Package) (hs : List House) (d : Int) :
    (update_physics_loop dt ps hs d).1
      = ps.map (fun p => (update_physics_package dt p [] 0).1) := by
  induction ps generalizing hs d with
  | nil => rfl
  | cons p t ih =>
    rw [loop_cons, List.map_cons, ih, package_fst]

/-- A package that does not land, or lands with no eligible house, leaves the
houses and the counter as they are. -/
theorem package_inert (dt : ℚ) (p : Package) (hs : List House) (d : Int)
    (hno : lands dt p → ∀ h ∈ hs, ¬ eligible (landingPoint dt p) h) :
    (update_physics_package dt p hs d).2 = (hs, d) := by
  rcases package_cases dt p with h | h | h
  · rw [package_inactive dt p hs d h]
  · rw [package_flying dt p hs d h.1 h.2]
  · rw [package_landed dt p hs d h, houses_none _ hs d (hno h)]

/-- A loop over packages none of which has an eligible house on landing leaves
the houses and the counter as they are. -/
theorem loop_inert (dt : ℚ) (ps : List Package) (hs : List House) (d : Int)
    (hno : ∀ q ∈ ps, lands dt q → ∀ h ∈ hs, ¬ eligible (landingPoint dt q) h) :
    (update_physics_loop dt ps hs d).2 = (hs, d) := by
  induction ps with
  | nil => rfl
  | cons p t ih =>
    have hp := package_inert dt p hs d (hno p (List.mem_cons_self _ _))
    have ht := ih (fun q hq => hno q (List.mem_cons_of_mem _ hq))
    have h1 : (update_physics_package dt p hs d).2.1 = hs := by rw [hp]
    have h2 : (update_physics_package dt p hs d).2.2 = d := by rw [hp]
    rw [loop_cons, h1, h2, ht]

theorem update_physics_houses_eq (dt : ℚ) (s : Scene) :
    (update_physics dt s).houses
      = (update_physics_loop dt s.packages s.houses s.deliveredPackages).2.1 := rfl

theorem update_physics_delivered_eq (dt : ℚ) (s : Scene) :
    (update_physics dt s).deliveredPackages
      = (update_physics_loop dt s.packages s.houses s.deliveredPackages).2.2 := rfl

theorem update_physics_packages_eq (dt : ℚ) (s : Scene) :
    (update_physics dt s).packages
      = (s.packages.map (fun p => (update_physics_package dt p [] 0).1)).filter
          (fun p => p.active) := by
  unfold update_physics
  simp only [loop_packages]

/-- Around one package: when the packages before it leave the houses alone and
the packages after it do not land, the loop does to the houses and the counter
what the body does for that package. -/
theorem loop_around (dt : ℚ) (before after : List Package) (pkg : Package)
    (hs : List House) (d : Int)
    (hb : ∀ q ∈ before, lands dt q → ∀ h ∈ hs, ¬ eligible (landingPoint dt q) h)
    (ha : ∀ q ∈ after, ¬ lands dt q) :
    (update_physics_loop dt (before ++ pkg :: after) hs d).2
      = (update_physics_package dt pkg hs d).2 := by
  have h1 := loop_inert dt before hs d hb
  have h11 : (update_physics_loop dt before hs d).2.1 = hs := by rw [h1]
  have h12 : (update_physics_loop dt before hs d).2.2 = d := by rw [h1]
  rw [loop_append, h11, h12, loop_cons]
  exact loop_inert dt after _ _ (fun q hq hl => absurd hl (ha q hq))

/-! ## Delivery matching in exact arithmetic -/

/-- Delivery matching in exact arithmetic: for houses on the plane `y = 0` and
a package that lands in the tick,
if some house is undelivered and at horizontal distance `< 20` from the landing
point, then the house list splits as `pre ++ h :: post` with `h` the first such
house in stored order, and the loop body leaves `pre` and `post` untouched, sets
`h.hasPackage` and adds exactly one to `deliveredPackages`; the same holds for
the whole of `update_physics` in every scene where this is the package that
lands. -/
theorem exact_first_eligible_house_is_delivered (deltaTime : ℚ) (pkg : Package)
    (houses : List House) (delivered : Int)
    (hplane : ∀ h ∈ houses, h.position.y = 0)
    (hland : lands deltaTime pkg)
    (hex : ∃ h ∈ houses, eligible (landingPoint deltaTime pkg) h) :
    ∃ pre h post,
      houses = pre ++ h :: post ∧
      (∀ g ∈ pre, ¬ eligible (landingPoint deltaTime pkg) g) ∧
      eligible (landingPoint deltaTime pkg) h ∧
      (update_physics_package deltaTime pkg houses delivered).2
        = (pre ++ { h with hasPackage := true } :: post, delivered + 1) ∧
      ∀ (s : Scene) (before after : List Package),
        s.houses = houses → s.deliveredPackages = delivered →
        s.packages = before ++ pkg :: after →
        (∀ q ∈ before ++ after, ¬ lands deltaTime q) →
        (update_physics deltaTime s).houses = pre ++ { h with hasPackage := true } :: post ∧
        (update_physics deltaTime s).deliveredPackages = delivered + 1 := by
  obtain ⟨pre, h, post, hsplit, hpre, hel⟩ := exists_first_eligible _ houses hex
  have hy : h.position.y = 0 := hplane h (by rw [hsplit]; simp)
  have hbody : (update_physics_package deltaTime pkg houses delivered).2
      = (pre ++ { h with hasPackage := true } :: post, delivered + 1) := by
    rw [package_landed deltaTime pkg houses delivered hland, hsplit,
      houses_first _ pre post h delivered hpre hy hel]
  refine ⟨pre, h, post, hsplit, hpre, hel, hbody, ?_⟩
  intro s before after hh hd hps hothers
  have hloop := loop_around deltaTime before after pkg houses delivered
    (fun q hq hl => absurd hl (hothers q (List.mem_append_left _ hq)))
    (fun q hq => hothers q (List.mem_append_right _ hq))
  rw [update_physics_houses_eq, update_physics_delivered_eq, hps, hh, hd, hloop, hbody]
  exact ⟨rfl, rfl⟩

/-- The delivery matching in exact arithmetic at a concrete input: a delivered house, a house at distance exactly `20`, a house at
distance `10` and a house at distance `0`; the package comes down at `(0, 5, 0)`. -/
theorem exact_first_eligible_house_is_delivered_example :
    ∃ pre h post,
      [(⟨⟨1, 0, 0⟩, true, 0⟩ : House), ⟨⟨20, 0, 0⟩, false, 1⟩, ⟨⟨10, 0, 0⟩, false, 2⟩,
          ⟨⟨0, 0, 0⟩, false, 0⟩] = pre ++ h :: post ∧
      (∀ g ∈ pre, ¬ eligible (landingPoint 1 ⟨⟨0, 25, 0⟩, ⟨0, -20, 0⟩, true, 0, 1⟩) g) ∧
      eligible (landingPoint 1 ⟨⟨0, 25, 0⟩, ⟨0, -20, 0⟩, true, 0, 1⟩) h ∧
      (update_physics_package 1 ⟨⟨0, 25, 0⟩, ⟨0, -20, 0⟩, true, 0, 1⟩
          [⟨⟨1, 0, 0⟩, true, 0⟩, ⟨⟨20, 0, 0⟩, false, 1⟩, ⟨⟨10, 0, 0⟩, false, 2⟩,
            ⟨⟨0, 0, 0⟩, false, 0⟩] 7).2
        = (pre ++ { h with hasPackage := true } :: post, 7 + 1) ∧
      ∀ (s : Scene) (before after : List Package),
        s.houses = [⟨⟨1, 0, 0⟩, true, 0⟩, ⟨⟨20, 0, 0⟩, false, 1⟩, ⟨⟨10, 0, 0⟩, false, 2⟩,
            ⟨⟨0, 0, 0⟩, false, 0⟩] →
        s.deliveredPackages = 7 →
        s.packages = before ++ (⟨⟨0, 25, 0⟩, ⟨0, -20, 0⟩, true, 0, 1⟩ : Package) :: after →
        (∀ q ∈ before ++ after, ¬ lands 1 q) →
        (update_physics 1 s).houses = pre ++ { h with hasPackage := true } :: post ∧
        (update_physics 1 s).deliveredPackages = 7 + 1 :=
  exact_first_eligible_house_is_delivered 1 ⟨⟨0, 25, 0⟩, ⟨0, -20, 0⟩, true, 0, 1⟩
    [⟨⟨1, 0, 0⟩, true, 0⟩, ⟨⟨20, 0, 0⟩, false, 1⟩, ⟨⟨10, 0, 0⟩, false, 2⟩, ⟨⟨0, 0, 0⟩, false, 0⟩] 7
    (by decide!) (by decide!) (by decide!)

/-- The concrete outcome at that input in exact arithmetic: the house at distance
exactly `20` keeps its flag, the house at distance `10` is delivered, the closer
house after it is not. -/
theorem delivery_example :
    update_physics 1 (sceneOf [⟨⟨1, 0, 0⟩, true, 0⟩, ⟨⟨20, 0, 0⟩, false, 1⟩,
        ⟨⟨10, 0, 0⟩, false, 2⟩, ⟨⟨0, 0, 0⟩, false, 0⟩]
        [⟨⟨0, 25, 0⟩, ⟨0, -20, 0⟩, true, 0, 1⟩] 7)
      = { sceneOf [⟨⟨1, 0, 0⟩, true, 0⟩, ⟨⟨20, 0, 0⟩, false, 1⟩,
            ⟨⟨10, 0, 0⟩, true, 2⟩, ⟨⟨0, 0, 0⟩, false, 0⟩] [] 8 with windTime := 1 } := by
  decide!

/-- The test of the code is on the distance in space between `(x, 0, z)` and
the house position: a house straight under the landing point but at height 20
is not delivered, although its horizontal distance is `0`. -/
theorem house_off_plane_example :
    eligible (landingPoint 1 ⟨⟨0, 25, 0⟩, ⟨0, -20, 0⟩, true, 0, 1⟩) ⟨⟨0, 20, 0⟩, false, 0⟩ ∧
    update_physics 1 (sceneOf [⟨⟨0, 20, 0⟩, false, 0⟩]
        [⟨⟨0, 25, 0⟩, ⟨0, -20, 0⟩, true, 0, 1⟩] 0)
      = { sceneOf [⟨⟨0, 20, 0⟩, false, 0⟩] [] 0 with windTime := 1 } := by
  decide!

/-- A landing package with no eligible house can be left out of the loop: the
houses and the counter come out the same. -/
theorem loop_skip (dt : ℚ) (before after : List Package) (pkg : Package)
    (hs : List House) (d : Int)
    (hno : lands dt pkg → ∀ h ∈ hs, ¬ eligible (landingPoint dt pkg) h) :
    (update_physics_loop dt (before ++ pkg :: after) hs d).2
      = (update_physics_loop dt (before ++ after) hs d).2 := by
  have hmid : (update_physics_package dt pkg (update_physics_loop dt before hs d).2.1
      (update_physics_loop dt before hs d).2.2).2
      = ((update_physics_loop dt before hs d).2.1, (update_physics_loop dt before hs d).2.2) :=
    package_inert dt pkg _ _
      (fun hl => not_eligible_of_step _ (loop_step dt before hs d) (hno hl))
  rw [loop_append, loop_append, loop_cons]
  simp only [hmid]

/-- A package the loop body deactivates does not survive the purge. -/
theorem purge_skip (dt : ℚ) (before after : List Package) (pkg : Package)
    (hl : lands dt pkg) :
    ((before ++ pkg :: after).map (fun p => (update_physics_package dt p [] 0).1)).filter
        (fun p => p.active)
      = ((before ++ after).map (fun p => (update_physics_package dt p [] 0).1)).filter
        (fun p => p.active) := by
  have hina : (update_physics_package dt pkg [] 0).1.active = false := by
    rw [package_landed dt pkg [] 0 hl]
  simp [List.filter_cons, hina]

/-- In exact arithmetic: a package that lands while no house of the scene is both undelivered
and at horizontal distance `< 20` from its landing point: the loop body
deactivates it and leaves every house and `deliveredPackages` as they are; when
it is the only package, `update_physics` leaves houses and counter unchanged
and the collection empty; and in every scene the tick with this package gives
the same scene as the tick without it, so it changes no flag, no score, and is
not in the collection afterwards. -/
theorem exact_no_eligible_house_no_effect (deltaTime : ℚ) (s : Scene) (pkg : Package)
    (hland : lands deltaTime pkg)
    (hno : ∀ h ∈ s.houses, ¬ eligible (landingPoint deltaTime pkg) h) :
    update_physics_package deltaTime pkg s.houses s.deliveredPackages
        = ({ update_physics_integrate deltaTime pkg with active := false },
            s.houses, s.deliveredPackages) ∧
    (s.packages = [pkg] →
        (update_physics deltaTime s).houses = s.houses ∧
        (update_physics deltaTime s).deliveredPackages = s.deliveredPackages ∧
        (update_physics deltaTime s).packages = []) ∧
    (∀ before after : List Package, s.packages = before ++ pkg :: after →
        update_physics deltaTime s
          = update_physics deltaTime { s with packages := before ++ after }) := by
  have hbody : update_physics_package deltaTime pkg s.houses s.deliveredPackages
      = ({ update_physics_integrate deltaTime pkg with active := false },
          s.houses, s.deliveredPackages) := by
    rw [package_landed deltaTime pkg _ _ hland, houses_none _ _ _ hno]
  have hgen : ∀ before after : List Package, s.packages = before ++ pkg :: after →
      update_physics deltaTime s
        = update_physics deltaTime { s with packages := before ++ after } := by
    intro before after hps
    have h2 := loop_skip deltaTime before after pkg s.houses s.deliveredPackages
      (fun _ => hno)
    have h1 := purge_skip deltaTime before after pkg hland
    unfold update_physics
    simp only [loop_packages, hps, h1, h2]
  refine ⟨hbody, ?_, hgen⟩
  intro hps
  have h := hgen [] [] (by rw [hps]; rfl)
  rw [h]
  exact ⟨rfl, rfl, rfl⟩

/-- The same at a concrete input in exact arithmetic: one delivered house under the landing point and one undelivered
house at horizontal distance `30`; the package comes down at `(0, 5, 0)`. -/
theorem exact_no_eligible_house_no_effect_example :
    update_physics_package 1 ⟨⟨0, 25, 0⟩, ⟨0, -20, 0⟩, true, 0, 1⟩
        [⟨⟨0, 0, 0⟩, true, 0⟩, ⟨⟨30, 0, 0⟩, false, 1⟩] 1
      = (⟨⟨0, 5, 0⟩, ⟨0, -69, 0⟩, false, 1, 1⟩,
          [⟨⟨0, 0, 0⟩, true, 0⟩, ⟨⟨30, 0, 0⟩, false, 1⟩], 1) ∧
    (update_physics 1 (sceneOf [⟨⟨0, 0, 0⟩, true, 0⟩, ⟨⟨30, 0, 0⟩, false, 1⟩]
        [⟨⟨0, 25, 0⟩, ⟨0, -20, 0⟩, true, 0, 1⟩] 1)).houses
      = [⟨⟨0, 0, 0⟩, true, 0⟩, ⟨⟨30, 0, 0⟩, false, 1⟩] ∧
    (update_physics 1 (sceneOf [⟨⟨0, 0, 0⟩, true, 0⟩, ⟨⟨30, 0, 0⟩, false, 1⟩]
        [⟨⟨0, 25, 0⟩, ⟨0, -20, 0⟩, true, 0, 1⟩] 1)).deliveredPackages = 1 ∧
    (update_physics 1 (sceneOf [⟨⟨0, 0, 0⟩, true, 0⟩, ⟨⟨30, 0, 0⟩, false, 1⟩]
        [⟨⟨0, 25, 0⟩, ⟨0, -20, 0⟩, true, 0, 1⟩] 1)).packages = [] := by
  have h := exact_no_eligible_house_no_effect 1
    (sceneOf [⟨⟨0, 0, 0⟩, true, 0⟩, ⟨⟨30, 0, 0⟩, false, 1⟩]
      [⟨⟨0, 25, 0⟩, ⟨0, -20, 0⟩, true, 0, 1⟩] 1)
    ⟨⟨0, 25, 0⟩, ⟨0, -20, 0⟩, true, 0, 1⟩ (by decide!) (by decide!)
  exact ⟨h.1.trans (by decide!), h.2.1 rfl⟩

/-! ## C3 and C10: what a tick can change -/

theorem housesStep_get {l1 l2 : List House} (h : List.Forall₂ HouseStep l1 l2)
    (i : Nat) (a : House) (hi : l1[i]? = some a) :
    ∃ b, l2[i]? = some b ∧ HouseStep a b := by
  induction h generalizing i with
  | nil => simp at hi
  | cons hab _ ih =>
    cases i with
    | zero =>
      simp only [List.getElem?_cons_zero, Option.some.injEq] at hi
      subst hi
      exact ⟨_, by simp, hab⟩
    | succ k =>
      simp only [List.getElem?_cons_succ] at hi
      obtain ⟨b, hb, hs⟩ := ih k hi
      exact ⟨b, by simpa using hb, hs⟩

theorem housesStep_length {l1 l2 : List House} (h : List.Forall₂ HouseStep l1 l2) :
    l2.length = l1.length := by
  induction h with
  | nil => rfl
  | cons _ _ ih => simp [ih]

theorem housesStep_position {l1 l2 : List House} (h : List.Forall₂ HouseStep l1 l2) :
    l2.map House.position = l1.map House.position := by
  induction h with
  | nil => rfl
  | cons hab _ ih => simp [ih, hab.1]

theorem housesStep_houseType {l1 l2 : List House} (h : List.Forall₂ HouseStep l1 l2) :
    l2.map House.houseType = l1.map House.houseType := by
  induction h with
  | nil => rfl
  | cons hab _ ih => simp [ih, hab.2.1]

/-- One tick keeps every house in place and only raises flags. -/
theorem update_physics_step (dt : ℚ) (s : Scene) :
    List.Forall₂ HouseStep s.houses (update_physics dt s).houses :=
  loop_step dt s.packages s.houses s.deliveredPackages

theorem main_drop_request_houses (rnd : Nat) (s : Scene) :
    (main_drop_request rnd s).houses = s.houses := by
  unfold main_drop_request drop_package
  split <;> rfl

/-- Every run of ticks and drop requests keeps every house in place and only
raises flags. -/
theorem run_step (s : Scene) (acts : List Action) :
    List.Forall₂ HouseStep s.houses (run s acts).houses := by
  induction acts generalizing s with
  | nil => exact housesStep_refl _
  | cons a t ih =>
    have h1 : List.Forall₂ HouseStep s.houses (Action.apply s a).houses := by
      cases a with
      | tick dt => exact update_physics_step dt s
      | drop rnd =>
        show List.Forall₂ HouseStep s.houses (main_drop_request rnd s).houses
        rw [main_drop_request_houses]
        exact housesStep_refl _
    exact housesStep_trans h1 (ih (Action.apply s a))

/-- C3: a house that has `hasPackage == true` before `update_physics` has it
after, at the same index; and so it has after every finite run of ticks and
drop requests. -/
theorem C3_delivered_stays_delivered (deltaTime : ℚ) (s : Scene) (i : Nat) (h : House)
    (hget : s.houses[i]? = some h) (hflag : h.hasPackage = true) :
    (∃ g, (update_physics deltaTime s).houses[i]? = some g ∧ g.hasPackage = true) ∧
    ∀ acts : List Action, ∃ g, (run s acts).houses[i]? = some g ∧ g.hasPackage = true := by
  constructor
  · obtain ⟨g, hg, hs⟩ := housesStep_get (update_physics_step deltaTime s) i h hget
    exact ⟨g, hg, hs.2.2 hflag⟩
  · intro acts
    obtain ⟨g, hg, hs⟩ := housesStep_get (run_step s acts) i h hget
    exact ⟨g, hg, hs.2.2 hflag⟩

/-- C3 witness: the delivered house at index 0 stays delivered while a package
lands next to it and delivers the house at index 1. -/
theorem C3_delivered_stays_delivered_witness :
    (∃ g, (update_physics 1 (sceneOf [⟨⟨0, 0, 0⟩, true, 0⟩, ⟨⟨3, 0, 0⟩, false, 1⟩]
        [⟨⟨0, 25, 0⟩, ⟨0, -20, 0⟩, true, 0, 1⟩] 1)).houses[0]? = some g ∧ g.hasPackage = true) ∧
    ∀ acts : List Action, ∃ g,
      (run (sceneOf [⟨⟨0, 0, 0⟩, true, 0⟩, ⟨⟨3, 0, 0⟩, false, 1⟩]
        [⟨⟨0, 25, 0⟩, ⟨0, -20, 0⟩, true, 0, 1⟩] 1) acts).houses[0]? = some g
        ∧ g.hasPackage = true :=
  C3_delivered_stays_delivered 1 (sceneOf [⟨⟨0, 0, 0⟩, true, 0⟩, ⟨⟨3, 0, 0⟩, false, 1⟩]
    [⟨⟨0, 25, 0⟩, ⟨0, -20, 0⟩, true, 0, 1⟩] 1) 0 ⟨⟨0, 0, 0⟩, true, 0⟩ rfl rfl

/-- C10: `update_physics` leaves the number and order of the houses, each
house's position and `houseType`, the trees, the rocks, the airship position
and rotation and `totalHouses` unchanged. -/
theorem C10_update_physics_frame (deltaTime : ℚ) (s : Scene) :
    (update_physics deltaTime s).houses.length = s.houses.length ∧
    (update_physics deltaTime s).houses.map House.position = s.houses.map House.position ∧
    (update_physics deltaTime s).houses.map House.houseType
      = s.houses.map House.houseType ∧
    (update_physics deltaTime s).treePositions = s.treePositions ∧
    (update_physics deltaTime s).rockPositions = s.rockPositions ∧
    (update_physics deltaTime s).airshipPosition = s.airshipPosition ∧
    (update_physics deltaTime s).airshipRotation = s.airshipRotation ∧
    (update_physics deltaTime s).totalHouses = s.totalHouses :=
  ⟨housesStep_length (update_physics_step deltaTime s),
    housesStep_position (update_physics_step deltaTime s),
    housesStep_houseType (update_physics_step deltaTime s), rfl, rfl, rfl, rfl, rfl⟩

/-! ## C4 and C5: drop requests -/

theorem drop_package_length (rnd : Nat) (s : Scene) :
    (drop_package rnd s).packages.length = s.packages.length + 1 := by
  simp [drop_package]

/-- A drop request at the cap changes nothing. -/
theorem main_drop_request_full (rnd : Nat) (s : Scene) (h : 20 ≤ s.packages.length) :
    main_drop_request rnd s = s := by
  unfold main_drop_request NUM_PACKAGES_MAX
  rw [if_neg (by omega)]

/-- A drop request below the cap adds one package. -/
theorem main_drop_request_room (rnd : Nat) (s : Scene) (h : s.packages.length < 20) :
    (main_drop_request rnd s).packages.length = s.packages.length + 1 := by
  unfold main_drop_request NUM_PACKAGES_MAX
  rw [if_pos h, drop_package_length]

/-- A tick never adds a package. -/
theorem update_physics_length_le (dt : ℚ) (s : Scene) :
    (update_physics dt s).packages.length ≤ s.packages.length := by
  rw [update_physics_packages_eq]
  exact (List.length_filter_le _ _).trans (by simp)

theorem run_nil (s : Scene) : run s [] = s := rfl

theorem run_cons (s : Scene) (a : Action) (t : List Action) :
    run s (a :: t) = run (Action.apply s a) t := rfl

/-- After `k` drop requests in a row the collection holds `min (n + k) 20`
packages, `n ≤ 20` being the count before. -/
theorem drops_length (rnds : List Nat) (s : Scene) (h : s.packages.length ≤ 20) :
    (run s (rnds.map Action.drop)).packages.length
      = min (s.packages.length + rnds.length) 20 := by
  induction rnds generalizing s with
  | nil => simp [run_nil, h]
  | cons r t ih =>
    rw [List.map_cons, run_cons]
    show (run (main_drop_request r s) (t.map Action.drop)).packages.length = _
    rcases Nat.lt_or_ge s.packages.length 20 with hlt | hge
    · have h1 := main_drop_request_room r s hlt
      rw [ih _ (by omega), h1, List.length_cons]
      omega
    · rw [main_drop_request_full r s hge, ih s h, List.length_cons]
      omega

/-- The cap is an invariant of every run of ticks and drop requests. -/
theorem run_length_le (s : Scene) (acts : List Action) (h : s.packages.length ≤ 20) :
    (run s acts).packages.length ≤ 20 := by
  induction acts generalizing s with
  | nil => exact h
  | cons a t ih =>
    rw [run_cons]
    apply ih
    cases a with
    | tick dt => exact (update_physics_length_le dt s).trans h
    | drop rnd =>
      show (main_drop_request rnd s).packages.length ≤ 20
      rcases Nat.lt_or_ge s.packages.length 20 with hlt | hge
      · rw [main_drop_request_room rnd s hlt]
        omega
      · rw [main_drop_request_full rnd s hge]
        exact h

/-- C4: a drop request with 20 or more live packages leaves the scene as it
is; with fewer than 20 it adds exactly one package; 21 drop requests in a row
on an empty collection leave exactly 20 packages; and from a collection of at
most 20 packages no run of drop requests and ticks reaches more than 20. -/
theorem C4_package_cap (s : Scene) (rnd : Nat) :
    (20 ≤ s.packages.length → main_drop_request rnd s = s) ∧
    (s.packages.length < 20 →
        (main_drop_request rnd s).packages.length = s.packages.length + 1) ∧
    (∀ rnds : List Nat, s.packages = [] → rnds.length = 21 →
        (run s (rnds.map Action.drop)).packages.length = 20) ∧
    (∀ acts : List Action, s.packages.length ≤ 20 → (run s acts).packages.length ≤ 20) := by
  refine ⟨main_drop_request_full rnd s, main_drop_request_room rnd s, ?_, ?_⟩
  · intro rnds hs hl
    rw [drops_length rnds s (by rw [hs]; simp), hs, hl]
    rfl
  · intro acts h
    exact run_length_le s acts h

/-- C4 witness: 21 drop requests on the empty collection leave 20 packages. -/
theorem C4_package_cap_witness :
    (run (sceneOf [] [] 0) ((List.range 21).map Action.drop)).packages.length = 20 :=
  (C4_package_cap (sceneOf [] [] 0) 0).2.2.1 (List.range 21) rfl rfl

/-- C5: `drop_package` appends one package to the collection, after the
packages that were there, with position the airship position moved down by 10,
velocity `(0, -20, 0)`, `active`, rotation `0` and `rotationSpeed` in `[0, 2)`;
nothing else of the scene changes. -/
theorem C5_drop_package (rnd : Nat) (s : Scene) :
    ∃ pkg : Package,
      drop_package rnd s = { s with packages := s.packages ++ [pkg] } ∧
      pkg.position
        = ⟨s.airshipPosition.x + 0, s.airshipPosition.y + -10, s.airshipPosition.z + 0⟩ ∧
      pkg.velocity = ⟨0, -20, 0⟩ ∧
      pkg.active = true ∧
      pkg.rotation = 0 ∧
      0 ≤ pkg.rotationSpeed ∧ pkg.rotationSpeed < 2 := by
  refine ⟨_, rfl, rfl, rfl, rfl, rfl, ?_, ?_⟩
  · positivity
  · have h : rnd % 100 < 100 := Nat.mod_lt _ (by norm_num)
    have h2 : ((rnd % 100 : Nat) : ℚ) < 100 := by exact_mod_cast h
    show ((rnd % 100 : Nat) : ℚ) / 100 * 2 < 2
    linarith

/-! ## The integration step in exact arithmetic; C7: ground test and purge -/

/-- The integration statements written out field by field. -/
theorem integrate_eq (dt : ℚ) (p : Package) :
    update_physics_integrate dt p
      = { position := ⟨p.position.x + p.velocity.x * dt, p.position.y + p.velocity.y * dt,
            p.position.z + p.velocity.z * dt⟩
          velocity := ⟨p.velocity.x, p.velocity.y - 9.8 * dt * 5, p.velocity.z⟩
          active := p.active
          rotation := p.rotation + p.rotationSpeed * dt
          rotationSpeed := p.rotationSpeed } := rfl

/-- The integration step in exact arithmetic: an active package whose new height `position.y + velocity.y * dt` stays
above `5.0` is, after `update_physics`, in the collection between the survivors
of the packages before it and of the packages after it, with
`position + velocity * dt` computed from the velocity of before the tick,
`rotation + rotationSpeed * dt`, `velocity.y - 9.8 * dt * 5`, and `velocity.x`,
`velocity.z`, `rotationSpeed` and `active` as they were. -/
theorem exact_integration_step (deltaTime : ℚ) (s : Scene) (before after : List Package)
    (pkg : Package) (hps : s.packages = before ++ pkg :: after)
    (hact : pkg.active = true)
    (hup : 5 < pkg.position.y + pkg.velocity.y * deltaTime) :
    (update_physics deltaTime s).packages
      = (update_physics deltaTime { s with packages := before }).packages
        ++ { position := ⟨pkg.position.x + pkg.velocity.x * deltaTime,
                pkg.position.y + pkg.velocity.y * deltaTime,
                pkg.position.z + pkg.velocity.z * deltaTime⟩
             velocity := ⟨pkg.velocity.x, pkg.velocity.y - 9.8 * deltaTime * 5, pkg.velocity.z⟩
             active := true
             rotation := pkg.rotation + pkg.rotationSpeed * deltaTime
             rotationSpeed := pkg.rotationSpeed }
        :: (update_physics deltaTime { s with packages := after }).packages := by
  have hint := integrate_eq deltaTime pkg
  rw [hact] at hint
  have hact2 : (update_physics_integrate deltaTime pkg).active = true := by
    rw [integrate_active, hact]
  rw [update_physics_packages_eq, update_physics_packages_eq, update_physics_packages_eq, hps,
    List.map_append, List.filter_append, List.map_cons,
    package_flying deltaTime pkg [] 0 hact hup, List.filter_cons, hact2, if_pos rfl, hint]

/-- The integration step in exact arithmetic at a concrete input: a package at height 25 falling at 20 for half a second, between
a package that lands and one that stays up. -/
theorem exact_integration_step_example :
    (update_physics (1 / 2) (sceneOf []
        [⟨⟨7, 6, 7⟩, ⟨0, -20, 0⟩, true, 0, 1⟩, ⟨⟨1, 25, 2⟩, ⟨3, -20, 4⟩, true, 5, 6⟩,
          ⟨⟨0, 100, 0⟩, ⟨0, -20, 0⟩, true, 0, 0⟩] 0)).packages
      = [⟨⟨1 + 3 * (1 / 2), 25 + -20 * (1 / 2), 2 + 4 * (1 / 2)⟩,
            ⟨3, -20 - 9.8 * (1 / 2) * 5, 4⟩, true, 5 + 6 * (1 / 2), 6⟩,
          ⟨⟨0, 90, 0⟩, ⟨0, -20 - 49 / 2, 0⟩, true, 0, 0⟩] :=
  (exact_integration_step (1 / 2) (sceneOf []
      [⟨⟨7, 6, 7⟩, ⟨0, -20, 0⟩, true, 0, 1⟩, ⟨⟨1, 25, 2⟩, ⟨3, -20, 4⟩, true, 5, 6⟩,
        ⟨⟨0, 100, 0⟩, ⟨0, -20, 0⟩, true, 0, 0⟩] 0)
    [⟨⟨7, 6, 7⟩, ⟨0, -20, 0⟩, true, 0, 1⟩] [⟨⟨0, 100, 0⟩, ⟨0, -20, 0⟩, true, 0, 0⟩]
    ⟨⟨1, 25, 2⟩, ⟨3, -20, 4⟩, true, 5, 6⟩ rfl rfl (by decide!)).trans (by decide!)

theorem flippedCount_nil : flippedCount [] [] = 0 := rfl

theorem flippedCount_cons (a b : House) (l1 l2 : List House) :
    flippedCount (a :: l1) (b :: l2)
      = (if a.hasPackage = false ∧ b.hasPackage = true then 1 else 0) + flippedCount l1 l2 := by
  cases ha : a.hasPackage <;> cases hb : b.hasPackage <;>
    simp [flippedCount, List.filter_cons, ha, hb]
  omega

theorem flippedCount_self (hs : List House) : flippedCount hs hs = 0 := by
  induction hs with
  | nil => rfl
  | cons a t ih =>
    rw [flippedCount_cons, ih]
    cases ha : a.hasPackage <;> simp

/-- Flips add up along two successive steps. -/
theorem flippedCount_trans {l1 l2 l3 : List House} (h1 : List.Forall₂ HouseStep l1 l2)
    (h2 : List.Forall₂ HouseStep l2 l3) :
    flippedCount l1 l3 = flippedCount l1 l2 + flippedCount l2 l3 := by
  induction h1 generalizing l3 with
  | nil => cases h2; rfl
  | @cons a b t1 t2 hab _ ih =>
    cases h2 with
    | @cons _ c _ t3 hbc ht =>
      rw [flippedCount_cons, flippedCount_cons, flippedCount_cons, ih ht]
      have m1 := hab.2.2
      have m2 := hbc.2.2
      cases ha : a.hasPackage <;> cases hb : b.hasPackage <;> cases hc : c.hasPackage <;>
        simp [ha, hb, hc] at m1 m2 ⊢ <;> omega

/-- The house loop adds to the counter the number of flags it raises, at most one. -/
theorem houses_flips (p : Vec3) (hs : List House) (d : Int) :
    (update_physics_houses p hs d).2
        = d + (flippedCount hs (update_physics_houses p hs d).1 : Nat) ∧
      flippedCount hs (update_physics_houses p hs d).1 ≤ 1 := by
  induction hs with
  | nil => simp [houses_nil, flippedCount_nil]
  | cons h t ih =>
    by_cases hacc : h.hasPackage = false ∧ distance_lt ⟨p.x, 0, p.z⟩ h.position 20 = true
    · rw [houses_cons_hit p h t d hacc.1 hacc.2, flippedCount_cons, flippedCount_self]
      simp [hacc.1]
    · have hz : (if h.hasPackage = false ∧ h.hasPackage = true then 1 else 0) = 0 := by
        cases hh : h.hasPackage <;> simp
      rw [houses_cons_miss p h t d hacc, flippedCount_cons, hz, Nat.zero_add]
      exact ih

/-- The loop body adds to the counter the number of flags it raises: none when
the package does not land, at most one when it lands. -/
theorem package_flips (dt : ℚ) (p : Package) (hs : List House) (d : Int) :
    (update_physics_package dt p hs d).2.2
        = d + (flippedCount hs (update_physics_package dt p hs d).2.1 : Nat) ∧
      flippedCount hs (update_physics_package dt p hs d).2.1
        ≤ ([p].filter (fun q => decide (lands dt q))).length := by
  rcases package_cases dt p with h | h | h
  · rw [package_inactive dt p hs d h, flippedCount_self]
    simp
  · rw [package_flying dt p hs d h.1 h.2, flippedCount_self]
    simp
  · rw [package_landed dt p hs d h]
    have hf := houses_flips (landingPoint dt p) hs d
    refine ⟨hf.1, ?_⟩
    simp only [List.filter_cons, h, decide_True, if_true, List.filter_nil, List.length_cons,
      List.length_nil]
    exact hf.2

/-- The package loop adds to the counter the number of flags it raises, at
most one per package that lands. -/
theorem loop_flips (dt : ℚ) (ps : List Package) (hs : List House) (d : Int) :
    (update_physics_loop dt ps hs d).2.2
        = d + (flippedCount hs (update_physics_loop dt ps hs d).2.1 : Nat) ∧
      flippedCount hs (update_physics_loop dt ps hs d).2.1
        ≤ (ps.filter (fun q => decide (lands dt q))).length := by
  induction ps generalizing hs d with
  | nil =>
    rw [loop_nil, flippedCount_self]
    simp
  | cons p t ih =>
    have hp := package_flips dt p hs d
    have ht := ih (update_physics_package dt p hs d).2.1 (update_physics_package dt p hs d).2.2
    have hadd := flippedCount_trans (package_step dt p hs d)
      (loop_step dt t (update_physics_package dt p hs d).2.1
        (update_physics_package dt p hs d).2.2)
    have hlen : ((p :: t).filter (fun q => decide (lands dt q))).length
        = ([p].filter (fun q => decide (lands dt q))).length
          + (t.filter (fun q => decide (lands dt q))).length := by
      rw [← List.length_append, ← List.filter_append]
      rfl
    have key : (update_physics_loop dt (p :: t) hs d).2
        = (update_physics_loop dt t (update_physics_package dt p hs d).2.1
            (update_physics_package dt p hs d).2.2).2 := rfl
    rw [key, hlen, hadd]
    constructor
    · rw [ht.1, hp.1]
      push_cast
      ring
    · exact Nat.add_le_add hp.2 ht.2

/-- In exact arithmetic: in one call of `update_physics` the increase of `deliveredPackages` is
the number of houses whose flag went from `false` to `true`, and that number is
at most the number of packages that landed in the call; two packages that land
in the same tick within 20 of the only house of the scene, undelivered and on
the plane `y = 0`, score exactly 1. -/
theorem exact_one_package_one_house (deltaTime : ℚ) (s : Scene) :
    (update_physics deltaTime s).deliveredPackages
        = s.deliveredPackages + (flippedCount s.houses (update_physics deltaTime s).houses : Nat) ∧
    flippedCount s.houses (update_physics deltaTime s).houses
        ≤ (s.packages.filter (fun p => decide (lands deltaTime p))).length ∧
    (∀ (h : House) (p1 p2 : Package), s.houses = [h] → s.packages = [p1, p2] →
        h.position.y = 0 → lands deltaTime p1 → lands deltaTime p2 →
        eligible (landingPoint deltaTime p1) h → eligible (landingPoint deltaTime p2) h →
        (update_physics deltaTime s).deliveredPackages = s.deliveredPackages + 1 ∧
        (update_physics deltaTime s).houses = [{ h with hasPackage := true }]) := by
  have hf := loop_flips deltaTime s.packages s.houses s.deliveredPackages
  refine ⟨hf.1, hf.2, ?_⟩
  intro h p1 p2 hh hps hy hl1 hl2 he1 he2
  have hfirst := houses_first (landingPoint deltaTime p1) [] [] h s.deliveredPackages
    (by simp) hy he1
  have hsecond := houses_none (landingPoint deltaTime p2) [{ h with hasPackage := true }]
    (s.deliveredPackages + 1) (by
      intro g hg
      rw [List.mem_singleton] at hg
      subst hg
      intro he
      exact absurd he.1 (by simp))
  rw [update_physics_delivered_eq, update_physics_houses_eq, hps, hh, loop_cons, loop_cons,
    loop_nil, package_landed deltaTime p1 _ _ hl1]
  simp only [List.nil_append] at hfirst
  rw [hfirst, package_landed deltaTime p2 _ _ hl2, hsecond]
  exact ⟨rfl, rfl⟩

/-- The same at a concrete input in exact arithmetic: two packages come down in the same tick next to the only
house; the score goes from 4 to 5 and both packages are gone. -/
theorem exact_one_package_one_house_example :
    (update_physics 1 (sceneOf [⟨⟨0, 0, 0⟩, false, 0⟩]
        [⟨⟨1, 25, 0⟩, ⟨0, -20, 0⟩, true, 0, 0⟩, ⟨⟨0, 20, 2⟩, ⟨0, -20, 0⟩, true, 0, 0⟩]
        4)).deliveredPackages = 4 + 1 ∧
    (update_physics 1 (sceneOf [⟨⟨0, 0, 0⟩, false, 0⟩]
        [⟨⟨1, 25, 0⟩, ⟨0, -20, 0⟩, true, 0, 0⟩, ⟨⟨0, 20, 2⟩, ⟨0, -20, 0⟩, true, 0, 0⟩]
        4)).houses = [⟨⟨0, 0, 0⟩, true, 0⟩] :=
  (exact_one_package_one_house 1 (sceneOf [⟨⟨0, 0, 0⟩, false, 0⟩]
      [⟨⟨1, 25, 0⟩, ⟨0, -20, 0⟩, true, 0, 0⟩, ⟨⟨0, 20, 2⟩, ⟨0, -20, 0⟩, true, 0, 0⟩] 4)).2.2
    ⟨⟨0, 0, 0⟩, false, 0⟩ ⟨⟨1, 25, 0⟩, ⟨0, -20, 0⟩, true, 0, 0⟩
    ⟨⟨0, 20, 2⟩, ⟨0, -20, 0⟩, true, 0, 0⟩ rfl rfl rfl (by decide!) (by decide!)
    (by decide!) (by decide!)

/-! ## The fall of a package in exact arithmetic -/

theorem ticks_succ (dt : ℚ) (n : Nat) (s : Scene) :
    ticks dt (n + 1) s = ticks dt n (update_physics dt s) := rfl

/-- A tick of a scene whose only package stays above `5.0`. -/
theorem tick_single_flying (dt : ℚ) (s : Scene) (p : Package) (hps : s.packages = [p])
    (ha : p.active = true) (hup : 5 < p.position.y + p.velocity.y * dt) :
    (update_physics dt s).packages = [update_physics_integrate dt p] ∧
    (update_physics dt s).houses = s.houses ∧
    (update_physics dt s).deliveredPackages = s.deliveredPackages := by
  have hl : ¬ lands dt p := fun h => absurd h.2 (not_le.2 hup)
  have h2 := loop_inert dt [p] s.houses s.deliveredPackages
    (fun q hq hlq => by rw [List.mem_singleton] at hq; subst hq; exact absurd hlq hl)
  have hact : (update_physics_integrate dt p).active = true := by rw [integrate_active, ha]
  refine ⟨?_, ?_, ?_⟩
  · rw [update_physics_packages_eq, hps, List.map_cons, List.map_nil,
      package_flying dt p [] 0 ha hup, List.filter_cons, hact, if_pos rfl, List.filter_nil]
  · rw [update_physics_houses_eq, hps, h2]
  · rw [update_physics_delivered_eq, hps, h2]

/-- A tick of a scene whose only package lands within reach of its only house. -/
theorem tick_single_landing (dt : ℚ) (s : Scene) (p : Package) (h : House)
    (hps : s.packages = [p]) (hh : s.houses = [h]) (hy : h.position.y = 0)
    (hl : lands dt p) (he : eligible (landingPoint dt p) h) :
    (update_physics dt s).packages = [] ∧
    (update_physics dt s).houses = [{ h with hasPackage := true }] ∧
    (update_physics dt s).deliveredPackages = s.deliveredPackages + 1 := by
  have hfirst := houses_first (landingPoint dt p) [] [] h s.deliveredPackages (by simp) hy he
  simp only [List.nil_append] at hfirst
  have hina : (update_physics_package dt p [] 0).1.active = false := by
    rw [package_landed dt p [] 0 hl]
  refine ⟨?_, ?_, ?_⟩
  · rw [update_physics_packages_eq, hps, List.map_cons, List.map_nil, List.filter_cons, hina]
    rfl
  · rw [update_physics_houses_eq, hps, hh, loop_cons, loop_nil, package_landed dt p _ _ hl,
      hfirst]
  · rw [update_physics_delivered_eq, hps, hh, loop_cons, loop_nil, package_landed dt p _ _ hl,
      hfirst]

/-- A tick of a scene without packages changes neither houses nor counter. -/
theorem tick_empty (dt : ℚ) (s : Scene) (hps : s.packages = []) :
    (update_physics dt s).packages = [] ∧
    (update_physics dt s).houses = s.houses ∧
    (update_physics dt s).deliveredPackages = s.deliveredPackages := by
  refine ⟨?_, ?_, ?_⟩
  · rw [update_physics_packages_eq, hps]
    rfl
  · rw [update_physics_houses_eq, hps, loop_nil]
  · rw [update_physics_delivered_eq, hps, loop_nil]

/-- Ticks of any lengths on a scene without packages change neither houses nor
counter. -/
theorem run_ticks_empty (dts : List ℚ) (s : Scene) (hps : s.packages = []) :
    (run s (dts.map Action.tick)).packages = [] ∧
    (run s (dts.map Action.tick)).houses = s.houses ∧
    (run s (dts.map Action.tick)).deliveredPackages = s.deliveredPackages := by
  induction dts generalizing s with
  | nil => exact ⟨hps, rfl, rfl⟩
  | cons dt t ih =>
    have h1 := tick_empty dt s hps
    have h2 := ih (update_physics dt s) h1.1
    rw [List.map_cons, run_cons]
    exact ⟨h2.1, h2.2.1.trans h1.2.1, h2.2.2.trans h1.2.2⟩

/-- The fall: a single active package straight above the single undelivered
house, moving down at speed at least 20 and at height at most `5 + 20 * dt * k`,
lands and is delivered within `k + 1` ticks. -/
theorem fall_delivers (dt : ℚ) (hdt : 0 < dt) (h : House) (hund : h.hasPackage = false)
    (hy : h.position.y = 0) (k : Nat) :
    ∀ (s : Scene) (p : Package), s.houses = [h] → s.packages = [p] → p.active = true →
      p.position.x = h.position.x → p.position.z = h.position.z →
      p.velocity.x = 0 → p.velocity.z = 0 → p.velocity.y ≤ -20 →
      p.position.y ≤ 5 + 20 * dt * k →
      ∃ n : Nat, n ≤ k + 1 ∧ (ticks dt n s).packages = [] ∧
        (ticks dt n s).houses = [{ h with hasPackage := true }] ∧
        (ticks dt n s).deliveredPackages = s.deliveredPackages + 1 := by
  induction k with
  | zero =>
    intro s p hh hps ha hx hz hvx hvz hvy hpy
    have hl : lands dt p := by
      refine ⟨ha, ?_⟩
      simp only [Nat.cast_zero, mul_zero, add_zero] at hpy
      nlinarith
    have he : eligible (landingPoint dt p) h := by
      refine ⟨hund, ?_⟩
      unfold horizontalSq landingPoint Vec3.add Vec3.scale
      simp only [hvx, hvz, hx, hz]
      norm_num
    exact ⟨1, le_refl _, tick_single_landing dt s p h hps hh hy hl he⟩
  | succ k ih =>
    intro s p hh hps ha hx hz hvx hvz hvy hpy
    by_cases hland : p.position.y + p.velocity.y * dt ≤ 5
    · have he : eligible (landingPoint dt p) h := by
        refine ⟨hund, ?_⟩
        unfold horizontalSq landingPoint Vec3.add Vec3.scale
        simp only [hvx, hvz, hx, hz]
        norm_num
      exact ⟨1, by omega, tick_single_landing dt s p h hps hh hy ⟨ha, hland⟩ he⟩
    · have hup : 5 < p.position.y + p.velocity.y * dt := not_le.1 hland
      have ht := tick_single_flying dt s p hps ha hup
      have hpy2 : (update_physics_integrate dt p).position.y ≤ 5 + 20 * dt * k := by
        rw [integrate_position, landingPoint_y]
        push_cast at hpy
        nlinarith
      have hvy2 : (update_physics_integrate dt p).velocity.y ≤ -20 := by
        rw [integrate_eq]
        show p.velocity.y - 9.8 * dt * 5 ≤ -20
        norm_num
        nlinarith
      have hx2 : (update_physics_integrate dt p).position.x = h.position.x := by
        rw [integrate_eq]
        show p.position.x + p.velocity.x * dt = h.position.x
        rw [hvx, hx]
        ring
      have hz2 : (update_physics_integrate dt p).position.z = h.position.z := by
        rw [integrate_eq]
        show p.position.z + p.velocity.z * dt = h.position.z
        rw [hvz, hz]
        ring
      obtain ⟨n, hn, h1, h2, h3⟩ := ih (update_physics dt s) (update_physics_integrate dt p)
        (by rw [ht.2.1, hh]) ht.1 (by rw [integrate_active, ha]) hx2 hz2 hvx hvz hvy2 hpy2
      refine ⟨n + 1, by omega, ?_, ?_, ?_⟩
      · rw [ticks_succ, h1]
      · rw [ticks_succ, h2]
      · rw [ticks_succ, h3, ht.2.2]

/-- The fall in exact arithmetic: the airship is at height 115 straight above the only house of the
scene, the house is undelivered and on the plane `y = 0`, and there is no live
package.  After one `drop_package`, for every tick length `dt > 0` there is a
number `n` of `update_physics(dt)` calls after which the collection is empty,
the house has `hasPackage == true` and `deliveredPackages` is one more than
before; ticks of any lengths after that change neither the flag nor the score. -/
theorem exact_end_to_end_delivery (deltaTime : ℚ) (s : Scene) (h : House) (rnd : Nat)
    (hdt : 0 < deltaTime) (hh : s.houses = [h]) (hund : h.hasPackage = false)
    (hy : h.position.y = 0)
    (hair : s.airshipPosition = ⟨h.position.x, 115, h.position.z⟩)
    (hps : s.packages = []) :
    ∃ n : Nat,
      (ticks deltaTime n (drop_package rnd s)).packages = [] ∧
      (ticks deltaTime n (drop_package rnd s)).houses = [{ h with hasPackage := true }] ∧
      (ticks deltaTime n (drop_package rnd s)).deliveredPackages = s.deliveredPackages + 1 ∧
      ∀ dts : List ℚ,
        (run (ticks deltaTime n (drop_package rnd s)) (dts.map Action.tick)).houses
            = [{ h with hasPackage := true }] ∧
        (run (ticks deltaTime n (drop_package rnd s)) (dts.map Action.tick)).deliveredPackages
            = s.deliveredPackages + 1 := by
  obtain ⟨k, hk⟩ := exists_nat_ge (5 / deltaTime)
  have hk2 : 5 ≤ (k : ℚ) * deltaTime := (div_le_iff₀ hdt).1 hk
  have hdrop : (drop_package rnd s).packages
      = [{ position := ⟨h.position.x + 0, 115 + -10, h.position.z + 0⟩
           velocity := ⟨0, -20, 0⟩
           active := true
           rotation := 0
           rotationSpeed := ((rnd % 100 : Nat) : ℚ) / 100 * 2 }] := by
    unfold drop_package Vec3.add
    simp only [hps, hair, List.nil_append]
  obtain ⟨n, _, h1, h2, h3⟩ := fall_delivers deltaTime hdt h hund hy k (drop_package rnd s) _
    hh hdrop rfl (by simp) (by simp) rfl rfl (le_refl _)
    (by
      show (115 : ℚ) + -10 ≤ 5 + 20 * deltaTime * k
      nlinarith)
  refine ⟨n, h1, h2, h3, ?_⟩
  intro dts
  have hr := run_ticks_empty dts _ h1
  exact ⟨hr.2.1.trans h2, hr.2.2.trans h3⟩

/-- The fall in exact arithmetic at a concrete input: the house at `(3, 0, 4)`, the airship at `(3, 115, 4)`, ticks of
one second. -/
theorem exact_end_to_end_delivery_example :
    ∃ n : Nat,
      (ticks 1 n (drop_package 7
        { sceneOf [⟨⟨3, 0, 4⟩, false, 2⟩] [] 0 with airshipPosition := ⟨3, 115, 4⟩ })).packages
          = [] ∧
      (ticks 1 n (drop_package 7
        { sceneOf [⟨⟨3, 0, 4⟩, false, 2⟩] [] 0 with airshipPosition := ⟨3, 115, 4⟩ })).houses
          = [⟨⟨3, 0, 4⟩, true, 2⟩] ∧
      (ticks 1 n (drop_package 7
        { sceneOf [⟨⟨3, 0, 4⟩, false, 2⟩] [] 0
            with airshipPosition := ⟨3, 115, 4⟩ })).deliveredPackages = 0 + 1 ∧
      ∀ dts : List ℚ,
        (run (ticks 1 n (drop_package 7
          { sceneOf [⟨⟨3, 0, 4⟩, false, 2⟩] [] 0 with airshipPosition := ⟨3, 115, 4⟩ }))
          (dts.map Action.tick)).houses = [⟨⟨3, 0, 4⟩, true, 2⟩] ∧
        (run (ticks 1 n (drop_package 7
          { sceneOf [⟨⟨3, 0, 4⟩, false, 2⟩] [] 0 with airshipPosition := ⟨3, 115, 4⟩ }))
          (dts.map Action.tick)).deliveredPackages = 0 + 1 :=
  exact_end_to_end_delivery 1
    { sceneOf [⟨⟨3, 0, 4⟩, false, 2⟩] [] 0 with airshipPosition := ⟨3, 115, 4⟩ }
    ⟨⟨3, 0, 4⟩, false, 2⟩ 7 (by norm_num) rfl rfl rfl rfl rfl

/-- That run in exact arithmetic, evaluated: with ticks of one second the package
is at heights 85 and 16 after the first two ticks and lands in the third. -/
theorem end_to_end_example :
    ((ticks 1 2 (drop_package 7
        { sceneOf [⟨⟨3, 0, 4⟩, false, 2⟩] [] 0
            with airshipPosition := ⟨3, 115, 4⟩ })).packages.map
        (fun p => p.position.y) = [16]) ∧
    (ticks 1 2 (drop_package 7
        { sceneOf [⟨⟨3, 0, 4⟩, false, 2⟩] [] 0 with airshipPosition := ⟨3, 115, 4⟩ })).houses
          = [⟨⟨3, 0, 4⟩, false, 2⟩] ∧
    (ticks 1 3 (drop_package 7
        { sceneOf [⟨⟨3, 0, 4⟩, false, 2⟩] [] 0 with airshipPosition := ⟨3, 115, 4⟩ })).packages
          = [] ∧
    (ticks 1 3 (drop_package 7
        { sceneOf [⟨⟨3, 0, 4⟩, false, 2⟩] [] 0 with airshipPosition := ⟨3, 115, 4⟩ })).houses
          = [⟨⟨3, 0, 4⟩, true, 2⟩] ∧
    (ticks 1 3 (drop_package 7
        { sceneOf [⟨⟨3, 0, 4⟩, false, 2⟩] [] 0
            with airshipPosition := ⟨3, 115, 4⟩ })).deliveredPackages = 1 := by
  decide!

/-! ## Loops that push vertices -/

/-- A loop whose body appends `f i` to the list leaves the list followed by
the pushed blocks in loop order. -/
theorem foldl_push {α β : Type} (f : β → List α) (l : List β) (init : List α) :
    l.foldl (fun vs i => vs ++ f i) init = init ++ l.flatMap f := by
  induction l generalizing init with
  | nil => simp
  | cons a t ih => simp [ih, List.flatMap_cons, List.append_assoc]

/-- The same for a loop body `g` that is known to append to the list it is given. -/
theorem foldl_push_of {α β : Type} (g : List α → β → List α)
    (hg : ∀ vs i, g vs i = vs ++ g [] i) (l : List β) (init : List α) :
    l.foldl g init = init ++ l.flatMap (g []) := by
  induction l generalizing init with
  | nil => simp
  | cons a t ih =>
    rw [List.foldl_cons, ih, hg, List.flatMap_cons, List.append_assoc]

/-- Blocks of a common length `c`: the pushed list has `c` elements per iteration. -/
theorem length_flatMap_const {α β : Type} (f : β → List α) (l : List β) (c : Nat)
    (h : ∀ i ∈ l, (f i).length = c) : (l.flatMap f).length = c * l.length := by
  induction l with
  | nil => simp
  | cons a t ih =>
    rw [List.flatMap_cons, List.length_append, h a (List.mem_cons_self _ _),
      ih (fun i hi => h i (List.mem_cons_of_mem _ hi)), List.length_cons]
    ring

/-! ## C11: the terrain -/

theorem generate_terrain_eq {F : Type} [LinearOrderedField F] (vertices : List (Vertex F)) :
    generate_terrain vertices
      = vertices ++ (List.range 9).flatMap
          (fun z => (List.range 9).flatMap (fun x => generate_terrain_cell 10 10 500 z x)) := by
  unfold generate_terrain
  simp only [foldl_push]

theorem generate_terrain_cell_length {F : Type} [LinearOrderedField F] (w h : Nat) (scale : F)
    (z x : Nat) : (generate_terrain_cell w h scale z x).length = 6 := rfl

/-- C11: on the empty list `generate_terrain` pushes `486 = 3 * 162` vertices,
`162 = 2 * (10 - 1)^2` triangles, and every vertex has `position.y = 0`, normal
`(0, 1, 0)` and type tag `0`. -/
theorem C11_terrain_mesh {F : Type} [LinearOrderedField F] :
    (generate_terrain ([] : List (Vertex F))).length = 3 * 162 ∧
    162 = 2 * (10 - 1) ^ 2 ∧
    ∀ v ∈ generate_terrain ([] : List (Vertex F)),
      v.position.y = 0 ∧ v.normal = ⟨0, 1, 0⟩ ∧ v.type = 0 := by
  refine ⟨?_, by norm_num, ?_⟩
  · have hrow : ∀ z : Nat, ((List.range 9).flatMap
        (fun x => (generate_terrain_cell 10 10 500 z x : List (Vertex F)))).length = 54 := by
      intro z
      rw [length_flatMap_const _ _ 6
        (fun x _ => generate_terrain_cell_length 10 10 500 z x), List.length_range]
    rw [generate_terrain_eq, List.nil_append,
      length_flatMap_const _ _ 54 (fun z _ => hrow z), List.length_range]
  · intro v hv
    rw [generate_terrain_eq, List.nil_append] at hv
    obtain ⟨z, _, hz⟩ := List.mem_flatMap.1 hv
    obtain ⟨x, _, hx⟩ := List.mem_flatMap.1 hz
    unfold generate_terrain_cell at hx
    simp only [List.mem_cons, List.mem_singleton, List.not_mem_nil, or_false] at hx
    rcases hx with h | h | h | h | h | h <;> subst h <;> exact ⟨rfl, rfl, rfl⟩

/-! ## `computeTangents` -/

/-- Induction over a list three elements at a time, as the loop of
`computeTangents` reads it. -/
theorem triple_induction {α : Type} (P : List α → Prop) (h0 : P [])
    (h1 : ∀ a, P [a]) (h2 : ∀ a b, P [a, b])
    (h3 : ∀ a b c rest, P rest → P (a :: b :: c :: rest)) : ∀ l, P l := by
  have key : ∀ n : Nat, ∀ l : List α, l.length ≤ n → P l := by
    intro n
    induction n with
    | zero =>
      intro l hl
      cases l with
      | nil => exact h0
      | cons a t => simp at hl
    | succ n ih =>
      intro l hl
      match l, hl with
      | [], _ => exact h0
      | [a], _ => exact h1 a
      | [a, b], _ => exact h2 a b
      | a :: b :: c :: rest, hl =>
        apply h3
        apply ih
        simp only [List.length_cons] at hl
        omega
  intro l
  exact key l.length l (le_refl _)

theorem computeTangents_nil {F : Type} [LinearOrderedField F] (lib : FloatLib F) :
    computeTangents lib ([] : List (Vertex F)) = [] := rfl

theorem computeTangents_one {F : Type} [LinearOrderedField F] (lib : FloatLib F)
    (a : Vertex F) : computeTangents lib [a] = [a] := rfl

theorem computeTangents_two {F : Type} [LinearOrderedField F] (lib : FloatLib F)
    (a b : Vertex F) : computeTangents lib [a, b] = [a, b] := rfl

/-- One iteration of the loop of `computeTangents`. -/
theorem computeTangents_triple {F : Type} [LinearOrderedField F] (lib : FloatLib F)
    (v0 v1 v2 : Vertex F) (rest : List (Vertex F)) :
    computeTangents lib (v0 :: v1 :: v2 :: rest)
      = { v0 with tangent := computeTangents_tangent lib v0 v1 v2 }
        :: { v1 with tangent := computeTangents_tangent lib v0 v1 v2 }
        :: { v2 with tangent := computeTangents_tangent lib v0 v1 v2 }
        :: computeTangents lib rest := rfl

/-- The tangent of a triple is computed from positions and texture coordinates only. -/
theorem computeTangents_tangent_congr {F : Type} [LinearOrderedField F] (lib : FloatLib F)
    (a b c a2 b2 c2 : Vertex F)
    (ha : a.position = a2.position ∧ a.texCoords = a2.texCoords)
    (hb : b.position = b2.position ∧ b.texCoords = b2.texCoords)
    (hc : c.position = c2.position ∧ c.texCoords = c2.texCoords) :
    computeTangents_tangent lib a b c = computeTangents_tangent lib a2 b2 c2 := by
  unfold computeTangents_tangent
  rw [ha.1, ha.2, hb.1, hb.2, hc.1, hc.2]

theorem computeTangents_length {F : Type} [LinearOrderedField F] (lib : FloatLib F)
    (vs : List (Vertex F)) : (computeTangents lib vs).length = vs.length := by
  induction vs using triple_induction with
  | h0 => rfl
  | h1 a => rfl
  | h2 a b => rfl
  | h3 a b c rest ih => simp [computeTangents_triple, ih]

/-- The pass `computeTangents` writes tangents only. -/
theorem computeTangents_withoutTangent {F : Type} [LinearOrderedField F] (lib : FloatLib F)
    (vs : List (Vertex F)) :
    (computeTangents lib vs).map Vertex.withoutTangent = vs.map Vertex.withoutTangent := by
  induction vs using triple_induction with
  | h0 => rfl
  | h1 a => rfl
  | h2 a b => rfl
  | h3 a b c rest ih =>
    rw [computeTangents_triple]
    simp only [List.map_cons, ih]
    rfl

theorem computeTangents_short {F : Type} [LinearOrderedField F] (lib : FloatLib F)
    (l : List (Vertex F)) (hl : l.length < 3) : computeTangents lib l = l := by
  match l, hl with
  | [], _ => rfl
  | [a], _ => rfl
  | [a, b], _ => rfl
  | a :: b :: c :: rest, hl =>
    simp only [List.length_cons] at hl
    omega

/-- After a whole number of triples the pass goes on with the rest of the list. -/
theorem computeTangents_append {F : Type} [LinearOrderedField F] (lib : FloatLib F)
    (pre l : List (Vertex F)) (hpre : pre.length % 3 = 0) :
    computeTangents lib (pre ++ l) = computeTangents lib pre ++ computeTangents lib l := by
  induction pre using triple_induction with
  | h0 => rfl
  | h1 a => simp at hpre
  | h2 a b => simp at hpre
  | h3 a b c rest ih =>
    have hr : rest.length % 3 = 0 := by
      simp only [List.length_cons] at hpre
      omega
    simp only [List.cons_append, computeTangents_triple, ih hr]

theorem withoutTangent_eq {F : Type} [LinearOrderedField F] (a b : Vertex F)
    (h : a.withoutTangent = b.withoutTangent) :
    a.position = b.position ∧ a.texCoords = b.texCoords ∧ a.normal = b.normal ∧
      a.type = b.type := by
  unfold Vertex.withoutTangent at h
  injection h with h1 h2 h3 _ h5
  exact ⟨h1, h2, h3, h5⟩

/-- On a whole number of triples the result does not depend on the tangents
the vertices held before. -/
theorem computeTangents_congr {F : Type} [LinearOrderedField F] (lib : FloatLib F)
    (vs : List (Vertex F)) :
    ∀ ws : List (Vertex F), ws.map Vertex.withoutTangent = vs.map Vertex.withoutTangent →
      vs.length % 3 = 0 → computeTangents lib ws = computeTangents lib vs := by
  induction vs using triple_induction with
  | h0 =>
    intro ws hw _
    cases ws with
    | nil => rfl
    | cons a t => simp at hw
  | h1 a => intro ws _ hl; simp at hl
  | h2 a b => intro ws _ hl; simp at hl
  | h3 a b c rest ih =>
    intro ws hw hl
    match ws, hw with
    | a2 :: b2 :: c2 :: rest2, hw =>
      simp only [List.map_cons, List.cons.injEq] at hw
      obtain ⟨ha, hb, hc, hrest⟩ := hw
      have hr : rest.length % 3 = 0 := by
        simp only [List.length_cons] at hl
        omega
      have ea := withoutTangent_eq a2 a ha
      have eb := withoutTangent_eq b2 b hb
      have ec := withoutTangent_eq c2 c hc
      rw [computeTangents_triple, computeTangents_triple, ih rest2 hrest hr,
        computeTangents_tangent_congr lib a2 b2 c2 a b c ⟨ea.1, ea.2.1⟩ ⟨eb.1, eb.2.1⟩
          ⟨ec.1, ec.2.1⟩, ea.1, ea.2.1, ea.2.2.1, ea.2.2.2, eb.1, eb.2.1, eb.2.2.1, eb.2.2.2,
        ec.1, ec.2.1, ec.2.2.1, ec.2.2.2]
    | [], hw => simp at hw
    | [a2], hw => simp at hw
    | [a2, b2], hw => simp at hw

/-- A second pass of `computeTangents` changes nothing. -/
theorem computeTangents_idem {F : Type} [LinearOrderedField F] (lib : FloatLib F)
    (vs : List (Vertex F)) :
    computeTangents lib (computeTangents lib vs) = computeTangents lib vs := by
  induction vs using triple_induction with
  | h0 => rfl
  | h1 a => rfl
  | h2 a b => rfl
  | h3 a b c rest ih =>
    have ht := computeTangents_tangent_congr lib
      { a with tangent := computeTangents_tangent lib a b c }
      { b with tangent := computeTangents_tangent lib a b c }
      { c with tangent := computeTangents_tangent lib a b c } a b c
      ⟨rfl, rfl⟩ ⟨rfl, rfl⟩ ⟨rfl, rfl⟩
    rw [computeTangents_triple, computeTangents_triple, ih, ht]

theorem map_of_withoutTangent {F α : Type} [LinearOrderedField F] (g : Vertex F → α)
    (hg : ∀ v : Vertex F, g v.withoutTangent = g v) (vs ws : List (Vertex F))
    (h : vs.map Vertex.withoutTangent = ws.map Vertex.withoutTangent) :
    vs.map g = ws.map g := by
  have e : ∀ l : List (Vertex F), l.map g = (l.map Vertex.withoutTangent).map g := by
    intro l
    rw [List.map_map]
    exact List.map_congr_left (fun v _ => (hg v).symm)
  rw [e vs, e ws, h]

/-! ## The box generators and the other loops -/

theorem box_face_eq {F : Type} [LinearOrderedField F] (corners : List (GVec3 F)) (type : F)
    (vertices : List (Vertex F)) (face : Nat) :
    box_face corners type vertices face = vertices ++ box_face corners type [] face := by
  simp [box_face]

theorem box_loop_eq {F : Type} [LinearOrderedField F] (corners : List (GVec3 F)) (type : F)
    (l : List Nat) (vertices : List (Vertex F)) :
    l.foldl (box_face corners type) vertices
      = vertices ++ l.flatMap (box_face corners type []) := by
  exact foldl_push_of _ (box_face_eq corners type) l vertices

theorem box_face_length {F : Type} [LinearOrderedField F] (corners : List (GVec3 F))
    (type : F) (face : Nat) : (box_face corners type [] face).length = 6 := rfl

theorem box_face_type {F : Type} [LinearOrderedField F] (corners : List (GVec3 F))
    (type : F) (face : Nat) : ∀ v ∈ box_face corners type [] face, v.type = type := by
  intro v hv
  unfold box_face at hv
  simp only [List.nil_append, List.mem_cons, List.mem_singleton, List.not_mem_nil,
    or_false] at hv
  rcases hv with h | h | h | h | h | h <;> subst h <;> rfl

/-- A box loop on the empty list pushes 36 vertices, all with the type tag of
the generator. -/
theorem box_loop_spec {F : Type} [LinearOrderedField F] (corners : List (GVec3 F))
    (type : F) :
    ((List.range 6).foldl (box_face corners type) []).length = 36 ∧
    ∀ v ∈ (List.range 6).foldl (box_face corners type) [], v.type = type := by
  rw [box_loop_eq, List.nil_append]
  constructor
  · rw [length_flatMap_const _ _ 6 (fun face _ => box_face_length corners type face),
      List.length_range]
  · intro v hv
    obtain ⟨face, _, hf⟩ := List.mem_flatMap.1 hv
    exact box_face_type corners type face v hf

/-- The pass `computeTangents` keeps a common type tag. -/
theorem computeTangents_type {F : Type} [LinearOrderedField F] (lib : FloatLib F)
    (vs : List (Vertex F)) (t : F) (h : ∀ v ∈ vs, v.type = t) :
    ∀ v ∈ computeTangents lib vs, v.type = t := by
  have hm := map_of_withoutTangent (fun v : Vertex F => v.type) (fun _ => rfl) _ _
    (computeTangents_withoutTangent lib vs)
  intro v hv
  have h1 : v.type ∈ (computeTangents lib vs).map (fun v : Vertex F => v.type) :=
    List.mem_map.2 ⟨v, hv, rfl⟩
  rw [hm] at h1
  obtain ⟨w, hw, hwt⟩ := List.mem_map.1 h1
  rw [← hwt]
  exact h w hw

theorem generate_tree_eq {F : Type} [LinearOrderedField F] (lib : FloatLib F)
    (vertices : List (Vertex F)) (height : F) :
    generate_tree lib vertices height
      = vertices
        ++ (List.range 8).flatMap (generate_tree_trunk lib 0.8 (height * 0.6) 8)
        ++ (List.range 16).flatMap
            (generate_tree_crown lib 2.5 (height * 0.6) (height * 0.4) 16)
        ++ (List.range 16).flatMap (generate_tree_cap lib 2.5 (height * 0.6) 16) := by
  unfold generate_tree
  simp only [foldl_push]

theorem generate_airship_ring_eq {F : Type} [LinearOrderedField F] (lib : FloatLib F)
    (numStacks numSectors : Nat) (vertices : List (Vertex F)) (i : Nat) :
    generate_airship_ring lib numStacks numSectors vertices i
      = vertices ++ (List.range numSectors).flatMap
          (generate_airship_cell lib numStacks numSectors i) := by
  unfold generate_airship_ring
  rw [foldl_push]

theorem generate_airship_eq {F : Type} [LinearOrderedField F] (lib : FloatLib F)
    (vertices : List (Vertex F)) :
    generate_airship lib vertices
      = vertices ++ (List.range 8).flatMap (generate_airship_ring lib 8 16 []) := by
  unfold generate_airship
  refine foldl_push_of _ ?_ _ vertices
  intro vs i
  rw [generate_airship_ring_eq, generate_airship_ring_eq, List.nil_append]

/-- The number of vertices the body of the airship loops pushes: three in the
two pole rings, six in the others. -/
theorem generate_airship_cell_length {F : Type} [LinearOrderedField F] (lib : FloatLib F)
    (i j : Nat) :
    (generate_airship_cell lib 8 16 i j).length = if i = 0 ∨ i = 7 then 3 else 6 := by
  unfold generate_airship_cell
  by_cases h0 : i = 0
  · simp [h0]
  · by_cases h7 : i = 7
    · simp [h7]
    · simp [h0, h7]

/-- The number of vertices of one ring of the airship. -/
theorem generate_airship_ring_length {F : Type} [LinearOrderedField F] (lib : FloatLib F)
    (i : Nat) :
    (generate_airship_ring lib 8 16 ([] : List (Vertex F)) i).length
      = if i = 0 ∨ i = 7 then 3 * 16 else 3 * 32 := by
  rw [generate_airship_ring_eq, List.nil_append,
    length_flatMap_const _ _ (if i = 0 ∨ i = 7 then 3 else 6)
      (fun j _ => generate_airship_cell_length lib i j), List.length_range]
  split <;> rfl

theorem generate_package_eq {F : Type} [LinearOrderedField F] (lib : FloatLib F) :
    generate_package lib ([] : List (Vertex F))
      = computeTangents lib ((List.range 6).foldl (box_face (box_verticesList 0.5) 1) []) :=
  rfl

theorem generate_package_length {F : Type} [LinearOrderedField F] (lib : FloatLib F) :
    (generate_package lib ([] : List (Vertex F))).length = 36 := by
  rw [generate_package_eq, computeTangents_length]
  exact (box_loop_spec _ _).1

theorem generate_tree_part_lengths {F : Type} [LinearOrderedField F] (lib : FloatLib F)
    (height : F) :
    ((List.range 8).flatMap (generate_tree_trunk lib 0.8 (height * 0.6) 8)).length = 3 * 16 ∧
    ((List.range 16).flatMap
      (generate_tree_crown lib 2.5 (height * 0.6) (height * 0.4) 16)).length = 3 * 16 ∧
    ((List.range 16).flatMap (generate_tree_cap lib 2.5 (height * 0.6) 16)).length
      = 3 * 16 := by
  refine ⟨?_, ?_, ?_⟩
  · rw [length_flatMap_const (generate_tree_trunk lib 0.8 (height * 0.6) 8) _ 6
      (fun i _ => rfl), List.length_range]
  · rw [length_flatMap_const (generate_tree_crown lib 2.5 (height * 0.6) (height * 0.4) 16)
      _ 3 (fun i _ => rfl), List.length_range]
  · rw [length_flatMap_const (generate_tree_cap lib 2.5 (height * 0.6) 16) _ 3
      (fun i _ => rfl), List.length_range]

theorem generate_airship_length {F : Type} [LinearOrderedField F] (lib : FloatLib F) :
    (generate_airship lib ([] : List (Vertex F))).length = 3 * 224 := by
  have hr : List.range 8 = [0, 1, 2, 3, 4, 5, 6, 7] := by decide
  rw [generate_airship_eq, List.nil_append, hr]
  simp [List.flatMap_cons, generate_airship_ring_length]

/-! ## C12 and C13: vertex counts -/

/-- C12 as the code has it: with `stacks = 8` and `sectors = 16` each of the two
pole rings (`i == 0` and `i == stacks - 1`) gets `sectors = 16` triangles, each
of the six other rings `2 * sectors = 32`, the six together
`2 * (stacks - 2) * sectors = 192`, and the hull `224` triangles in all. -/
theorem C12_airship_ring_counts {F : Type} [LinearOrderedField F] (lib : FloatLib F) :
    (generate_airship_ring lib 8 16 ([] : List (Vertex F)) 0).length = 3 * 16 ∧
    (generate_airship_ring lib 8 16 ([] : List (Vertex F)) (8 - 1)).length = 3 * 16 ∧
    (∀ i : Nat, 0 < i → i < 8 - 1 →
      (generate_airship_ring lib 8 16 ([] : List (Vertex F)) i).length = 3 * (2 * 16)) ∧
    (((List.range 8).filter (fun i => decide (i ≠ 0 ∧ i ≠ 8 - 1))).flatMap
      (generate_airship_ring lib 8 16 ([] : List (Vertex F)))).length
        = 3 * (2 * (8 - 2) * 16) ∧
    (generate_airship lib ([] : List (Vertex F))).length = 3 * (16 + 16 + 2 * (8 - 2) * 16) := by
  refine ⟨?_, ?_, ?_, ?_, generate_airship_length lib⟩
  · rw [generate_airship_ring_length]
    rfl
  · rw [generate_airship_ring_length]
    rfl
  · intro i h0 h7
    rw [generate_airship_ring_length, if_neg (by omega)]
  · have hr : (List.range 8).filter (fun i => decide (i ≠ 0 ∧ i ≠ 8 - 1))
        = [1, 2, 3, 4, 5, 6] := by decide
    rw [hr]
    simp [List.flatMap_cons, generate_airship_ring_length]

/-- C12 as stated fails: the pole ring `i == 0` has `3 * 16` vertices, not the
`3 * (8 * 16)` of `stacks * sectors` triangles, and the other rings together
have `3 * 192`, not the `3 * (2 * 8 * 16)` of `2 * stacks * sectors` triangles. -/
theorem C12_airship_ring_counts_counterexample :
    (generate_airship_ring (⟨Real.sin, Real.cos, Real.sqrt⟩ : FloatLib ℝ) 8 16 [] 0).length
        ≠ 3 * (8 * 16) ∧
    (((List.range 8).filter (fun i => decide (i ≠ 0 ∧ i ≠ 8 - 1))).flatMap
      (generate_airship_ring (⟨Real.sin, Real.cos, Real.sqrt⟩ : FloatLib ℝ) 8 16 [])).length
        ≠ 3 * (2 * 8 * 16) := by
  have hr : (List.range 8).filter (fun i => decide (i ≠ 0 ∧ i ≠ 8 - 1))
      = [1, 2, 3, 4, 5, 6] := by decide
  rw [hr]
  simp [List.flatMap_cons, generate_airship_ring_length]

/-- C13: on the empty list every generator pushes a multiple of three vertices:
`generate_rock`, `generate_house` and `generate_package` `36 = 3 * (6 * 2)`
each, `generate_tree` `3 * 16` for the trunk, `3 * 16` for the crown sides and
`3 * 16` for the cap, `144` in all, for every height, `generate_terrain` `486`
and `generate_airship` `672`. -/
theorem C13_vertex_counts {F : Type} [LinearOrderedField F] (lib : FloatLib F) (height : F)
    (type : Int) :
    (generate_rock ([] : List (Vertex F))).length = 3 * (6 * 2) ∧
    (generate_house ([] : List (Vertex F)) type).length = 3 * (6 * 2) ∧
    (generate_package lib ([] : List (Vertex F))).length = 3 * (6 * 2) ∧
    ((List.range 8).flatMap (generate_tree_trunk lib 0.8 (height * 0.6) 8)).length = 3 * 16 ∧
    ((List.range 16).flatMap
      (generate_tree_crown lib 2.5 (height * 0.6) (height * 0.4) 16)).length = 3 * 16 ∧
    ((List.range 16).flatMap (generate_tree_cap lib 2.5 (height * 0.6) 16)).length = 3 * 16 ∧
    (generate_tree lib [] height).length = 144 ∧ 144 = 3 * (16 + 16 + 16) ∧
    (generate_terrain ([] : List (Vertex F))).length = 486 ∧ 486 = 3 * 162 ∧
    (generate_airship lib ([] : List (Vertex F))).length = 672 ∧ 672 = 3 * 224 := by
  have ht := generate_tree_part_lengths lib height
  have hterrain : (generate_terrain ([] : List (Vertex F))).length = 486 := by
    have hrow : ∀ z : Nat, ((List.range 9).flatMap
        (fun x => (generate_terrain_cell 10 10 500 z x : List (Vertex F)))).length = 54 := by
      intro z
      rw [length_flatMap_const _ _ 6
        (fun x _ => generate_terrain_cell_length 10 10 500 z x), List.length_range]
    rw [generate_terrain_eq, List.nil_append,
      length_flatMap_const _ _ 54 (fun z _ => hrow z), List.length_range]
  refine ⟨(box_loop_spec _ _).1, (box_loop_spec _ _).1, generate_package_length lib,
    ht.1, ht.2.1, ht.2.2, ?_, rfl, hterrain, rfl, generate_airship_length lib, rfl⟩
  rw [generate_tree_eq, List.nil_append, List.length_append, List.length_append, ht.1, ht.2.1,
    ht.2.2]

/-! ## C15: the fallback of `create_object` -/

theorem generate_package_isEmpty {F : Type} [LinearOrderedField F] (lib : FloatLib F) :
    (generate_package lib ([] : List (Vertex F))).isEmpty = false := by
  have h := generate_package_length lib
  cases hp : generate_package lib ([] : List (Vertex F)) with
  | nil => rw [hp] at h; simp at h
  | cons a t => rfl

/-- The list `create_object` builds for the type string `PACKAGE`. -/
theorem create_object_vertices_package {F : Type} [LinearOrderedField F] (lib : FloatLib F) :
    create_object_vertices lib "PACKAGE"
      = computeTangents lib (generate_package lib ([] : List (Vertex F))) := by
  unfold create_object_vertices
  simp only [show ¬ ("PACKAGE" = "FIELD") by decide, show ¬ ("PACKAGE" = "TREE") by decide,
    show ¬ ("PACKAGE" = "ROCK") by decide, show ¬ ("PACKAGE" = "HOUSE1") by decide,
    show ¬ ("PACKAGE" = "HOUSE2") by decide, show ¬ ("PACKAGE" = "HOUSE3") by decide,
    show ¬ ("PACKAGE" = "AIRSHIP") by decide, or_self, if_false, if_true,
    generate_package_isEmpty, Bool.false_eq_true]

/-- The list `create_object` builds for a type string that no branch takes. -/
theorem create_object_vertices_other {F : Type} [LinearOrderedField F] (lib : FloatLib F)
    (type : String) (h1 : type ≠ "FIELD") (h2 : type ≠ "TREE") (h3 : type ≠ "ROCK")
    (h4 : type ≠ "HOUSE1") (h5 : type ≠ "HOUSE2") (h6 : type ≠ "HOUSE3")
    (h7 : type ≠ "AIRSHIP") (h8 : type ≠ "PACKAGE") :
    create_object_vertices lib type
      = computeTangents lib (generate_package lib ([] : List (Vertex F))) := by
  unfold create_object_vertices
  simp only [h1, h2, h3, h4, h5, h6, h7, h8, or_self, if_false, List.isEmpty_nil, if_true]

/-- The fallback and the final pass turn any list into a list that is not empty. -/
theorem fallback_length_pos {F : Type} [LinearOrderedField F] (lib : FloatLib F)
    (vertices1 : List (Vertex F)) :
    0 < (computeTangents lib
      (if vertices1.isEmpty then generate_package lib vertices1 else vertices1)).length := by
  rw [computeTangents_length]
  cases vertices1 with
  | nil =>
    simp only [List.isEmpty_nil, if_true]
    rw [generate_package_length]
    norm_num
  | cons a t =>
    simp only [List.isEmpty_cons, Bool.false_eq_true, if_false, List.length_cons]
    omega

/-- The list `create_object` builds is never empty. -/
theorem create_object_vertices_length_pos {F : Type} [LinearOrderedField F]
    (lib : FloatLib F) (type : String) :
    0 < (create_object_vertices lib type : List (Vertex F)).length :=
  fallback_length_pos lib _

/-- C15: for every type string, the empty one included, the vertex list that
`create_object` builds is not empty; for a string that is none of `FIELD`,
`TREE`, `ROCK`, `HOUSE1`, `HOUSE2`, `HOUSE3`, `AIRSHIP`, `PACKAGE` it is the
list built for `PACKAGE`, which has 36 vertices. -/
theorem C15_create_object_fallback {F : Type} [LinearOrderedField F] (lib : FloatLib F)
    (type : String) :
    (create_object_vertices lib type : List (Vertex F)) ≠ [] ∧
    (create_object_vertices lib "" : List (Vertex F)) = create_object_vertices lib "PACKAGE" ∧
    (type ≠ "FIELD" → type ≠ "TREE" → type ≠ "ROCK" → type ≠ "HOUSE1" → type ≠ "HOUSE2" →
      type ≠ "HOUSE3" → type ≠ "AIRSHIP" → type ≠ "PACKAGE" →
      (create_object_vertices lib type : List (Vertex F))
        = create_object_vertices lib "PACKAGE") ∧
    (create_object_vertices lib "PACKAGE" : List (Vertex F)).length = 36 := by
  refine ⟨?_, ?_, ?_, ?_⟩
  · exact List.length_pos.1 (create_object_vertices_length_pos lib type)
  · rw [create_object_vertices_package,
      create_object_vertices_other lib "" (by decide) (by decide) (by decide) (by decide)
        (by decide) (by decide) (by decide) (by decide)]
  · intro h1 h2 h3 h4 h5 h6 h7 h8
    rw [create_object_vertices_package,
      create_object_vertices_other lib type h1 h2 h3 h4 h5 h6 h7 h8]
  · rw [create_object_vertices_package, computeTangents_length, generate_package_length]

/-! ## C16: type tags -/

theorem generate_airship_cell_type {F : Type} [LinearOrderedField F] (lib : FloatLib F)
    (i j : Nat) : ∀ v ∈ generate_airship_cell lib 8 16 i j, v.type = 0 := by
  intro v hv
  unfold generate_airship_cell at hv
  simp only [] at hv
  split at hv
  · simp only [List.mem_cons, List.mem_singleton, List.not_mem_nil, or_false] at hv
    rcases hv with h | h | h <;> rw [h]
  · split at hv
    · simp only [List.mem_cons, List.mem_singleton, List.not_mem_nil, or_false] at hv
      rcases hv with h | h | h <;> rw [h]
    · simp only [List.mem_cons, List.mem_singleton, List.not_mem_nil, or_false] at hv
      rcases hv with h | h | h | h | h | h <;> rw [h]

/-- C16: all vertices of one generator carry one type tag: `0` for the
terrain, the rock, the house and the airship, `1` for the package, and `2` for
every trunk, crown and cap vertex of the tree. -/
theorem C16_type_tags {F : Type} [LinearOrderedField F] (lib : FloatLib F) (height : F)
    (type : Int) :
    (∀ v ∈ generate_terrain ([] : List (Vertex F)), v.type = 0) ∧
    (∀ v ∈ generate_rock ([] : List (Vertex F)), v.type = 0) ∧
    (∀ v ∈ generate_house ([] : List (Vertex F)) type, v.type = 0) ∧
    (∀ v ∈ generate_airship lib ([] : List (Vertex F)), v.type = 0) ∧
    (∀ v ∈ generate_package lib ([] : List (Vertex F)), v.type = 1) ∧
    (∀ v ∈ generate_tree lib [] height, v.type = 2) := by
  refine ⟨?_, (box_loop_spec _ _).2, (box_loop_spec _ _).2, ?_, ?_, ?_⟩
  · intro v hv
    rw [generate_terrain_eq, List.nil_append] at hv
    obtain ⟨z, _, hz⟩ := List.mem_flatMap.1 hv
    obtain ⟨x, _, hx⟩ := List.mem_flatMap.1 hz
    unfold generate_terrain_cell at hx
    simp only [List.mem_cons, List.mem_singleton, List.not_mem_nil, or_false] at hx
    rcases hx with h | h | h | h | h | h <;> subst h <;> rfl
  · intro v hv
    rw [generate_airship_eq, List.nil_append] at hv
    obtain ⟨i, _, hi⟩ := List.mem_flatMap.1 hv
    rw [generate_airship_ring_eq, List.nil_append] at hi
    obtain ⟨j, _, hj⟩ := List.mem_flatMap.1 hi
    exact generate_airship_cell_type lib i j v hj
  · rw [generate_package_eq]
    exact computeTangents_type lib _ 1 (box_loop_spec _ _).2
  · intro v hv
    rw [generate_tree_eq, List.nil_append, List.mem_append, List.mem_append] at hv
    rcases hv with (hv | hv) | hv
    · obtain ⟨i, _, hi⟩ := List.mem_flatMap.1 hv
      unfold generate_tree_trunk at hi
      simp only [List.mem_cons, List.mem_singleton, List.not_mem_nil, or_false] at hi
      rcases hi with h | h | h | h | h | h <;> subst h <;> rfl
    · obtain ⟨i, _, hi⟩ := List.mem_flatMap.1 hv
      unfold generate_tree_crown at hi
      simp only [List.mem_cons, List.mem_singleton, List.not_mem_nil, or_false] at hi
      rcases hi with h | h | h <;> subst h <;> rfl
    · obtain ⟨i, _, hi⟩ := List.mem_flatMap.1 hv
      unfold generate_tree_cap at hi
      simp only [List.mem_cons, List.mem_singleton, List.not_mem_nil, or_false] at hi
      rcases hi with h | h | h <;> subst h <;> rfl

/-! ## C20: `computeTangents` is idempotent and writes tangents only -/

/-- C20: `computeTangents` keeps the length of the list and the position,
texture coordinates, normal and type of every vertex; when the list is a whole
number of triples followed by one or two more vertices, those are left as they
are, and the result does not change when the tangents of the triples are
replaced by any others; a second pass gives the same list, so the pass that
`create_object` runs after `generate_package` changes nothing. -/
theorem C20_computeTangents_idempotent {F : Type} [LinearOrderedField F] (lib : FloatLib F)
    (vs : List (Vertex F)) :
    (computeTangents lib vs).length = vs.length ∧
    (computeTangents lib vs).map (fun v => v.position) = vs.map (fun v => v.position) ∧
    (computeTangents lib vs).map (fun v => v.texCoords) = vs.map (fun v => v.texCoords) ∧
    (computeTangents lib vs).map (fun v => v.normal) = vs.map (fun v => v.normal) ∧
    (computeTangents lib vs).map (fun v => v.type) = vs.map (fun v => v.type) ∧
    (∀ pre tail : List (Vertex F), vs = pre ++ tail → pre.length % 3 = 0 → tail.length < 3 →
      computeTangents lib vs = computeTangents lib pre ++ tail) ∧
    (∀ pre tail pre2 : List (Vertex F), vs = pre ++ tail → pre.length % 3 = 0 →
      tail.length < 3 → pre2.map Vertex.withoutTangent = pre.map Vertex.withoutTangent →
      computeTangents lib (pre2 ++ tail) = computeTangents lib vs) ∧
    computeTangents lib (computeTangents lib vs) = computeTangents lib vs ∧
    create_object_vertices lib "PACKAGE" = generate_package lib ([] : List (Vertex F)) := by
  have hw := computeTangents_withoutTangent lib vs
  refine ⟨computeTangents_length lib vs,
    map_of_withoutTangent (fun v => v.position) (fun _ => rfl) _ _ hw,
    map_of_withoutTangent (fun v => v.texCoords) (fun _ => rfl) _ _ hw,
    map_of_withoutTangent (fun v => v.normal) (fun _ => rfl) _ _ hw,
    map_of_withoutTangent (fun v => v.type) (fun _ => rfl) _ _ hw, ?_, ?_,
    computeTangents_idem lib vs, ?_⟩
  · intro pre tail hvs hpre htail
    rw [hvs, computeTangents_append lib pre tail hpre, computeTangents_short lib tail htail]
  · intro pre tail pre2 hvs hpre htail h2
    have hlen : pre2.length = pre.length := by
      have := congrArg List.length h2
      simpa using this
    rw [hvs, computeTangents_append lib pre tail hpre,
      computeTangents_append lib pre2 tail (by rw [hlen]; exact hpre),
      computeTangents_congr lib pre pre2 h2 hpre]
  · rw [create_object_vertices_package, generate_package_eq, computeTangents_idem]

/-! ## The tangent solver in exact arithmetic -/

/-- The tangent the code computes for a triple is the tangent of the specification. -/
theorem computeTangents_tangent_eq_spec {F : Type} [LinearOrderedField F] (lib : FloatLib F)
    (v0 v1 v2 : Vertex F) :
    computeTangents_tangent lib v0 v1 v2 = tangentSpec lib v0 v1 v2 := by
  have hraw : (⟨(if 0.0001 < |tangentDenom v0 v1 v2| then 1 / tangentDenom v0 v1 v2 else 1)
        * ((GVec2.sub v2.texCoords v0.texCoords).y * (GVec3.sub v1.position v0.position).x
          - (GVec2.sub v1.texCoords v0.texCoords).y * (GVec3.sub v2.position v0.position).x),
      (if 0.0001 < |tangentDenom v0 v1 v2| then 1 / tangentDenom v0 v1 v2 else 1)
        * ((GVec2.sub v2.texCoords v0.texCoords).y * (GVec3.sub v1.position v0.position).y
          - (GVec2.sub v1.texCoords v0.texCoords).y * (GVec3.sub v2.position v0.position).y),
      (if 0.0001 < |tangentDenom v0 v1 v2| then 1 / tangentDenom v0 v1 v2 else 1)
        * ((GVec2.sub v2.texCoords v0.texCoords).y * (GVec3.sub v1.position v0.position).z
          - (GVec2.sub v1.texCoords v0.texCoords).y * (GVec3.sub v2.position v0.position).z)⟩
        : GVec3 F) = tangentRaw v0 v1 v2 := by
    unfold tangentRaw
    simp only [GVec3.scale, GVec3.sub, GVec3.mk.injEq]
    refine ⟨?_, ?_, ?_⟩ <;> ring
  have hcode : computeTangents_tangent lib v0 v1 v2
      = if 0.0001 < glm_length lib (tangentRaw v0 v1 v2) then
          glm_normalize lib (tangentRaw v0 v1 v2) else ⟨1, 0, 0⟩ := by
    rw [← hraw]
    rfl
  rw [hcode]
  unfold tangentSpec
  split
  · unfold glm_normalize glm_inversesqrt glm_length GVec3.scale
    simp only [mul_one_div]
  · rfl

/-- With an exact square root `sqrt 1 = 1`. -/
theorem sqrt_one_of_exact {F : Type} [LinearOrderedField F] (lib : FloatLib F)
    (hsqrt : lib.SqrtExact) : lib.sqrt 1 = 1 := by
  obtain ⟨h0, h1⟩ := hsqrt 1 zero_le_one
  nlinarith

theorem dot_self_nonneg {F : Type} [LinearOrderedField F] (v : GVec3 F) :
    0 ≤ GVec3.dot v v := by
  unfold GVec3.dot
  nlinarith [mul_self_nonneg v.x, mul_self_nonneg v.y, mul_self_nonneg v.z]

/-- With an exact square root, normalizing a vector of positive length gives
the vector scaled by a positive factor, of length one. -/
theorem normalize_unit {F : Type} [LinearOrderedField F] (lib : FloatLib F)
    (hsqrt : lib.SqrtExact) (v : GVec3 F) (hv : 0 < glm_length lib v) :
    GVec3.dot (glm_normalize lib v) (glm_normalize lib v) = 1 ∧
    glm_length lib (glm_normalize lib v) = 1 ∧
    0 < glm_inversesqrt lib (GVec3.dot v v) := by
  unfold glm_length at hv
  obtain ⟨_, hs⟩ := hsqrt (GVec3.dot v v) (dot_self_nonneg v)
  have hne : lib.sqrt (GVec3.dot v v) ≠ 0 := ne_of_gt hv
  have hdot : GVec3.dot (glm_normalize lib v) (glm_normalize lib v) = 1 := by
    have h1 : GVec3.dot (glm_normalize lib v) (glm_normalize lib v)
        = GVec3.dot v v * (1 / lib.sqrt (GVec3.dot v v)) ^ 2 := by
      unfold glm_normalize glm_inversesqrt GVec3.scale GVec3.dot
      ring
    rw [h1]
    nth_rewrite 1 [← hs]
    field_simp
    ring
  refine ⟨hdot, ?_, ?_⟩
  · unfold glm_length
    rw [hdot]
    exact sqrt_one_of_exact lib hsqrt
  · unfold glm_inversesqrt
    exact one_div_pos.2 hv

theorem small_pos {F : Type} [LinearOrderedField F] : (0 : F) < 0.0001 := by norm_num

/-- The triple at the indices `3k`, `3k+1`, `3k+2` after `computeTangents`. -/
theorem computeTangents_get {F : Type} [LinearOrderedField F] (lib : FloatLib F) (k : Nat) :
    ∀ (vs : List (Vertex F)) (v0 v1 v2 : Vertex F), vs[3 * k]? = some v0 →
      vs[3 * k + 1]? = some v1 → vs[3 * k + 2]? = some v2 →
      (computeTangents lib vs)[3 * k]?
          = some { v0 with tangent := computeTangents_tangent lib v0 v1 v2 } ∧
      (computeTangents lib vs)[3 * k + 1]?
          = some { v1 with tangent := computeTangents_tangent lib v0 v1 v2 } ∧
      (computeTangents lib vs)[3 * k + 2]?
          = some { v2 with tangent := computeTangents_tangent lib v0 v1 v2 } := by
  induction k with
  | zero =>
    intro vs v0 v1 v2 h0 h1 h2
    match vs, h0, h1, h2 with
    | a :: b :: c :: rest, h0, h1, h2 =>
      simp only [Nat.mul_zero, Nat.zero_add, List.getElem?_cons_zero, List.getElem?_cons_succ,
        Option.some.injEq] at h0 h1 h2
      subst h0 h1 h2
      rw [computeTangents_triple]
      simp
    | [], h0, _, _ => simp at h0
    | [a], _, h1, _ => simp at h1
    | [a, b], _, _, h2 => simp at h2
  | succ k ih =>
    intro vs v0 v1 v2 h0 h1 h2
    have e0 : 3 * (k + 1) = 3 * k + 1 + 1 + 1 := by ring
    have e2 : 3 * k + 1 + 1 + 1 + 2 = 3 * k + 2 + 1 + 1 + 1 := by ring
    rw [e0] at h0 h1 h2 ⊢
    rw [e2] at h2 ⊢
    match vs, h0, h1, h2 with
    | a :: b :: c :: rest, h0, h1, h2 =>
      simp only [List.getElem?_cons_succ] at h0 h1 h2
      rw [computeTangents_triple]
      simp only [List.getElem?_cons_succ]
      exact ih rest v0 v1 v2 h0 h1 h2
    | [], h0, _, _ => simp at h0
    | [a], h0, _, _ => simp at h0
    | [a, b], h0, _, _ => simp at h0

/-- With an exact square root the tangent of the specification has length one. -/
theorem tangentSpec_length {F : Type} [LinearOrderedField F] (lib : FloatLib F)
    (hsqrt : lib.SqrtExact) (v0 v1 v2 : Vertex F) :
    glm_length lib (tangentSpec lib v0 v1 v2) = 1 := by
  unfold tangentSpec
  split
  · rename_i hlen
    have hpos : 0 < glm_length lib (tangentRaw v0 v1 v2) := lt_trans small_pos hlen
    have hn : (⟨(tangentRaw v0 v1 v2).x / glm_length lib (tangentRaw v0 v1 v2),
        (tangentRaw v0 v1 v2).y / glm_length lib (tangentRaw v0 v1 v2),
        (tangentRaw v0 v1 v2).z / glm_length lib (tangentRaw v0 v1 v2)⟩ : GVec3 F)
        = glm_normalize lib (tangentRaw v0 v1 v2) := by
      unfold glm_normalize glm_inversesqrt glm_length GVec3.scale
      simp only [mul_one_div]
    rw [hn]
    exact (normalize_unit lib hsqrt _ hpos).2.1
  · have h1 : GVec3.dot (⟨1, 0, 0⟩ : GVec3 F) ⟨1, 0, 0⟩ = 1 := by
      unfold GVec3.dot
      ring
    unfold glm_length
    rw [h1]
    exact sqrt_one_of_exact lib hsqrt

/-- The tangent solver in exact arithmetic: for every vertex list and every complete triple `v0`, `v1`, `v2` at
the indices `3k`, `3k+1`, `3k+2`, after `computeTangents` the three vertices
are as before but for the tangent, which for all three is the tangent `t` of
the specification (`r / |r|` if `|r| > 1e-4`, else the X axis).  With an exact
square root `t` has length one; `t` is the X axis unless `|r| > 1e-4`; and
the two divisors are not zero where the code divides: `denom` when
`|denom| > 1e-4` and `sqrt (dot r r)` when `|r| > 1e-4`. -/
theorem exact_tangent_solver {F : Type} [LinearOrderedField F] (lib : FloatLib F)
    (hsqrt : lib.SqrtExact) (vs : List (Vertex F)) (k : Nat) (v0 v1 v2 : Vertex F)
    (h0 : vs[3 * k]? = some v0) (h1 : vs[3 * k + 1]? = some v1)
    (h2 : vs[3 * k + 2]? = some v2) :
    (computeTangents lib vs)[3 * k]?
        = some { v0 with tangent := tangentSpec lib v0 v1 v2 } ∧
    (computeTangents lib vs)[3 * k + 1]?
        = some { v1 with tangent := tangentSpec lib v0 v1 v2 } ∧
    (computeTangents lib vs)[3 * k + 2]?
        = some { v2 with tangent := tangentSpec lib v0 v1 v2 } ∧
    glm_length lib (tangentSpec lib v0 v1 v2) = 1 ∧
    (tangentSpec lib v0 v1 v2 = ⟨1, 0, 0⟩ ∨ 0.0001 < glm_length lib (tangentRaw v0 v1 v2)) ∧
    (0.0001 < |tangentDenom v0 v1 v2| → tangentDenom v0 v1 v2 ≠ 0) ∧
    (0.0001 < glm_length lib (tangentRaw v0 v1 v2) →
      lib.sqrt (GVec3.dot (tangentRaw v0 v1 v2) (tangentRaw v0 v1 v2)) ≠ 0) := by
  have hget := computeTangents_get lib k vs v0 v1 v2 h0 h1 h2
  rw [computeTangents_tangent_eq_spec] at hget
  refine ⟨hget.1, hget.2.1, hget.2.2, tangentSpec_length lib hsqrt v0 v1 v2, ?_, ?_, ?_⟩
  · by_cases hlen : 0.0001 < glm_length lib (tangentRaw v0 v1 v2)
    · exact Or.inr hlen
    · left
      unfold tangentSpec
      rw [if_neg hlen]
  · intro hd hz
    rw [hz, abs_zero] at hd
    exact absurd hd (not_lt.2 (le_of_lt small_pos))
  · intro hlen hz
    unfold glm_length at hlen
    rw [hz] at hlen
    exact absurd hlen (not_lt.2 (le_of_lt small_pos))

/-- The tangent solver in exact arithmetic at a concrete input: over the reals, a right triangle with legs 2 in the plane
`z = 0` and the unit texture triangle, followed by a fourth vertex. -/
theorem exact_tangent_solver_example :
    (computeTangents (⟨Real.sin, Real.cos, Real.sqrt⟩ : FloatLib ℝ)
      [⟨⟨0, 0, 0⟩, ⟨0, 0⟩, ⟨0, 0, 1⟩, ⟨0, 0, 0⟩, 0⟩, ⟨⟨2, 0, 0⟩, ⟨1, 0⟩, ⟨0, 0, 1⟩, ⟨0, 0, 0⟩, 0⟩,
        ⟨⟨0, 2, 0⟩, ⟨0, 1⟩, ⟨0, 0, 1⟩, ⟨0, 0, 0⟩, 0⟩,
        ⟨⟨5, 5, 5⟩, ⟨0, 0⟩, ⟨0, 0, 1⟩, ⟨0, 1, 0⟩, 0⟩])[3 * 0 + 1]?
      = some ⟨⟨2, 0, 0⟩, ⟨1, 0⟩, ⟨0, 0, 1⟩,
          tangentSpec (⟨Real.sin, Real.cos, Real.sqrt⟩ : FloatLib ℝ)
            ⟨⟨0, 0, 0⟩, ⟨0, 0⟩, ⟨0, 0, 1⟩, ⟨0, 0, 0⟩, 0⟩
            ⟨⟨2, 0, 0⟩, ⟨1, 0⟩, ⟨0, 0, 1⟩, ⟨0, 0, 0⟩, 0⟩
            ⟨⟨0, 2, 0⟩, ⟨0, 1⟩, ⟨0, 0, 1⟩, ⟨0, 0, 0⟩, 0⟩, 0⟩ ∧
    glm_length (⟨Real.sin, Real.cos, Real.sqrt⟩ : FloatLib ℝ)
      (tangentSpec (⟨Real.sin, Real.cos, Real.sqrt⟩ : FloatLib ℝ)
        ⟨⟨0, 0, 0⟩, ⟨0, 0⟩, ⟨0, 0, 1⟩, ⟨0, 0, 0⟩, 0⟩
        ⟨⟨2, 0, 0⟩, ⟨1, 0⟩, ⟨0, 0, 1⟩, ⟨0, 0, 0⟩, 0⟩
        ⟨⟨0, 2, 0⟩, ⟨0, 1⟩, ⟨0, 0, 1⟩, ⟨0, 0, 0⟩, 0⟩) = 1 := by
  have h := exact_tangent_solver (⟨Real.sin, Real.cos, Real.sqrt⟩ : FloatLib ℝ)
    (fun x hx => ⟨Real.sqrt_nonneg x, Real.mul_self_sqrt hx⟩)
    [⟨⟨0, 0, 0⟩, ⟨0, 0⟩, ⟨0, 0, 1⟩, ⟨0, 0, 0⟩, 0⟩, ⟨⟨2, 0, 0⟩, ⟨1, 0⟩, ⟨0, 0, 1⟩, ⟨0, 0, 0⟩, 0⟩,
      ⟨⟨0, 2, 0⟩, ⟨0, 1⟩, ⟨0, 0, 1⟩, ⟨0, 0, 0⟩, 0⟩,
      ⟨⟨5, 5, 5⟩, ⟨0, 0⟩, ⟨0, 0, 1⟩, ⟨0, 1, 0⟩, 0⟩] 0
    ⟨⟨0, 0, 0⟩, ⟨0, 0⟩, ⟨0, 0, 1⟩, ⟨0, 0, 0⟩, 0⟩ ⟨⟨2, 0, 0⟩, ⟨1, 0⟩, ⟨0, 0, 1⟩, ⟨0, 0, 0⟩, 0⟩
    ⟨⟨0, 2, 0⟩, ⟨0, 1⟩, ⟨0, 0, 1⟩, ⟨0, 0, 0⟩, 0⟩ rfl rfl rfl
  exact ⟨h.2.1, h.2.2.2.1⟩

/-- The tangent of that triangle, evaluated over the reals:
`denom = 1`, `r = (2, 0, 0)`, `|r| = 2`, so the tangent is the X axis obtained
by normalizing. -/
theorem tangent_example :
    tangentSpec (⟨Real.sin, Real.cos, Real.sqrt⟩ : FloatLib ℝ)
        ⟨⟨0, 0, 0⟩, ⟨0, 0⟩, ⟨0, 0, 1⟩, ⟨0, 0, 0⟩, 0⟩
        ⟨⟨2, 0, 0⟩, ⟨1, 0⟩, ⟨0, 0, 1⟩, ⟨0, 0, 0⟩, 0⟩
        ⟨⟨0, 2, 0⟩, ⟨0, 1⟩, ⟨0, 0, 1⟩, ⟨0, 0, 0⟩, 0⟩ = ⟨1, 0, 0⟩ := by
  have hraw : tangentRaw (⟨⟨0, 0, 0⟩, ⟨0, 0⟩, ⟨0, 0, 1⟩, ⟨0, 0, 0⟩, 0⟩ : Vertex ℝ)
      ⟨⟨2, 0, 0⟩, ⟨1, 0⟩, ⟨0, 0, 1⟩, ⟨0, 0, 0⟩, 0⟩
      ⟨⟨0, 2, 0⟩, ⟨0, 1⟩, ⟨0, 0, 1⟩, ⟨0, 0, 0⟩, 0⟩ = ⟨2, 0, 0⟩ := by
    unfold tangentRaw tangentDenom
    norm_num [GVec3.scale, GVec3.sub, GVec2.sub]
  have hlen : glm_length (⟨Real.sin, Real.cos, Real.sqrt⟩ : FloatLib ℝ) ⟨2, 0, 0⟩ = 2 := by
    unfold glm_length GVec3.dot
    have h4 : (2 : ℝ) * 2 + 0 * 0 + 0 * 0 = 2 * 2 := by ring
    rw [h4]
    exact Real.sqrt_mul_self (by norm_num)
  unfold tangentSpec
  rw [hraw, hlen]
  norm_num

/-! ## The normals of the airship in exact arithmetic; C19: the pre-seeded tangent -/

/-- With exact `sin` and `cos` the squared length of a point of the ellipsoid
is at least `25`, the square of the smallest radius. -/
theorem generate_airship_point_dot {F : Type} [LinearOrderedField F] (lib : FloatLib F)
    (htrig : lib.TrigExact) (phi theta : F) :
    25 ≤ GVec3.dot (generate_airship_point lib phi theta)
      (generate_airship_point lib phi theta) := by
  have h1 := htrig phi
  have h2 := htrig theta
  have key : GVec3.dot (generate_airship_point lib phi theta)
      (generate_airship_point lib phi theta)
      = 25 + 75 * (lib.sin phi * lib.cos theta) ^ 2
        + 375 * (lib.sin phi * lib.sin theta) ^ 2 := by
    unfold GVec3.dot generate_airship_point
    linear_combination (25 * lib.sin phi ^ 2) * h2 + 25 * h1
  rw [key]
  nlinarith [sq_nonneg (lib.sin phi * lib.cos theta), sq_nonneg (lib.sin phi * lib.sin theta)]

/-- With exact library functions a point of the ellipsoid is not the zero
vector and has positive length. -/
theorem generate_airship_point_ne_zero {F : Type} [LinearOrderedField F] (lib : FloatLib F)
    (hsqrt : lib.SqrtExact) (htrig : lib.TrigExact) (phi theta : F) :
    generate_airship_point lib phi theta ≠ ⟨0, 0, 0⟩ ∧
    0 < glm_length lib (generate_airship_point lib phi theta) := by
  have hd := generate_airship_point_dot lib htrig phi theta
  constructor
  · intro hz
    rw [hz] at hd
    unfold GVec3.dot at hd
    norm_num at hd
  · unfold glm_length
    obtain ⟨h0, hs⟩ := hsqrt _ (dot_self_nonneg (generate_airship_point lib phi theta))
    rcases lt_or_eq_of_le h0 with h | h
    · exact h
    · rw [← h] at hs
      rw [← hs] at hd
      norm_num at hd

/-- Every vertex of a cell of the hull sits at a point of the ellipsoid and
carries the normalized position as its normal. -/
theorem generate_airship_cell_normal {F : Type} [LinearOrderedField F] (lib : FloatLib F)
    (i j : Nat) :
    ∀ v ∈ generate_airship_cell lib 8 16 i j,
      (∃ phi theta : F, v.position = generate_airship_point lib phi theta) ∧
      v.normal = glm_normalize lib v.position := by
  intro v hv
  unfold generate_airship_cell at hv
  simp only [] at hv
  split at hv
  · simp only [List.mem_cons, List.mem_singleton, List.not_mem_nil, or_false] at hv
    rcases hv with h | h | h <;> rw [h] <;> exact ⟨⟨_, _, rfl⟩, rfl⟩
  · split at hv
    · simp only [List.mem_cons, List.mem_singleton, List.not_mem_nil, or_false] at hv
      rcases hv with h | h | h <;> rw [h] <;> exact ⟨⟨_, _, rfl⟩, rfl⟩
    · simp only [List.mem_cons, List.mem_singleton, List.not_mem_nil, or_false] at hv
      rcases hv with h | h | h | h | h | h <;> rw [h] <;> exact ⟨⟨_, _, rfl⟩, rfl⟩

/-- The normals of the airship in exact arithmetic: with exact `sqrt`, `sin` and
`cos`, every point of the ellipsoid with
radii 10, 5, 20 that `generate_airship` computes (`p1` to `p4`, at any angles)
is not the zero vector and has positive length, and every vertex the generator
pushes has as normal its normalized position, which has length one and is the
position scaled by a positive factor. -/
theorem exact_airship_normals_unit {F : Type} [LinearOrderedField F] (lib : FloatLib F)
    (hsqrt : lib.SqrtExact) (htrig : lib.TrigExact) :
    (∀ phi theta : F, generate_airship_point lib phi theta ≠ ⟨0, 0, 0⟩ ∧
      0 < glm_length lib (generate_airship_point lib phi theta)) ∧
    ∀ v ∈ generate_airship lib ([] : List (Vertex F)),
      v.position ≠ ⟨0, 0, 0⟩ ∧
      v.normal = glm_normalize lib v.position ∧
      glm_length lib v.normal = 1 ∧
      ∃ c : F, 0 < c ∧ v.normal = GVec3.scale v.position c := by
  refine ⟨generate_airship_point_ne_zero lib hsqrt htrig, ?_⟩
  intro v hv
  rw [generate_airship_eq, List.nil_append] at hv
  obtain ⟨i, _, hi⟩ := List.mem_flatMap.1 hv
  rw [generate_airship_ring_eq, List.nil_append] at hi
  obtain ⟨j, _, hj⟩ := List.mem_flatMap.1 hi
  obtain ⟨⟨phi, theta, hp⟩, hn⟩ := generate_airship_cell_normal lib i j v hj
  have hpt := generate_airship_point_ne_zero lib hsqrt htrig phi theta
  rw [← hp] at hpt
  have hu := normalize_unit lib hsqrt v.position hpt.2
  refine ⟨hpt.1, hn, ?_, ⟨glm_inversesqrt lib (GVec3.dot v.position v.position), hu.2.2, ?_⟩⟩
  · rw [hn]
    exact hu.2.1
  · rw [hn]
    rfl

/-- The same over the reals with `Real.sqrt`, `Real.sin` and `Real.cos`. -/
theorem exact_airship_normals_unit_example :
    (∀ phi theta : ℝ,
      generate_airship_point (⟨Real.sin, Real.cos, Real.sqrt⟩ : FloatLib ℝ) phi theta
        ≠ ⟨0, 0, 0⟩ ∧
      0 < glm_length (⟨Real.sin, Real.cos, Real.sqrt⟩ : FloatLib ℝ)
        (generate_airship_point (⟨Real.sin, Real.cos, Real.sqrt⟩ : FloatLib ℝ) phi theta)) ∧
    ∀ v ∈ generate_airship (⟨Real.sin, Real.cos, Real.sqrt⟩ : FloatLib ℝ) [],
      v.position ≠ ⟨0, 0, 0⟩ ∧
      v.normal = glm_normalize (⟨Real.sin, Real.cos, Real.sqrt⟩ : FloatLib ℝ) v.position ∧
      glm_length (⟨Real.sin, Real.cos, Real.sqrt⟩ : FloatLib ℝ) v.normal = 1 ∧
      ∃ c : ℝ, 0 < c ∧ v.normal = GVec3.scale v.position c :=
  exact_airship_normals_unit (⟨Real.sin, Real.cos, Real.sqrt⟩ : FloatLib ℝ)
    (fun x hx => ⟨Real.sqrt_nonneg x, Real.mul_self_sqrt hx⟩)
    (fun x => Real.sin_sq_add_cos_sq x)

/-- C19, the code at the pole ring: for the stack `i = 0` the angle `phi1` is
`0`, so with `sin 0 = 0` the points `p1` and `p2` are both `(0, 5 cos 0, 0)`
and the vector `p2 - p1` that is normalized into the pre-seeded tangent is the
zero vector, for every sector `j`; with `sqrt 0 = 0` the number the
normalization divides by is zero; and the three vertices of the cell carry
the normalized zero vector as their tangent. -/
theorem C19_pole_ring_edge_is_zero {F : Type} [LinearOrderedField F] (lib : FloatLib F)
    (hsin : lib.sin 0 = 0) (hsqrt : lib.sqrt 0 = 0) (j : Nat) :
    generate_airship_edge lib 8 16 0 j = ⟨0, 0, 0⟩ ∧
    lib.sqrt (GVec3.dot (generate_airship_edge lib 8 16 0 j)
      (generate_airship_edge lib 8 16 0 j)) = 0 ∧
    (generate_airship_cell lib 8 16 0 j).length = 3 ∧
    ∀ v ∈ generate_airship_cell lib 8 16 0 j, v.tangent = glm_normalize lib ⟨0, 0, 0⟩ := by
  have hedge : generate_airship_edge lib 8 16 0 j = ⟨0, 0, 0⟩ := by
    unfold generate_airship_edge generate_airship_point GVec3.sub
    simp only [Nat.cast_zero, mul_zero, zero_div, hsin, zero_mul, sub_self]
  refine ⟨hedge, ?_, rfl, ?_⟩
  · rw [hedge]
    unfold GVec3.dot
    simp only [mul_zero, add_zero]
    exact hsqrt
  · intro v hv
    unfold generate_airship_cell at hv
    simp only [if_true, List.mem_cons, List.mem_singleton, List.not_mem_nil, or_false] at hv
    rcases hv with h | h | h <;> rw [h] <;> simp only [hedge]

/-- C19 witness: over the reals, the sector `j = 0` of the pole ring. -/
theorem C19_pole_ring_edge_is_zero_witness :
    generate_airship_edge (⟨Real.sin, Real.cos, Real.sqrt⟩ : FloatLib ℝ) 8 16 0 0
      = ⟨0, 0, 0⟩ :=
  (C19_pole_ring_edge_is_zero (⟨Real.sin, Real.cos, Real.sqrt⟩ : FloatLib ℝ)
    Real.sin_zero Real.sqrt_zero 0).1

/-! ## C17: the world layout -/

/-- A loop that pushes one element per iteration leaves the mapped list. -/
theorem foldl_push_one {α β : Type} (f : β → α) (l : List β) (init : List α) :
    l.foldl (fun vs i => vs ++ [f i]) init = init ++ l.map f := by
  induction l generalizing init with
  | nil => simp
  | cons a t ih => simp [ih]

theorem generate_random_positions_houses (draws : RandomDraws) (s : Scene) :
    (generate_random_positions draws s).houses
      = (List.range 10).map (fun i =>
          ({ position := ⟨draws.distPos (2 * i), 0, draws.distPos (2 * i + 1)⟩
             hasPackage := false
             houseType := draws.distType i } : House)) := by
  unfold generate_random_positions
  simp only [foldl_push_one, List.nil_append]
  rfl

theorem generate_random_positions_trees (draws : RandomDraws) (s : Scene) :
    (generate_random_positions draws s).treePositions
      = (List.range 15).map (fun i =>
          ({ position := ⟨draws.distPos (2 * 10 + 3 * i), 0, draws.distPos (2 * 10 + 3 * i + 1)⟩
             windOffset := draws.distPos (2 * 10 + 3 * i + 2)
             treeHeight := 10 + ((draws.rand i % 50 : Nat) : ℚ) / 10 } : TreeObject)) := by
  unfold generate_random_positions
  simp only [foldl_push_one, List.nil_append]
  rfl

theorem generate_random_positions_rocks (draws : RandomDraws) (s : Scene) :
    (generate_random_positions draws s).rockPositions
      = (List.range 10).map (fun i =>
          (⟨draws.distPos (2 * 10 + 3 * 15 + 2 * i), 0,
            draws.distPos (2 * 10 + 3 * 15 + 2 * i + 1)⟩ : Vec3)) := by
  unfold generate_random_positions
  simp only [foldl_push_one, List.nil_append]
  rfl

/-- C17: whatever the scene held before, for position draws in `[-200, 200]`
and type draws in `{0, 1, 2}` (and any values of `rand()`),
`generate_random_positions` leaves exactly 10 houses, 15 trees and 10 rocks;
every house, tree and rock has `x` and `z` in `[-200, 200]` and `y = 0`; every
house has `houseType` in `{0, 1, 2}` and `hasPackage == false`; every tree has
`treeHeight` in `[10, 15)`; `deliveredPackages` is `0` and `totalHouses` is 10. -/
theorem C17_world_layout (draws : RandomDraws) (s : Scene)
    (hpos : ∀ k, -200 ≤ draws.distPos k ∧ draws.distPos k ≤ 200)
    (htype : ∀ k, draws.distType k = 0 ∨ draws.distType k = 1 ∨ draws.distType k = 2) :
    (generate_random_positions draws s).houses.length = 10 ∧
    (generate_random_positions draws s).treePositions.length = 15 ∧
    (generate_random_positions draws s).rockPositions.length = 10 ∧
    (∀ h ∈ (generate_random_positions draws s).houses,
      (-200 ≤ h.position.x ∧ h.position.x ≤ 200) ∧ h.position.y = 0 ∧
      (-200 ≤ h.position.z ∧ h.position.z ≤ 200) ∧
      (h.houseType = 0 ∨ h.houseType = 1 ∨ h.houseType = 2) ∧ h.hasPackage = false) ∧
    (∀ t ∈ (generate_random_positions draws s).treePositions,
      (-200 ≤ t.position.x ∧ t.position.x ≤ 200) ∧ t.position.y = 0 ∧
      (-200 ≤ t.position.z ∧ t.position.z ≤ 200) ∧
      10 ≤ t.treeHeight ∧ t.treeHeight < 15) ∧
    (∀ r ∈ (generate_random_positions draws s).rockPositions,
      (-200 ≤ r.x ∧ r.x ≤ 200) ∧ r.y = 0 ∧ (-200 ≤ r.z ∧ r.z ≤ 200)) ∧
    (generate_random_positions draws s).deliveredPackages = 0 ∧
    (generate_random_positions draws s).totalHouses = 10 ∧
    (generate_random_positions draws s).packages = s.packages := by
  refine ⟨?_, ?_, ?_, ?_, ?_, ?_, rfl, rfl, rfl⟩
  · rw [generate_random_positions_houses, List.length_map, List.length_range]
  · rw [generate_random_positions_trees, List.length_map, List.length_range]
  · rw [generate_random_positions_rocks, List.length_map, List.length_range]
  · intro h hh
    rw [generate_random_positions_houses] at hh
    obtain ⟨i, _, rfl⟩ := List.mem_map.1 hh
    exact ⟨hpos _, rfl, hpos _, htype i, rfl⟩
  · intro t ht
    rw [generate_random_positions_trees] at ht
    obtain ⟨i, _, rfl⟩ := List.mem_map.1 ht
    have hm : draws.rand i % 50 < 50 := Nat.mod_lt _ (by norm_num)
    have hq : ((draws.rand i % 50 : Nat) : ℚ) < 50 := by exact_mod_cast hm
    have hq0 : (0 : ℚ) ≤ ((draws.rand i % 50 : Nat) : ℚ) := Nat.cast_nonneg _
    refine ⟨hpos _, rfl, hpos _, ?_, ?_⟩
    · show (10 : ℚ) ≤ 10 + ((draws.rand i % 50 : Nat) : ℚ) / 10
      linarith [div_nonneg hq0 (by norm_num : (0 : ℚ) ≤ 10)]
    · show 10 + ((draws.rand i % 50 : Nat) : ℚ) / 10 < 15
      linarith
  · intro r hr
    rw [generate_random_positions_rocks] at hr
    obtain ⟨i, _, rfl⟩ := List.mem_map.1 hr
    exact ⟨hpos _, rfl, hpos _⟩

/-- C17 witness: position draws that run through `-200, -199, ..., 200`, type
draws `0, 1, 2, 0, ...` and `rand()` values `0, 1, 2, ...`, on a scene that held
one delivered house and a score of 5. -/
theorem C17_world_layout_witness :
    (generate_random_positions
      ⟨fun k => ((k % 401 : Nat) : ℚ) - 200, fun k => ((k % 3 : Nat) : Int), fun k => k⟩
      (sceneOf [⟨⟨1, 2, 3⟩, true, 7⟩] [] 5)).houses.length = 10 ∧
    (generate_random_positions
      ⟨fun k => ((k % 401 : Nat) : ℚ) - 200, fun k => ((k % 3 : Nat) : Int), fun k => k⟩
      (sceneOf [⟨⟨1, 2, 3⟩, true, 7⟩] [] 5)).deliveredPackages = 0 := by
  have h := C17_world_layout
    ⟨fun k => ((k % 401 : Nat) : ℚ) - 200, fun k => ((k % 3 : Nat) : Int), fun k => k⟩
    (sceneOf [⟨⟨1, 2, 3⟩, true, 7⟩] [] 5)
    (by
      intro k
      have hm : k % 401 < 401 := Nat.mod_lt _ (by norm_num)
      have hq : ((k % 401 : Nat) : ℚ) ≤ 400 := by exact_mod_cast Nat.lt_succ_iff.1 hm
      have hq0 : (0 : ℚ) ≤ ((k % 401 : Nat) : ℚ) := Nat.cast_nonneg _
      constructor
      · show (-200 : ℚ) ≤ ((k % 401 : Nat) : ℚ) - 200
        linarith
      · show ((k % 401 : Nat) : ℚ) - 200 ≤ 200
        linarith)
    (by
      intro k
      show ((k % 3 : Nat) : Int) = 0 ∨ ((k % 3 : Nat) : Int) = 1 ∨ ((k % 3 : Nat) : Int) = 2
      omega)
  exact ⟨h.1, h.2.2.2.2.2.2.1⟩

/-- Beside the pole ring the claim of C19 holds: over the reals, for the stacks
`i = 1, ..., 7` and every sector `j` the vector `p2 - p1` is not the zero
vector, because `0 < phi1 < π` makes `sin phi1` positive and the two sector
angles differ by `M_PI / 8`, which is not a multiple of `2π`. -/
theorem generate_airship_edge_ne_zero (i j : Nat) (h1 : 1 ≤ i) (h7 : i ≤ 7) :
    generate_airship_edge (⟨Real.sin, Real.cos, Real.sqrt⟩ : FloatLib ℝ) 8 16 i j
      ≠ ⟨0, 0, 0⟩ := by
  intro hz
  have hpi : (M_PI : ℝ) = 3.14159265358979323846 := rfl
  have hpi0 : (0 : ℝ) < M_PI := by rw [hpi]; norm_num
  have hpi1 : (M_PI : ℝ) < 3.15 := by rw [hpi]; norm_num
  have h3 : (3 : ℝ) < Real.pi := Real.pi_gt_three
  have hi1 : (1 : ℝ) ≤ (i : ℝ) := by exact_mod_cast h1
  have hi7 : (i : ℝ) ≤ 7 := by exact_mod_cast h7
  have hphi0 : 0 < (M_PI : ℝ) * (i : ℝ) / ((8 : Nat) : ℝ) := by
    have : (0 : ℝ) < M_PI * (i : ℝ) := mul_pos hpi0 (by linarith)
    push_cast
    linarith
  have hphi1 : (M_PI : ℝ) * (i : ℝ) / ((8 : Nat) : ℝ) < Real.pi := by
    have : (M_PI : ℝ) * (i : ℝ) ≤ M_PI * 7 := mul_le_mul_of_nonneg_left hi7 (le_of_lt hpi0)
    push_cast
    linarith
  have hs : 0 < Real.sin ((M_PI : ℝ) * (i : ℝ) / ((8 : Nat) : ℝ)) :=
    Real.sin_pos_of_pos_of_lt_pi hphi0 hphi1
  unfold generate_airship_edge generate_airship_point GVec3.sub at hz
  simp only [GVec3.mk.injEq] at hz
  obtain ⟨hx, _, hzz⟩ := hz
  have hc : Real.cos (2 * (M_PI : ℝ) * ((j + 1 : Nat) : ℝ) / ((16 : Nat) : ℝ))
      = Real.cos (2 * (M_PI : ℝ) * (j : ℝ) / ((16 : Nat) : ℝ)) := by
    have h := mul_left_cancel₀ (ne_of_gt hs) (by linarith :
      Real.sin ((M_PI : ℝ) * (i : ℝ) / ((8 : Nat) : ℝ))
          * Real.cos (2 * (M_PI : ℝ) * ((j + 1 : Nat) : ℝ) / ((16 : Nat) : ℝ))
        = Real.sin ((M_PI : ℝ) * (i : ℝ) / ((8 : Nat) : ℝ))
          * Real.cos (2 * (M_PI : ℝ) * (j : ℝ) / ((16 : Nat) : ℝ)))
    exact h
  have hsn : Real.sin (2 * (M_PI : ℝ) * ((j + 1 : Nat) : ℝ) / ((16 : Nat) : ℝ))
      = Real.sin (2 * (M_PI : ℝ) * (j : ℝ) / ((16 : Nat) : ℝ)) := by
    have h := mul_left_cancel₀ (ne_of_gt hs) (by linarith :
      Real.sin ((M_PI : ℝ) * (i : ℝ) / ((8 : Nat) : ℝ))
          * Real.sin (2 * (M_PI : ℝ) * ((j + 1 : Nat) : ℝ) / ((16 : Nat) : ℝ))
        = Real.sin ((M_PI : ℝ) * (i : ℝ) / ((8 : Nat) : ℝ))
          * Real.sin (2 * (M_PI : ℝ) * (j : ℝ) / ((16 : Nat) : ℝ)))
    exact h
  have hdiff : 2 * (M_PI : ℝ) * ((j + 1 : Nat) : ℝ) / ((16 : Nat) : ℝ)
      - 2 * (M_PI : ℝ) * (j : ℝ) / ((16 : Nat) : ℝ) = M_PI / 8 := by
    push_cast
    ring
  have hcos : Real.cos ((M_PI : ℝ) / 8) = 1 := by
    rw [← hdiff, Real.cos_sub, hc, hsn]
    have := Real.sin_sq_add_cos_sq (2 * (M_PI : ℝ) * (j : ℝ) / ((16 : Nat) : ℝ))
    nlinarith
  have hzero := (Real.cos_eq_one_iff_of_lt_of_lt (by linarith) (by linarith)).1 hcos
  linarith

/-! ## Concrete evaluations of the generators over `ℚ` -/

/-- The first cell of the terrain over `ℚ`: the corner `(-250, 0, -250)` and
its neighbours at distance `500 / 9`. -/
theorem terrain_example :
    (generate_terrain ([] : List (Vertex ℚ))).take 3
      = [⟨⟨-250, 0, -250⟩, ⟨0, 0⟩, ⟨0, 1, 0⟩, ⟨1, 0, 0⟩, 0⟩,
         ⟨⟨-250 + 500 / 9, 0, -250⟩, ⟨1, 0⟩, ⟨0, 1, 0⟩, ⟨1, 0, 0⟩, 0⟩,
         ⟨⟨-250, 0, -250 + 500 / 9⟩, ⟨0, 1⟩, ⟨0, 1, 0⟩, ⟨1, 0, 0⟩, 0⟩] := by
  decide!

/-- The package mesh over `ℚ`, with a library whose `sqrt` is exact at `1`, the
only argument it gets here: 36 vertices, and the first triangle (bottom face)
with the X axis as tangent. -/
theorem package_example :
    (generate_package (⟨fun _ => 0, fun _ => 1, fun x => x⟩ : FloatLib ℚ) []).length = 36 ∧
    (generate_package (⟨fun _ => 0, fun _ => 1, fun x => x⟩ : FloatLib ℚ) []).take 3
      = [⟨⟨-1 / 2, -1 / 2, -1 / 2⟩, ⟨0, 0⟩, ⟨0, -1, 0⟩, ⟨1, 0, 0⟩, 1⟩,
         ⟨⟨1 / 2, -1 / 2, -1 / 2⟩, ⟨1, 0⟩, ⟨0, -1, 0⟩, ⟨1, 0, 0⟩, 1⟩,
         ⟨⟨1 / 2, -1 / 2, 1 / 2⟩, ⟨1, 1⟩, ⟨0, -1, 0⟩, ⟨1, 0, 0⟩, 1⟩] := by
  decide!

/-! ## Binary32 rounding: basic facts -/

theorem scale2_eq (q : ℚ) (k : Int) : scale2 q k = q * (2 : ℚ) ^ k := by
  unfold scale2
  split
  · rename_i h
    obtain ⟨n, rfl⟩ := Int.eq_ofNat_of_zero_le h
    simp [zpow_natCast]
  · rename_i h
    obtain ⟨n, hn⟩ : ∃ n : Nat, k = -((n : Int)) := ⟨(-k).toNat, by omega⟩
    subst hn
    simp [zpow_neg, div_eq_mul_inv]

theorem log2Aux_spec (fuel : Nat) :
    ∀ n : Nat, 1 ≤ n → n ≤ fuel →
      2 ^ log2Aux fuel n ≤ n ∧ n < 2 ^ (log2Aux fuel n + 1) := by
  induction fuel with
  | zero => intro n h1 h2; omega
  | succ f ih =>
    intro n h1 h2
    unfold log2Aux
    by_cases h : n < 2
    · rw [if_pos h]
      simp
      omega
    · rw [if_neg h]
      obtain ⟨ha, hb⟩ := ih (n / 2) (by omega) (by omega)
      rw [Nat.pow_succ, Nat.pow_succ]
      rw [Nat.pow_succ] at hb
      constructor <;> omega

theorem natLog2_spec (n : Nat) (h : 1 ≤ n) :
    2 ^ natLog2 n ≤ n ∧ n < 2 ^ (natLog2 n + 1) :=
  log2Aux_spec n n h (le_refl n)

theorem two_zpow_pos (k : Int) : (0 : ℚ) < (2 : ℚ) ^ k := zpow_pos (by norm_num) k

theorem ilog2_spec (x : ℚ) (hx : 0 < x) :
    (2 : ℚ) ^ ilog2 x ≤ x ∧ x < (2 : ℚ) ^ (ilog2 x + 1) := by
  have hnum : 0 < x.num := Rat.num_pos.2 hx
  have hden : 0 < x.den := x.den_pos
  obtain ⟨a1, a2⟩ := natLog2_spec x.num.natAbs (by omega)
  obtain ⟨b1, b2⟩ := natLog2_spec x.den (by omega)
  have hdq : (0 : ℚ) < (x.den : ℚ) := by exact_mod_cast hden
  have hxb : x * (x.den : ℚ) = (x.num.natAbs : ℚ) := by
    have h1 : ((x.num.natAbs : Nat) : ℚ) = (x.num : ℚ) := by
      rw [← Int.cast_natCast, Int.natAbs_of_nonneg (le_of_lt hnum)]
    rw [h1]
    exact Rat.mul_den_eq_num x
  have A1 : ((2 : ℚ) ^ natLog2 x.num.natAbs) ≤ (x.num.natAbs : ℚ) := by exact_mod_cast a1
  have A2 : (x.num.natAbs : ℚ) < (2 : ℚ) ^ (natLog2 x.num.natAbs + 1) := by exact_mod_cast a2
  have B1 : ((2 : ℚ) ^ natLog2 x.den) ≤ (x.den : ℚ) := by exact_mod_cast b1
  have B2 : (x.den : ℚ) < (2 : ℚ) ^ (natLog2 x.den + 1) := by exact_mod_cast b2
  have hup : x < (2 : ℚ) ^ ((natLog2 x.num.natAbs : Int) - (natLog2 x.den : Int) + 1) := by
    have e : (2 : ℚ) ^ ((natLog2 x.num.natAbs : Int) - (natLog2 x.den : Int) + 1)
        = (2 : ℚ) ^ (natLog2 x.num.natAbs + 1) / (2 : ℚ) ^ natLog2 x.den := by
      rw [show ((natLog2 x.num.natAbs : Int) - (natLog2 x.den : Int) + 1)
          = ((natLog2 x.num.natAbs + 1 : Nat) : Int) - ((natLog2 x.den : Nat) : Int) by
            push_cast; ring,
        zpow_sub₀ (by norm_num : (2 : ℚ) ≠ 0), zpow_natCast, zpow_natCast]
    rw [e, lt_div_iff₀ (pow_pos (by norm_num) _)]
    calc x * (2 : ℚ) ^ natLog2 x.den
        ≤ x * (x.den : ℚ) := mul_le_mul_of_nonneg_left B1 (le_of_lt hx)
      _ = (x.num.natAbs : ℚ) := hxb
      _ < (2 : ℚ) ^ (natLog2 x.num.natAbs + 1) := A2
  have hlow : (2 : ℚ) ^ ((natLog2 x.num.natAbs : Int) - (natLog2 x.den : Int) - 1) ≤ x := by
    have e : (2 : ℚ) ^ ((natLog2 x.num.natAbs : Int) - (natLog2 x.den : Int) - 1)
        = (2 : ℚ) ^ natLog2 x.num.natAbs / (2 : ℚ) ^ (natLog2 x.den + 1) := by
      rw [show ((natLog2 x.num.natAbs : Int) - (natLog2 x.den : Int) - 1)
          = ((natLog2 x.num.natAbs : Nat) : Int) - ((natLog2 x.den + 1 : Nat) : Int) by
            push_cast; ring,
        zpow_sub₀ (by norm_num : (2 : ℚ) ≠ 0), zpow_natCast, zpow_natCast]
    rw [e, div_le_iff₀ (pow_pos (by norm_num) _)]
    calc (2 : ℚ) ^ natLog2 x.num.natAbs
        ≤ (x.num.natAbs : ℚ) := A1
      _ = x * (x.den : ℚ) := hxb.symm
      _ ≤ x * (2 : ℚ) ^ (natLog2 x.den + 1) :=
          mul_le_mul_of_nonneg_left (le_of_lt B2) (le_of_lt hx)
  unfold ilog2
  simp only []
  rw [scale2_eq, one_mul]
  split
  · rename_i h
    exact ⟨h, hup⟩
  · rename_i h
    refine ⟨hlow, ?_⟩
    rw [sub_add_cancel]
    exact not_le.1 h

/-- The binary exponent is monotone. -/
theorem ilog2_mono (x y : ℚ) (hx : 0 < x) (hxy : x ≤ y) : ilog2 x ≤ ilog2 y := by
  have h1 := (ilog2_spec x hx).1
  have h2 := (ilog2_spec y (lt_of_lt_of_le hx hxy)).2
  have h3 : (2 : ℚ) ^ ilog2 x < (2 : ℚ) ^ (ilog2 y + 1) := lt_of_le_of_lt (h1.trans hxy) h2
  have h4 := (zpow_lt_zpow_iff_right₀ (by norm_num : (1 : ℚ) < 2)).1 h3
  omega

/-- The binary exponent of a number below `2 ^ k` is below `k`. -/
theorem ilog2_lt (x : ℚ) (hx : 0 < x) (k : Int) (h : x < (2 : ℚ) ^ k) : ilog2 x < k := by
  have h1 := (ilog2_spec x hx).1
  exact (zpow_lt_zpow_iff_right₀ (by norm_num : (1 : ℚ) < 2)).1 (lt_of_le_of_lt h1 h)


theorem roundHalfEven_intCast (n : Int) : roundHalfEven (n : ℚ) = n := by
  unfold roundHalfEven
  rw [Int.floor_intCast, sub_self, if_pos (by norm_num)]

theorem roundHalfEven_ge_floor (q : ℚ) : ⌊q⌋ ≤ roundHalfEven q := by
  unfold roundHalfEven
  split_ifs <;> omega

theorem roundHalfEven_le_floor (q : ℚ) : roundHalfEven q ≤ ⌊q⌋ + 1 := by
  unfold roundHalfEven
  split_ifs <;> omega

/-- Rounding to the nearest integer is monotone. -/
theorem roundHalfEven_mono (q r : ℚ) (h : q ≤ r) : roundHalfEven q ≤ roundHalfEven r := by
  rcases lt_or_eq_of_le (Int.floor_mono h) with hlt | heq
  · have h1 := roundHalfEven_le_floor q
    have h2 := roundHalfEven_ge_floor r
    omega
  · unfold roundHalfEven
    rw [← heq]
    split_ifs <;> first | omega | (exfalso; linarith)

/-- Rounding to the nearest integer moves a number by at most one half. -/
theorem roundHalfEven_near (q : ℚ) :
    q - 1 / 2 ≤ (roundHalfEven q : ℚ) ∧ (roundHalfEven q : ℚ) ≤ q + 1 / 2 := by
  have h1 := Int.floor_le q
  have h2 := Int.lt_floor_add_one q
  unfold roundHalfEven
  split_ifs <;> push_cast <;> constructor <;> linarith

/-- Rounding on the grid of spacing `2 ^ (e - 23)`. -/
theorem roundGrid_mono (e : Int) (x y : ℚ) (h : x ≤ y) :
    scale2 (roundHalfEven (scale2 x (23 - e)) : ℚ) (e - 23)
      ≤ scale2 (roundHalfEven (scale2 y (23 - e)) : ℚ) (e - 23) := by
  rw [scale2_eq, scale2_eq, scale2_eq, scale2_eq]
  apply mul_le_mul_of_nonneg_right _ (le_of_lt (two_zpow_pos _))
  have : roundHalfEven (x * 2 ^ (23 - e)) ≤ roundHalfEven (y * 2 ^ (23 - e)) :=
    roundHalfEven_mono _ _ (mul_le_mul_of_nonneg_right h (le_of_lt (two_zpow_pos _)))
  exact_mod_cast this

/-- A point of the grid of spacing `2 ^ (e - 23)` is left as it is. -/
theorem roundGrid_fix (e : Int) (m : Int) :
    scale2 (roundHalfEven (scale2 ((m : ℚ) * (2 : ℚ) ^ (e - 23)) (23 - e)) : ℚ) (e - 23)
      = (m : ℚ) * (2 : ℚ) ^ (e - 23) := by
  rw [scale2_eq, scale2_eq]
  have h : (m : ℚ) * (2 : ℚ) ^ (e - 23) * (2 : ℚ) ^ (23 - e) = (m : ℚ) := by
    rw [mul_assoc, ← zpow_add₀ (by norm_num : (2 : ℚ) ≠ 0)]
    simp
  rw [h, roundHalfEven_intCast]

/-- On positive numbers `roundF32` rounds on the grid of the exponent. -/
theorem roundF32_pos (x : ℚ) (hx : 0 < x) :
    roundF32 x
      = scale2 (roundHalfEven (scale2 x (23 - max (ilog2 x) (-126))) : ℚ)
          (max (ilog2 x) (-126) - 23) := by
  unfold roundF32
  rw [if_neg (ne_of_gt hx), abs_of_pos hx]
  simp only []
  rw [if_neg (not_lt.2 (le_of_lt hx))]

theorem roundF32_zero : roundF32 0 = 0 := by
  unfold roundF32
  rw [if_pos rfl]

theorem roundF32_neg (x : ℚ) : roundF32 (-x) = -roundF32 x := by
  rcases lt_trichotomy x 0 with h | h | h
  · unfold roundF32
    have h1 : -x ≠ 0 := by linarith [h]
    have h1' : ¬ (-x = 0) := fun e => h1 e
    have h2 : x ≠ 0 := ne_of_lt h
    have h3 : ¬ (-x < 0) := by linarith
    rw [if_neg h1', if_neg h2, abs_neg]
    simp only []
    rw [if_neg h3, if_pos h, neg_neg]
  · subst h
    simp [roundF32_zero]
  · unfold roundF32
    have h1 : ¬ (-x = 0) := by
      intro e
      linarith
    have h2 : x ≠ 0 := ne_of_gt h
    have h3 : -x < 0 := by linarith
    have h4 : ¬ x < 0 := not_lt.2 (le_of_lt h)
    rw [if_neg h1, if_neg h2, abs_neg]
    simp only []
    rw [if_pos h3, if_neg h4]

theorem roundF32_nonneg (x : ℚ) (hx : 0 ≤ x) : 0 ≤ roundF32 x := by
  rcases lt_or_eq_of_le hx with h | h
  · rw [roundF32_pos x h, scale2_eq, scale2_eq]
    apply mul_nonneg _ (le_of_lt (two_zpow_pos _))
    have h0 : roundHalfEven ((0 : Int) : ℚ) ≤ roundHalfEven (x * 2 ^ (23 - max (ilog2 x) (-126))) :=
      roundHalfEven_mono _ _ (by
        push_cast
        exact mul_nonneg hx (le_of_lt (two_zpow_pos _)))
    rw [roundHalfEven_intCast] at h0
    exact_mod_cast h0
  · rw [← h, roundF32_zero]

/-- A positive number is not rounded above the next power of two. -/
theorem roundF32_le_pow (x : ℚ) (hx : 0 < x) :
    roundF32 x ≤ (2 : ℚ) ^ (max (ilog2 x) (-126) + 1) := by
  have hlt : x ≤ (2 : ℚ) ^ (max (ilog2 x) (-126) + 1) :=
    le_trans (le_of_lt (ilog2_spec x hx).2)
      (zpow_le_zpow_right₀ (by norm_num) (by omega))
  have hfix := roundGrid_fix (max (ilog2 x) (-126)) ((2 : Int) ^ 24)
  have e : (((2 : Int) ^ 24 : Int) : ℚ) * (2 : ℚ) ^ (max (ilog2 x) (-126) - 23)
      = (2 : ℚ) ^ (max (ilog2 x) (-126) + 1) := by
    have h24 : (((2 : Int) ^ 24 : Int) : ℚ) = (2 : ℚ) ^ (24 : Int) := by norm_num
    rw [h24, ← zpow_add₀ (by norm_num : (2 : ℚ) ≠ 0)]
    congr 1
    ring
  rw [e] at hfix
  rw [roundF32_pos x hx, ← hfix]
  exact roundGrid_mono _ _ _ hlt

/-- A number whose exponent is at least `-126` is not rounded below its power
of two. -/
theorem roundF32_ge_pow (x : ℚ) (hx : 0 < x) (he : -126 ≤ ilog2 x) :
    (2 : ℚ) ^ ilog2 x ≤ roundF32 x := by
  have hm : max (ilog2 x) (-126) = ilog2 x := max_eq_left he
  have hfix := roundGrid_fix (ilog2 x) ((2 : Int) ^ 23)
  have e : (((2 : Int) ^ 23 : Int) : ℚ) * (2 : ℚ) ^ (ilog2 x - 23) = (2 : ℚ) ^ ilog2 x := by
    have h23 : (((2 : Int) ^ 23 : Int) : ℚ) = (2 : ℚ) ^ (23 : Int) := by norm_num
    rw [h23, ← zpow_add₀ (by norm_num : (2 : ℚ) ≠ 0)]
    congr 1
    ring
  rw [e] at hfix
  rw [roundF32_pos x hx, hm, ← hfix]
  exact roundGrid_mono _ _ _ (ilog2_spec x hx).1

theorem roundF32_mono_pos (x y : ℚ) (hx : 0 < x) (hxy : x ≤ y) : roundF32 x ≤ roundF32 y := by
  have hy : 0 < y := lt_of_lt_of_le hx hxy
  have hle := ilog2_mono x y hx hxy
  rcases lt_or_eq_of_le (max_le_max hle (le_refl (-126 : Int))) with hlt | heq
  · have h1 := roundF32_le_pow x hx
    have hey : -126 ≤ ilog2 y := by
      by_contra hc
      have : max (ilog2 y) (-126) = -126 := max_eq_right (by omega)
      rw [this] at hlt
      have := le_max_right (ilog2 x) (-126)
      omega
    have h2 := roundF32_ge_pow y hy hey
    have hm : max (ilog2 y) (-126) = ilog2 y := max_eq_left hey
    rw [hm] at hlt
    have h3 : (2 : ℚ) ^ (max (ilog2 x) (-126) + 1) ≤ (2 : ℚ) ^ ilog2 y :=
      zpow_le_zpow_right₀ (by norm_num) (by omega)
    exact h1.trans (h3.trans h2)
  · rw [roundF32_pos x hx, roundF32_pos y hy, heq]
    exact roundGrid_mono _ _ _ hxy

/-- Rounding to binary32 is monotone. -/
theorem roundF32_mono (x y : ℚ) (hxy : x ≤ y) : roundF32 x ≤ roundF32 y := by
  rcases lt_trichotomy x 0 with hx | hx | hx
  · rcases lt_or_le y 0 with hy | hy
    · have h := roundF32_mono_pos (-y) (-x) (by linarith) (by linarith)
      rw [roundF32_neg, roundF32_neg] at h
      linarith
    · have h1 := roundF32_nonneg (-x) (by linarith)
      rw [roundF32_neg] at h1
      have h2 := roundF32_nonneg y hy
      linarith
  · subst hx
    rw [roundF32_zero]
    exact roundF32_nonneg y hxy
  · exact roundF32_mono_pos x y hx hxy

/-- A point of the grid of spacing `2 ^ (e - 23)` is left as it is. -/
theorem roundGrid_fix_of (e : Int) (x : ℚ) (m : Int) (h : x = (m : ℚ) * (2 : ℚ) ^ (e - 23)) :
    scale2 (roundHalfEven (scale2 x (23 - e)) : ℚ) (e - 23) = x := by
  subst h
  exact roundGrid_fix e m

/-- A number `m * 2 ^ k` with `0 < m < 2 ^ 24` and `k ≥ -149` is a `float`:
rounding leaves it as it is. -/
theorem roundF32_fix_pos (m : Nat) (k : Int) (hm0 : 0 < m) (hm : m < 2 ^ 24) (hk : -149 ≤ k) :
    roundF32 ((m : ℚ) * (2 : ℚ) ^ k) = (m : ℚ) * (2 : ℚ) ^ k := by
  have hx : (0 : ℚ) < (m : ℚ) * (2 : ℚ) ^ k :=
    mul_pos (by exact_mod_cast hm0) (two_zpow_pos k)
  have hlt : (m : ℚ) * (2 : ℚ) ^ k < (2 : ℚ) ^ (k + 24) := by
    rw [zpow_add₀ (by norm_num : (2 : ℚ) ≠ 0), mul_comm ((2 : ℚ) ^ k)]
    apply mul_lt_mul_of_pos_right _ (two_zpow_pos k)
    have : ((m : Nat) : ℚ) < ((2 ^ 24 : Nat) : ℚ) := by exact_mod_cast hm
    have h24 : (((2 : Nat) ^ 24 : Nat) : ℚ) = (2 : ℚ) ^ (24 : Int) := by norm_num
    rw [h24] at this
    exact this
  have he := ilog2_lt _ hx _ hlt
  have hE2 : max (ilog2 ((m : ℚ) * (2 : ℚ) ^ k)) (-126) - 23 ≤ k := by
    have : max (ilog2 ((m : ℚ) * (2 : ℚ) ^ k)) (-126) ≤ k + 23 := max_le (by omega) (by omega)
    omega
  obtain ⟨n, hn⟩ : ∃ n : Nat,
      k = (max (ilog2 ((m : ℚ) * (2 : ℚ) ^ k)) (-126) - 23) + (n : Int) :=
    ⟨(k - (max (ilog2 ((m : ℚ) * (2 : ℚ) ^ k)) (-126) - 23)).toNat, by omega⟩
  rw [roundF32_pos _ hx]
  apply roundGrid_fix_of _ _ ((m : Int) * 2 ^ n)
  conv_lhs => rw [hn]
  rw [zpow_add₀ (by norm_num : (2 : ℚ) ≠ 0), zpow_natCast]
  push_cast
  ring

/-- The multiples of `2 ^ -17` up to `128` are `float` values. -/
theorem roundF32_grid (k : Int) (hk : |k| ≤ 16777216) :
    roundF32 ((k : ℚ) / 131072) = (k : ℚ) / 131072 := by
  have key : ∀ m : Nat, m ≤ 16777216 → roundF32 ((m : ℚ) / 131072) = (m : ℚ) / 131072 := by
    intro m hm
    rcases Nat.eq_zero_or_pos m with h0 | h0
    · subst h0
      simp [roundF32_zero]
    · rcases Nat.lt_or_ge m 16777216 with h1 | h1
      · have h := roundF32_fix_pos m (-17) h0 (by norm_num; exact h1) (by norm_num)
        have e : (m : ℚ) * (2 : ℚ) ^ (-17 : Int) = (m : ℚ) / 131072 := by
          rw [zpow_neg, div_eq_mul_inv]
          norm_num
        rw [e] at h
        exact h
      · have hm2 : m = 16777216 := by omega
        subst hm2
        decide!
  rcases le_or_lt 0 k with h | h
  · obtain ⟨m, rfl⟩ := Int.eq_ofNat_of_zero_le h
    have hm : m ≤ 16777216 := by
      rw [abs_of_nonneg h] at hk
      exact_mod_cast hk
    have := key m hm
    rw [Int.cast_natCast]
    exact this
  · obtain ⟨m, hm⟩ : ∃ m : Nat, k = -(m : Int) := ⟨(-k).toNat, by omega⟩
    subst hm
    have hm2 : m ≤ 16777216 := by
      rw [abs_neg, abs_of_nonneg (by omega)] at hk
      exact_mod_cast hk
    have := key m hm2
    rw [Int.cast_neg, Int.cast_natCast, neg_div, roundF32_neg, this]

theorem sqrtF32_zero : sqrtF32 0 = 0 := by decide!

/-! ## Binary32 rounding: error bounds -/

/-- The error of rounding on the grid of spacing `2 ^ (e - 23)` is at most half
the spacing. -/
theorem roundGrid_err (e : Int) (x : ℚ) :
    |scale2 (roundHalfEven (scale2 x (23 - e)) : ℚ) (e - 23) - x| ≤ (2 : ℚ) ^ (e - 24) := by
  rw [scale2_eq, scale2_eq]
  have hn := roundHalfEven_near (x * (2 : ℚ) ^ (23 - e))
  have hp : (0 : ℚ) < (2 : ℚ) ^ (e - 23) := two_zpow_pos _
  have hx : x = x * (2 : ℚ) ^ (23 - e) * (2 : ℚ) ^ (e - 23) := by
    rw [mul_assoc, ← zpow_add₀ (by norm_num : (2 : ℚ) ≠ 0)]
    simp
  have h24 : (2 : ℚ) ^ (e - 24) = 1 / 2 * (2 : ℚ) ^ (e - 23) := by
    rw [show e - 24 = (e - 23) + (-1) by ring, zpow_add₀ (by norm_num : (2 : ℚ) ≠ 0)]
    norm_num
    ring
  rw [h24, abs_le]
  constructor
  · nlinarith [hn.1, hn.2]
  · nlinarith [hn.1, hn.2]

/-- The error of rounding to binary32: relative `2 ^ -24` in the normal range,
absolute `2 ^ -150` below it. -/
theorem roundF32_err (x : ℚ) :
    |roundF32 x - x| ≤ |x| / 16777216 + 1 / 2 ^ 150 := by
  have key : ∀ y : ℚ, 0 < y → |roundF32 y - y| ≤ y / 16777216 + 1 / 2 ^ 150 := by
    intro y hy
    rw [roundF32_pos y hy]
    have h := roundGrid_err (max (ilog2 y) (-126)) y
    refine h.trans ?_
    rcases le_or_lt (-126) (ilog2 y) with he | he
    · rw [max_eq_left he]
      have h1 := (ilog2_spec y hy).1
      have h2 : (2 : ℚ) ^ (ilog2 y - 24) = (2 : ℚ) ^ ilog2 y / 16777216 := by
        rw [zpow_sub₀ (by norm_num : (2 : ℚ) ≠ 0)]
        norm_num
      rw [h2]
      have h3 : (2 : ℚ) ^ ilog2 y / 16777216 ≤ y / 16777216 :=
        div_le_div_of_nonneg_right h1 (by norm_num)
      have h4 : (0 : ℚ) ≤ 1 / 2 ^ 150 := by positivity
      linarith
    · rw [max_eq_right (le_of_lt he)]
      have h2 : (2 : ℚ) ^ ((-126 : Int) - 24) = 1 / 2 ^ 150 := by
        rw [show ((-126 : Int) - 24) = -(150 : Int) by norm_num, zpow_neg]
        norm_num
      rw [h2]
      have : 0 ≤ y / 16777216 := by positivity
      linarith
  rcases lt_trichotomy x 0 with h | h | h
  · have := key (-x) (by linarith)
    rw [roundF32_neg] at this
    rw [abs_of_neg h]
    have e : |-roundF32 x - -x| = |roundF32 x - x| := by
      rw [← abs_neg]
      congr 1
      ring
    rw [e] at this
    exact this
  · subst h
    rw [roundF32_zero]
    norm_num
  · rw [abs_of_pos h]
    exact key x h

/-- The integer square root, bit by bit: the invariant of the loop. -/
theorem isqrtAux_spec (n : Nat) (i : Nat) :
    ∀ r : Nat, r * r ≤ n → n < (r + 2 ^ i) * (r + 2 ^ i) →
      isqrtAux n i r * isqrtAux n i r ≤ n ∧
      n < (isqrtAux n i r + 1) * (isqrtAux n i r + 1) := by
  induction i with
  | zero =>
    intro r h1 h2
    unfold isqrtAux
    simpa using ⟨h1, h2⟩
  | succ i ih =>
    intro r h1 h2
    unfold isqrtAux
    by_cases hc : (r + 2 ^ i) * (r + 2 ^ i) ≤ n
    · rw [if_pos hc]
      apply ih _ hc
      have e : r + 2 ^ i + 2 ^ i = r + 2 ^ (i + 1) := by rw [Nat.pow_succ]; ring
      rw [e]
      exact h2
    · rw [if_neg hc]
      exact ih r h1 (not_le.1 hc)

/-- The square root of binary32 is correct to half a unit in the last place:
for `x > 0` the result `y` is positive and `x` lies between `(y (1 - 1e-7))^2`
and `(y (1 + 1e-7))^2`. -/
theorem sqrtF32_spec (x : ℚ) (hx : 0 < x) :
    0 < sqrtF32 x ∧
    sqrtF32 x ^ 2 * (1 - 1 / 10000000) ^ 2 ≤ x ∧
    x ≤ sqrtF32 x ^ 2 * (1 + 1 / 10000000) ^ 2 := by
  obtain ⟨e1, e2⟩ := ilog2_spec x hx
  have hh1 : 2 * (ilog2 x / 2) ≤ ilog2 x := by omega
  have hh2 : ilog2 x ≤ 2 * (ilog2 x / 2) + 1 := by omega
  have ht : scale2 x (2 * (23 - ilog2 x / 2)) = x * (2 : ℚ) ^ (46 - 2 * (ilog2 x / 2)) := by
    rw [scale2_eq]
    congr 2
    ring
  have ht1 : (2 : ℚ) ^ (46 : Int) ≤ x * (2 : ℚ) ^ (46 - 2 * (ilog2 x / 2)) := by
    calc (2 : ℚ) ^ (46 : Int)
        ≤ (2 : ℚ) ^ (ilog2 x + (46 - 2 * (ilog2 x / 2))) :=
          zpow_le_zpow_right₀ (by norm_num) (by omega)
      _ = (2 : ℚ) ^ ilog2 x * (2 : ℚ) ^ (46 - 2 * (ilog2 x / 2)) :=
          zpow_add₀ (by norm_num) _ _
      _ ≤ x * (2 : ℚ) ^ (46 - 2 * (ilog2 x / 2)) :=
          mul_le_mul_of_nonneg_right e1 (le_of_lt (two_zpow_pos _))
  have ht2 : x * (2 : ℚ) ^ (46 - 2 * (ilog2 x / 2)) < (2 : ℚ) ^ (48 : Int) := by
    calc x * (2 : ℚ) ^ (46 - 2 * (ilog2 x / 2))
        < (2 : ℚ) ^ (ilog2 x + 1) * (2 : ℚ) ^ (46 - 2 * (ilog2 x / 2)) :=
          mul_lt_mul_of_pos_right e2 (two_zpow_pos _)
      _ = (2 : ℚ) ^ (ilog2 x + 1 + (46 - 2 * (ilog2 x / 2))) :=
          (zpow_add₀ (by norm_num) _ _).symm
      _ ≤ (2 : ℚ) ^ (48 : Int) := zpow_le_zpow_right₀ (by norm_num) (by omega)
  unfold sqrtF32
  rw [if_neg (not_le.2 hx)]
  simp only []
  rw [ht]
  generalize htdef : x * (2 : ℚ) ^ (46 - 2 * (ilog2 x / 2)) = t at ht1 ht2 ⊢
  have ht0 : (0 : ℚ) < t := lt_of_lt_of_le (two_zpow_pos _) ht1
  have hfl0 : 0 ≤ ⌊t⌋ := Int.floor_nonneg.2 (le_of_lt ht0)
  have hn1 : ((⌊t⌋.toNat : Nat) : ℚ) ≤ t := by
    have : ((⌊t⌋.toNat : Nat) : ℚ) = ((⌊t⌋ : Int) : ℚ) := by
      rw [← Int.cast_natCast, Int.toNat_of_nonneg hfl0]
    rw [this]
    exact Int.floor_le t
  have hn2 : t < ((⌊t⌋.toNat : Nat) : ℚ) + 1 := by
    have : ((⌊t⌋.toNat : Nat) : ℚ) = ((⌊t⌋ : Int) : ℚ) := by
      rw [← Int.cast_natCast, Int.toNat_of_nonneg hfl0]
    rw [this]
    exact Int.lt_floor_add_one t
  generalize hndef : ⌊t⌋.toNat = n at hn1 hn2 ⊢
  have hn48 : n < 2 ^ 48 := by
    have : (n : ℚ) < ((2 ^ 48 : Nat) : ℚ) := by
      have h48 : (((2 : Nat) ^ 48 : Nat) : ℚ) = (2 : ℚ) ^ (48 : Int) := by norm_num
      rw [h48]
      exact lt_of_le_of_lt hn1 ht2
    exact_mod_cast this
  have hn46 : 2 ^ 46 ≤ n := by
    have : ((2 ^ 46 : Nat) : ℚ) < (n : ℚ) + 1 := by
      have h46 : (((2 : Nat) ^ 46 : Nat) : ℚ) = (2 : ℚ) ^ (46 : Int) := by norm_num
      rw [h46]
      exact lt_of_le_of_lt ht1 hn2
    have h2 : (2 ^ 46 : Nat) < n + 1 := by exact_mod_cast this
    omega
  obtain ⟨s1, s2⟩ := isqrtAux_spec n 24 0 (by simp) (by simpa using hn48)
  generalize hsdef : isqrtAux n 24 0 = s at s1 s2 ⊢
  have hs23 : 2 ^ 23 ≤ s := by
    by_contra hc
    have hc2 : s + 1 ≤ 2 ^ 23 := by omega
    have : (s + 1) * (s + 1) ≤ 2 ^ 23 * 2 ^ 23 := Nat.mul_le_mul hc2 hc2
    have e : (2 : Nat) ^ 23 * 2 ^ 23 = 2 ^ 46 := by norm_num
    omega
  have hsq : (8388608 : ℚ) ≤ (s : ℚ) := by exact_mod_cast hs23
  have S1 : (s : ℚ) * (s : ℚ) ≤ t := by
    have : ((s * s : Nat) : ℚ) ≤ (n : ℚ) := by exact_mod_cast s1
    push_cast at this
    linarith
  have S2 : t < ((s : ℚ) + 1) * ((s : ℚ) + 1) := by
    have : (n : ℚ) + 1 ≤ (((s + 1) * (s + 1) : Nat) : ℚ) := by exact_mod_cast s2
    push_cast at this
    linarith
  -- the rounded mantissa
  have hN : ∀ N : Nat, (s ≤ N) → ((N : ℚ) - 1 / 2) ^ 2 ≤ t → t ≤ ((N : ℚ) + 1 / 2) ^ 2 →
      0 < scale2 (N : ℚ) (ilog2 x / 2 - 23) ∧
      scale2 (N : ℚ) (ilog2 x / 2 - 23) ^ 2 * (1 - 1 / 10000000) ^ 2 ≤ x ∧
      x ≤ scale2 (N : ℚ) (ilog2 x / 2 - 23) ^ 2 * (1 + 1 / 10000000) ^ 2 := by
    intro N hsN hlo hhi
    have hNq : (8388608 : ℚ) ≤ (N : ℚ) := le_trans hsq (by exact_mod_cast hsN)
    rw [scale2_eq]
    have hc : (0 : ℚ) < (2 : ℚ) ^ (ilog2 x / 2 - 23) := two_zpow_pos _
    have hxt : x = t * ((2 : ℚ) ^ (ilog2 x / 2 - 23)) ^ 2 := by
      rw [← htdef, ← zpow_natCast, ← zpow_mul, mul_assoc,
        ← zpow_add₀ (by norm_num : (2 : ℚ) ≠ 0)]
      have : (46 - 2 * (ilog2 x / 2) + (ilog2 x / 2 - 23) * ((2 : Nat) : Int)) = 0 := by
        push_cast
        ring
      rw [this]
      simp
    generalize (2 : ℚ) ^ (ilog2 x / 2 - 23) = c at hc hxt ⊢
    have hc2 : (0 : ℚ) < c ^ 2 := by positivity
    refine ⟨mul_pos (by linarith) hc, ?_, ?_⟩
    · have h1 : (N : ℚ) ^ 2 * (1 - 1 / 10000000) ^ 2 ≤ t := by
        refine le_trans ?_ hlo
        have : (N : ℚ) * (1 - 1 / 10000000) ≤ (N : ℚ) - 1 / 2 := by linarith
        have h0 : 0 ≤ (N : ℚ) * (1 - 1 / 10000000) := by
          apply mul_nonneg (by linarith) (by norm_num)
        rw [← mul_pow]
        exact pow_le_pow_left₀ h0 this 2
      calc ((N : ℚ) * c) ^ 2 * (1 - 1 / 10000000) ^ 2
          = (N : ℚ) ^ 2 * (1 - 1 / 10000000) ^ 2 * c ^ 2 := by ring
        _ ≤ t * c ^ 2 := mul_le_mul_of_nonneg_right h1 (le_of_lt hc2)
        _ = x := hxt.symm
    · have h1 : t ≤ (N : ℚ) ^ 2 * (1 + 1 / 10000000) ^ 2 := by
        refine le_trans hhi ?_
        have : (N : ℚ) + 1 / 2 ≤ (N : ℚ) * (1 + 1 / 10000000) := by linarith
        have h0 : 0 ≤ (N : ℚ) + 1 / 2 := by linarith
        rw [← mul_pow]
        exact pow_le_pow_left₀ h0 this 2
      calc x = t * c ^ 2 := hxt
        _ ≤ (N : ℚ) ^ 2 * (1 + 1 / 10000000) ^ 2 * c ^ 2 :=
            mul_le_mul_of_nonneg_right h1 (le_of_lt hc2)
        _ = ((N : ℚ) * c) ^ 2 * (1 + 1 / 10000000) ^ 2 := by ring
  have hm : (((s * s + s : Nat) : ℚ) + 1 / 4) = ((s : ℚ) + 1 / 2) ^ 2 := by
    push_cast
    ring
  rw [hm]
  have hs0 : (0 : ℚ) ≤ (s : ℚ) := by linarith
  have hlow : ((s : ℚ) - 1 / 2) ^ 2 ≤ t := by
    have : ((s : ℚ) - 1 / 2) ^ 2 ≤ (s : ℚ) * (s : ℚ) := by nlinarith
    linarith
  have hhigh : t ≤ (((s + 1 : Nat) : ℚ) + 1 / 2) ^ 2 := by
    have : ((s : ℚ) + 1) * ((s : ℚ) + 1) ≤ (((s + 1 : Nat) : ℚ) + 1 / 2) ^ 2 := by
      push_cast
      nlinarith
    linarith
  have hmid : (((s + 1 : Nat) : ℚ) - 1 / 2) = (s : ℚ) + 1 / 2 := by
    push_cast
    ring
  split_ifs with c1 c2 c3
  · exact hN s (le_refl _) hlow (le_of_lt c1)
  · exact hN (s + 1) (by omega) (by rw [hmid]; exact le_of_lt c2) hhigh
  · exact hN s (le_refl _) hlow (not_lt.1 c2)
  · exact hN (s + 1) (by omega) (by rw [hmid]; exact not_lt.1 c1) hhigh

/-- Rounding to binary32 is idempotent on positive numbers. -/
theorem roundF32_idem_pos (x : ℚ) (hx : 0 < x) : roundF32 (roundF32 x) = roundF32 x := by
  have hspec := ilog2_spec x hx
  rw [roundF32_pos x hx, scale2_eq, scale2_eq]
  generalize he : max (ilog2 x) (-126) = e
  have he126 : -126 ≤ e := by rw [← he]; exact le_max_right _ _
  have hle : ilog2 x ≤ e := by rw [← he]; exact le_max_left _ _
  have hx24 : x * (2 : ℚ) ^ (23 - e) ≤ ((2 ^ 24 : Int) : ℚ) := by
    have h1 : x ≤ (2 : ℚ) ^ (e + 1) :=
      le_trans (le_of_lt hspec.2) (zpow_le_zpow_right₀ (by norm_num) (by omega))
    have h2 := mul_le_mul_of_nonneg_right h1 (le_of_lt (two_zpow_pos (23 - e)))
    rw [← zpow_add₀ (by norm_num : (2 : ℚ) ≠ 0)] at h2
    have e24 : e + 1 + (23 - e) = 24 := by ring
    rw [e24] at h2
    have : (((2 : Int) ^ 24 : Int) : ℚ) = (2 : ℚ) ^ (24 : Int) := by norm_num
    rw [this]
    exact h2
  have hM24 : roundHalfEven (x * (2 : ℚ) ^ (23 - e)) ≤ 2 ^ 24 := by
    have := roundHalfEven_mono _ _ hx24
    rw [roundHalfEven_intCast] at this
    exact this
  have hM0 : 0 ≤ roundHalfEven (x * (2 : ℚ) ^ (23 - e)) := by
    have h0 : ((0 : Int) : ℚ) ≤ x * (2 : ℚ) ^ (23 - e) := by
      rw [Int.cast_zero]
      exact le_of_lt (mul_pos hx (two_zpow_pos _))
    have := roundHalfEven_mono _ _ h0
    rw [roundHalfEven_intCast] at this
    exact this
  generalize roundHalfEven (x * (2 : ℚ) ^ (23 - e)) = M at hM24 hM0
  obtain ⟨m, rfl⟩ := Int.eq_ofNat_of_zero_le hM0
  rw [Int.cast_natCast]
  rcases Nat.eq_zero_or_pos m with h0 | hpos
  · rw [h0]
    simp only [Nat.cast_zero, zero_mul]
    exact roundF32_zero
  · have hm24 : m ≤ 2 ^ 24 := by exact_mod_cast hM24
    rcases Nat.lt_or_ge m (2 ^ 24) with hlt | hge
    · exact roundF32_fix_pos m (e - 23) hpos hlt (by omega)
    · have hm : m = 2 ^ 24 := le_antisymm hm24 hge
      have e1 : ((m : Nat) : ℚ) * (2 : ℚ) ^ (e - 23) = ((1 : Nat) : ℚ) * (2 : ℚ) ^ (e + 1) := by
        rw [hm]
        have : (((2 : Nat) ^ 24 : Nat) : ℚ) = (2 : ℚ) ^ (24 : Int) := by norm_num
        rw [this, ← zpow_add₀ (by norm_num : (2 : ℚ) ≠ 0), Nat.cast_one, one_mul]
        congr 1
        ring
      rw [e1]
      exact roundF32_fix_pos 1 (e + 1) (by norm_num) (by norm_num) (by omega)

/-- Rounding to binary32 is idempotent: the conversion of a `float` to `float`
changes nothing. -/
theorem roundF32_idem (x : ℚ) : roundF32 (roundF32 x) = roundF32 x := by
  rcases lt_trichotomy x 0 with h | h | h
  · have hn : 0 < -x := neg_pos.2 h
    have := roundF32_idem_pos (-x) hn
    rw [roundF32_neg, roundF32_neg] at this
    exact neg_injective this
  · rw [h, roundF32_zero, roundF32_zero]
  · exact roundF32_idem_pos x h

/-! ## The physics in binary32 arithmetic: the house loop -/

/-- The house loop at a house the code accepts: mark it, count it, `break`. -/
theorem houses_cons_hit_fl (R : Rounding) (p : Vec3) (h : House) (t : List House) (d : Int)
    (hacc : accepts_fl R p h) :
    update_physics_houses_fl R p (h :: t) d = ({ h with hasPackage := true } :: t, d + 1) := by
  unfold update_physics_houses_fl
  rw [if_pos hacc.1, if_pos hacc.2]

/-- The house loop at a house the code does not accept: go on with the next house. -/
theorem houses_cons_miss_fl (R : Rounding) (p : Vec3) (h : House) (t : List House) (d : Int)
    (hn : ¬ accepts_fl R p h) :
    update_physics_houses_fl R p (h :: t) d
      = (h :: (update_physics_houses_fl R p t d).1, (update_physics_houses_fl R p t d).2) := by
  rw [update_physics_houses_fl]
  by_cases hp : h.hasPackage = false
  · have hd : ¬ glm_distance_fl R ⟨p.x, 0, p.z⟩ h.position < 20 := fun hd => hn ⟨hp, hd⟩
    rw [if_pos hp, if_neg hd]
  · rw [if_neg hp]

/-- When the code accepts no house the house loop changes nothing. -/
theorem houses_none_fl (R : Rounding) (p : Vec3) (hs : List House) (d : Int)
    (hno : ∀ h ∈ hs, ¬ accepts_fl R p h) : update_physics_houses_fl R p hs d = (hs, d) := by
  induction hs with
  | nil => rfl
  | cons h t ih =>
    rw [houses_cons_miss_fl R p h t d (hno h (List.mem_cons_self _ _)),
      ih (fun g hg => hno g (List.mem_cons_of_mem _ hg))]

/-- The house loop marks the first house the code accepts, leaves the houses
before and after it as they are, and adds one to the counter. -/
theorem houses_first_fl (R : Rounding) (p : Vec3) (pre post : List House) (h : House) (d : Int)
    (hpre : ∀ g ∈ pre, ¬ accepts_fl R p g) (hel : accepts_fl R p h) :
    update_physics_houses_fl R p (pre ++ h :: post) d
      = (pre ++ { h with hasPackage := true } :: post, d + 1) := by
  induction pre with
  | nil => exact houses_cons_hit_fl R p h post d hel
  | cons g t ih =>
    rw [List.cons_append, houses_cons_miss_fl R p g _ d (hpre g (List.mem_cons_self _ _)),
      ih (fun k hk => hpre k (List.mem_cons_of_mem _ hk))]
    rfl

/-- A list with a house the code accepts splits at the first such house. -/
theorem exists_first_accepted (R : Rounding) (p : Vec3) (hs : List House)
    (hex : ∃ h ∈ hs, accepts_fl R p h) :
    ∃ pre h post, hs = pre ++ h :: post ∧ (∀ g ∈ pre, ¬ accepts_fl R p g) ∧ accepts_fl R p h := by
  induction hs with
  | nil => simp at hex
  | cons a t ih =>
    by_cases ha : accepts_fl R p a
    · exact ⟨[], a, t, rfl, by simp, ha⟩
    · have hex2 : ∃ h ∈ t, accepts_fl R p h := by
        obtain ⟨h, hm, he⟩ := hex
        rcases List.mem_cons.1 hm with rfl | hm2
        · exact absurd he ha
        · exact ⟨h, hm2, he⟩
      obtain ⟨pre, h, post, rfl, hpre, hel⟩ := ih hex2
      refine ⟨a :: pre, h, post, rfl, ?_, hel⟩
      intro g hg
      rcases List.mem_cons.1 hg with rfl | hg2
      · exact ha
      · exact hpre g hg2

/-! ## The physics in binary32 arithmetic: the loop body for one package -/

theorem integrate_position_fl (R : Rounding) (dt : ℚ) (p : Package) :
    (update_physics_integrate_fl R dt p).position = landingPoint_fl R dt p := rfl

theorem integrate_active_fl (R : Rounding) (dt : ℚ) (p : Package) :
    (update_physics_integrate_fl R dt p).active = p.active := rfl

theorem landingPoint_y_fl (R : Rounding) (dt : ℚ) (p : Package) :
    (landingPoint_fl R dt p).y = R.fl (p.position.y + R.fl (p.velocity.y * dt)) := rfl

/-- The integration statements written out field by field, with every
rounding. -/
theorem integrate_eq_fl (R : Rounding) (dt : ℚ) (p : Package) :
    update_physics_integrate_fl R dt p
      = { position := ⟨R.fl (p.position.x + R.fl (p.velocity.x * dt)),
            R.fl (p.position.y + R.fl (p.velocity.y * dt)),
            R.fl (p.position.z + R.fl (p.velocity.z * dt))⟩
          velocity := ⟨p.velocity.x, R.fl (p.velocity.y - R.fl (R.fl (R.fl 9.8 * dt) * 5)),
            p.velocity.z⟩
          active := p.active
          rotation := R.fl (p.rotation + R.fl (p.rotationSpeed * dt))
          rotationSpeed := p.rotationSpeed } := rfl

/-- An inactive package is skipped (`continue`). -/
theorem package_inactive_fl (R : Rounding) (dt : ℚ) (p : Package) (hs : List House) (d : Int)
    (ha : p.active = false) : update_physics_package_fl R dt p hs d = (p, hs, d) := by
  simp [update_physics_package_fl, ha]

/-- An active package whose computed height stays above `5.0f` is integrated and
nothing else happens. -/
theorem package_flying_fl (R : Rounding) (dt : ℚ) (p : Package) (hs : List House) (d : Int)
    (ha : p.active = true) (hy : 5 < (landingPoint_fl R dt p).y) :
    update_physics_package_fl R dt p hs d = (update_physics_integrate_fl R dt p, hs, d) := by
  have h1 : ¬ (update_physics_integrate_fl R dt p).position.y ≤ 5 := by
    rw [integrate_position_fl]
    exact not_le.2 hy
  simp [update_physics_package_fl, ha, h1]

/-- An active package whose computed height reaches `5.0f` is deactivated and the
house loop runs at its computed position. -/
theorem package_landed_fl (R : Rounding) (dt : ℚ) (p : Package) (hs : List House) (d : Int)
    (hl : lands_fl R dt p) :
    update_physics_package_fl R dt p hs d
      = ({ update_physics_integrate_fl R dt p with active := false },
          (update_physics_houses_fl R (landingPoint_fl R dt p) hs d).1,
          (update_physics_houses_fl R (landingPoint_fl R dt p) hs d).2) := by
  have h1 : (landingPoint_fl R dt p).y ≤ 5 := hl.2
  have h0 : ¬ p.active = false := by simp [hl.1]
  unfold update_physics_package_fl
  rw [if_neg h0]
  simp only [integrate_position_fl, if_pos h1]

/-- The three cases of the loop body. -/
theorem package_cases_fl (R : Rounding) (dt : ℚ) (p : Package) :
    p.active = false ∨ (p.active = true ∧ 5 < (landingPoint_fl R dt p).y) ∨ lands_fl R dt p := by
  unfold lands_fl
  cases hp : p.active
  · exact Or.inl rfl
  · rcases lt_or_le 5 (landingPoint_fl R dt p).y with h | h
    · exact Or.inr (Or.inl ⟨rfl, h⟩)
    · exact Or.inr (Or.inr ⟨rfl, h⟩)

/-- The package the loop body leaves does not depend on the houses. -/
theorem package_fst_fl (R : Rounding) (dt : ℚ) (p : Package) (hs : List House) (d : Int) :
    (update_physics_package_fl R dt p hs d).1 = (update_physics_package_fl R dt p [] 0).1 := by
  rcases package_cases_fl R dt p with h | h | h
  · rw [package_inactive_fl R dt p hs d h, package_inactive_fl R dt p [] 0 h]
  · rw [package_flying_fl R dt p hs d h.1 h.2, package_flying_fl R dt p [] 0 h.1 h.2]
  · rw [package_landed_fl R dt p hs d h, package_landed_fl R dt p [] 0 h]

theorem loop_nil_fl (R : Rounding) (dt : ℚ) (hs : List House) (d : Int) :
    update_physics_loop_fl R dt [] hs d = ([], hs, d) := rfl

/-- One iteration of the package loop: the body for the first package, then
the loop over the rest on the houses and counter the body left. -/
theorem loop_cons_fl (R : Rounding) (dt : ℚ) (p : Package) (t : List Package)
    (hs : List House) (d : Int) :
    update_physics_loop_fl R dt (p :: t) hs d
      = ((update_physics_package_fl R dt p hs d).1
            :: (update_physics_loop_fl R dt t (update_physics_package_fl R dt p hs d).2.1
                  (update_physics_package_fl R dt p hs d).2.2).1,
          (update_physics_loop_fl R dt t (update_physics_package_fl R dt p hs d).2.1
              (update_physics_package_fl R dt p hs d).2.2).2) := rfl

/-! ## The physics in binary32 arithmetic: houses only gain flags -/

/-- The house loop keeps every position and type and only raises flags. -/
theorem houses_step_fl (R : Rounding) (p : Vec3) (hs : List House) (d : Int) :
    List.Forall₂ HouseStep hs (update_physics_houses_fl R p hs d).1 := by
  induction hs with
  | nil => exact List.Forall₂.nil
  | cons h t ih =>
    by_cases hacc : accepts_fl R p h
    · rw [houses_cons_hit_fl R p h t d hacc]
      exact List.Forall₂.cons ⟨rfl, rfl, fun _ => rfl⟩ (housesStep_refl t)
    · rw [houses_cons_miss_fl R p h t d hacc]
      exact List.Forall₂.cons (houseStep_refl h) ih

/-- The loop body keeps every position and type and only raises flags. -/
theorem package_step_fl (R : Rounding) (dt : ℚ) (p : Package) (hs : List House) (d : Int) :
    List.Forall₂ HouseStep hs (update_physics_package_fl R dt p hs d).2.1 := by
  rcases package_cases_fl R dt p with h | h | h
  · rw [package_inactive_fl R dt p hs d h]
    exact housesStep_refl hs
  · rw [package_flying_fl R dt p hs d h.1 h.2]
    exact housesStep_refl hs
  · rw [package_landed_fl R dt p hs d h]
    exact houses_step_fl R _ hs d

/-- The package loop keeps every position and type and only raises flags. -/
theorem loop_step_fl (R : Rounding) (dt : ℚ) (ps : List Package) (hs : List House) (d : Int) :
    List.Forall₂ HouseStep hs (update_physics_loop_fl R dt ps hs d).2.1 := by
  induction ps generalizing hs d with
  | nil => exact housesStep_refl hs
  | cons p t ih =>
    rw [loop_cons_fl]
    exact housesStep_trans (package_step_fl R dt p hs d) (ih _ _)

/-- A house the code does not accept before a step is not accepted after it. -/
theorem not_accepts_of_step (R : Rounding) (p : Vec3) {l1 l2 : List House}
    (h : List.Forall₂ HouseStep l1 l2) (hno : ∀ a ∈ l1, ¬ accepts_fl R p a) :
    ∀ b ∈ l2, ¬ accepts_fl R p b := by
  induction h with
  | nil => simp
  | cons hab _ ih =>
    intro b hb
    rcases List.mem_cons.1 hb with rfl | hb2
    · intro he
      refine hno _ (List.mem_cons_self _ _) ⟨?_, ?_⟩
      · cases hf : House.hasPackage _ with
        | false => rfl
        | true =>
          have := hab.2.2 hf
          rw [he.1] at this
          exact absurd this (by simp)
      · rw [hab.1]
        exact he.2
    · exact ih (fun a ha => hno a (List.mem_cons_of_mem _ ha)) b hb2

/-! ## The physics in binary32 arithmetic: the package loop -/

theorem loop_append_fl (R : Rounding) (dt : ℚ) (a b : List Package) (hs : List House)
    (d : Int) :
    update_physics_loop_fl R dt (a ++ b) hs d
      = ((update_physics_loop_fl R dt a hs d).1
            ++ (update_physics_loop_fl R dt b (update_physics_loop_fl R dt a hs d).2.1
                  (update_physics_loop_fl R dt a hs d).2.2).1,
          (update_physics_loop_fl R dt b (update_physics_loop_fl R dt a hs d).2.1
              (update_physics_loop_fl R dt a hs d).2.2).2) := by
  induction a generalizing hs d with
  | nil => rfl
  | cons p t ih =>
    rw [List.cons_append, loop_cons_fl, loop_cons_fl, ih]
    rfl

/-- The packages the loop leaves do not depend on the houses. -/
theorem loop_packages_fl (R : Rounding) (dt : ℚ) (ps : List Package) (hs : List House)
    (d : Int) :
    (update_physics_loop_fl R dt ps hs d).1
      = ps.map (fun p => (update_physics_package_fl R dt p [] 0).1) := by
  induction ps generalizing hs d with
  | nil => rfl
  | cons p t ih =>
    rw [loop_cons_fl, List.map_cons, ih, package_fst_fl]

/-- A package that does not land, or lands with no house the code accepts,
leaves the houses and the counter as they are. -/
theorem package_inert_fl (R : Rounding) (dt : ℚ) (p : Package) (hs : List House) (d : Int)
    (hno : lands_fl R dt p → ∀ h ∈ hs, ¬ accepts_fl R (landingPoint_fl R dt p) h) :
    (update_physics_package_fl R dt p hs d).2 = (hs, d) := by
  rcases package_cases_fl R dt p with h | h | h
  · rw [package_inactive_fl R dt p hs d h]
  · rw [package_flying_fl R dt p hs d h.1 h.2]
  · rw [package_landed_fl R dt p hs d h, houses_none_fl R _ hs d (hno h)]

/-- A loop over packages none of which has an accepted house on landing leaves
the houses and the counter as they are. -/
theorem loop_inert_fl (R : Rounding) (dt : ℚ) (ps : List Package) (hs : List House) (d : Int)
    (hno : ∀ q ∈ ps, lands_fl R dt q → ∀ h ∈ hs, ¬ accepts_fl R (landingPoint_fl R dt q) h) :
    (update_physics_loop_fl R dt ps hs d).2 = (hs, d) := by
  induction ps with
  | nil => rfl
  | cons p t ih =>
    have hp := package_inert_fl R dt p hs d (hno p (List.mem_cons_self _ _))
    have ht := ih (fun q hq => hno q (List.mem_cons_of_mem _ hq))
    have h1 : (update_physics_package_fl R dt p hs d).2.1 = hs := by rw [hp]
    have h2 : (update_physics_package_fl R dt p hs d).2.2 = d := by rw [hp]
    rw [loop_cons_fl, h1, h2, ht]

theorem update_physics_houses_eq_fl (R : Rounding) (dt : ℚ) (s : Scene) :
    (update_physics_fl R dt s).houses
      = (update_physics_loop_fl R dt s.packages s.houses s.deliveredPackages).2.1 := rfl

theorem update_physics_delivered_eq_fl (R : Rounding) (dt : ℚ) (s : Scene) :
    (update_physics_fl R dt s).deliveredPackages
      = (update_physics_loop_fl R dt s.packages s.houses s.deliveredPackages).2.2 := rfl

theorem update_physics_packages_eq_fl (R : Rounding) (dt : ℚ) (s : Scene) :
    (update_physics_fl R dt s).packages
      = (s.packages.map (fun p => (update_physics_package_fl R dt p [] 0).1)).filter
          (fun p => p.active) := by
  unfold update_physics_fl
  simp only [loop_packages_fl]

/-- Around one package: when the packages before it leave the houses alone and
the packages after it do not land, the loop does to the houses and the counter
what the body does for that package. -/
theorem loop_around_fl (R : Rounding) (dt : ℚ) (before after : List Package) (pkg : Package)
    (hs : List House) (d : Int)
    (hb : ∀ q ∈ before, lands_fl R dt q →
      ∀ h ∈ hs, ¬ accepts_fl R (landingPoint_fl R dt q) h)
    (ha : ∀ q ∈ after, ¬ lands_fl R dt q) :
    (update_physics_loop_fl R dt (before ++ pkg :: after) hs d).2
      = (update_physics_package_fl R dt pkg hs d).2 := by
  have h1 := loop_inert_fl R dt before hs d hb
  have h11 : (update_physics_loop_fl R dt before hs d).2.1 = hs := by rw [h1]
  have h12 : (update_physics_loop_fl R dt before hs d).2.2 = d := by rw [h1]
  rw [loop_append_fl, h11, h12, loop_cons_fl]
  exact loop_inert_fl R dt after _ _ (fun q hq hl => absurd hl (ha q hq))

/-- A landing package with no accepted house can be left out of the loop: the
houses and the counter come out the same. -/
theorem loop_skip_fl (R : Rounding) (dt : ℚ) (before after : List Package) (pkg : Package)
    (hs : List House) (d : Int)
    (hno : lands_fl R dt pkg → ∀ h ∈ hs, ¬ accepts_fl R (landingPoint_fl R dt pkg) h) :
    (update_physics_loop_fl R dt (before ++ pkg :: after) hs d).2
      = (update_physics_loop_fl R dt (before ++ after) hs d).2 := by
  have hmid : (update_physics_package_fl R dt pkg (update_physics_loop_fl R dt before hs d).2.1
      (update_physics_loop_fl R dt before hs d).2.2).2
      = ((update_physics_loop_fl R dt before hs d).2.1,
          (update_physics_loop_fl R dt before hs d).2.2) :=
    package_inert_fl R dt pkg _ _
      (fun hl => not_accepts_of_step R _ (loop_step_fl R dt before hs d) (hno hl))
  rw [loop_append_fl, loop_append_fl, loop_cons_fl]
  simp only [hmid]

/-- A package the loop body deactivates does not survive the purge. -/
theorem purge_skip_fl (R : Rounding) (dt : ℚ) (before after : List Package) (pkg : Package)
    (hl : lands_fl R dt pkg) :
    ((before ++ pkg :: after).map (fun p => (update_physics_package_fl R dt p [] 0).1)).filter
        (fun p => p.active)
      = ((before ++ after).map (fun p => (update_physics_package_fl R dt p [] 0).1)).filter
        (fun p => p.active) := by
  have hina : (update_physics_package_fl R dt pkg [] 0).1.active = false := by
    rw [package_landed_fl R dt pkg [] 0 hl]
  simp [List.filter_cons, hina]

/-- One tick in `float` arithmetic keeps every house in place and only raises
flags. -/
theorem update_physics_step_fl (R : Rounding) (dt : ℚ) (s : Scene) :
    List.Forall₂ HouseStep s.houses (update_physics_fl R dt s).houses :=
  loop_step_fl R dt s.packages s.houses s.deliveredPackages

/-- The purge after the loop keeps the integrated versions of the packages that
were active and whose computed height stays above `5.0f`, in stored order. -/
theorem purge_eq_fl (R : Rounding) (dt : ℚ) (ps : List Package) :
    (ps.map (fun p => (update_physics_package_fl R dt p [] 0).1)).filter (fun p => p.active)
      = ((ps.filter (fun p => p.active)).map (update_physics_integrate_fl R dt)).filter
          (fun q => decide (5 < q.position.y)) := by
  induction ps with
  | nil => rfl
  | cons p t ih =>
    rw [List.map_cons]
    rcases package_cases_fl R dt p with h | h | h
    · rw [package_inactive_fl R dt p [] 0 h]
      simp only [List.filter_cons, h, Bool.false_eq_true, if_false]
      exact ih
    · have hy : 5 < (update_physics_integrate_fl R dt p).position.y := by
        rw [integrate_position_fl]
        exact h.2
      rw [package_flying_fl R dt p [] 0 h.1 h.2]
      simp only [List.filter_cons, integrate_active_fl, h.1, if_true, List.map_cons, hy,
        decide_True, ih]
    · have hy : ¬ 5 < (update_physics_integrate_fl R dt p).position.y := by
        rw [integrate_position_fl]
        exact not_lt.2 h.2
      rw [package_landed_fl R dt p [] 0 h]
      simp only [List.filter_cons, h.1, if_true, List.map_cons, hy, decide_False,
        Bool.false_eq_true, if_false, ih]

/-- Binary32 arithmetic is accurate. -/
theorem f32_accurate : f32.Accurate :=
  ⟨roundF32_mono, roundF32_zero, roundF32_err, sqrtF32_zero, sqrtF32_spec⟩

/-! ## The delivery test away from the threshold -/

/-- On numbers up to `1000` an accurate rounding moves a number by at most `1e-4`. -/
theorem fl_near (R : Rounding) (hR : R.Accurate) (z : ℚ) (hz : |z| ≤ 1000) :
    |R.fl z - z| ≤ 1 / 10000 := by
  have h := hR.2.2.1 z
  have h1 : |z| / 16777216 ≤ 1000 / 16777216 := div_le_div_of_nonneg_right hz (by norm_num)
  have h2 : (1000 : ℚ) / 16777216 + 1 / 2 ^ 150 ≤ 1 / 10000 := by norm_num
  linarith

/-- An accurate rounding keeps non-negative numbers non-negative. -/
theorem fl_nonneg (R : Rounding) (hR : R.Accurate) (z : ℚ) (hz : 0 ≤ z) : 0 ≤ R.fl z := by
  have h := hR.1 0 z hz
  rw [hR.2.1] at h
  exact h

/-- The computed square of a computed difference, for a difference of size at
most `21`: within `0.005` of the exact square. -/
theorem fl_square_near (R : Rounding) (hR : R.Accurate) (a : ℚ) (ha : |a| ≤ 21) :
    |R.fl (R.fl a * R.fl a) - a * a| ≤ 5 / 1000 ∧ |R.fl (R.fl a * R.fl a)| ≤ 442 := by
  have h1 := fl_near R hR a (le_trans ha (by norm_num))
  obtain ⟨a1, a2⟩ := abs_le.1 ha
  obtain ⟨b1, b2⟩ := abs_le.1 h1
  have hsq : |R.fl a * R.fl a - a * a| ≤ 43 / 10000 := by
    rw [abs_le]
    constructor <;> nlinarith
  obtain ⟨c1, c2⟩ := abs_le.1 hsq
  have hb : |R.fl a * R.fl a| ≤ 1000 := by
    rw [abs_le]
    constructor <;> nlinarith
  have h2 := fl_near R hR (R.fl a * R.fl a) hb
  obtain ⟨d1, d2⟩ := abs_le.1 h2
  constructor
  · rw [abs_le]
    constructor <;> linarith
  · rw [abs_le]
    constructor <;> nlinarith

/-- The computed square of a computed difference of size at least `21` is at least
`439`. -/
theorem fl_square_far (R : Rounding) (hR : R.Accurate) (a : ℚ) (ha : 21 ≤ |a|) :
    439 ≤ R.fl (R.fl a * R.fl a) := by
  have h21 := fl_near R hR 21 (by norm_num)
  have h21n := fl_near R hR (-21) (by norm_num)
  obtain ⟨p1, _⟩ := abs_le.1 h21
  obtain ⟨_, n2⟩ := abs_le.1 h21n
  have hsq : 440 ≤ R.fl a * R.fl a := by
    rcases le_abs.1 ha with h | h
    · have := hR.1 21 a h
      nlinarith
    · have := hR.1 a (-21) (by linarith)
      nlinarith
  have h440 := fl_near R hR 440 (by norm_num)
  obtain ⟨q1, _⟩ := abs_le.1 h440
  have := hR.1 440 _ hsq
  linarith

/-- A computed distance whose computed square is below `399.9` is below `20`. -/
theorem sqrt_lt_twenty (R : Rounding) (hR : R.Accurate) (d : ℚ) (h0 : 0 ≤ d)
    (hd : d ≤ 3999 / 10) : R.sqrt d < 20 := by
  rcases lt_or_eq_of_le h0 with h | h
  · obtain ⟨s0, s1, _⟩ := hR.2.2.2.2 d h
    by_contra hc
    have h20 : 20 ≤ R.sqrt d := not_lt.1 hc
    have : (400 : ℚ) ≤ R.sqrt d ^ 2 := by nlinarith
    nlinarith
  · rw [← h, hR.2.2.2.1]
    norm_num

/-- A computed distance whose computed square is at least `400.1` is not below
`20`. -/
theorem sqrt_ge_twenty (R : Rounding) (hR : R.Accurate) (d : ℚ) (hd : 4001 / 10 ≤ d) :
    ¬ R.sqrt d < 20 := by
  obtain ⟨s0, _, s2⟩ := hR.2.2.2.2 d (by linarith)
  intro hc
  have : R.sqrt d ^ 2 ≤ 400 := by nlinarith
  nlinarith

/-- With an accurate rounding the code accepts every undelivered house on the
plane `y = 0` whose exact horizontal distance to the landing point is at most
`19.99`. -/
theorem accepts_of_near (R : Rounding) (hR : R.Accurate) (p : Vec3) (h : House)
    (hund : h.hasPackage = false) (hy : h.position.y = 0)
    (hd : horizontalSq p h ≤ (1999 / 100) ^ 2) : accepts_fl R p h := by
  refine ⟨hund, ?_⟩
  unfold horizontalSq at hd
  have hxz : (h.position.x - p.x) * (h.position.x - p.x)
      + (h.position.z - p.z) * (h.position.z - p.z) ≤ (1999 / 100) ^ 2 := by
    nlinarith
  have hx21 : |h.position.x - p.x| ≤ 21 := by
    rw [abs_le]
    constructor <;> nlinarith [mul_self_nonneg (h.position.z - p.z)]
  have hz21 : |h.position.z - p.z| ≤ 21 := by
    rw [abs_le]
    constructor <;> nlinarith [mul_self_nonneg (h.position.x - p.x)]
  obtain ⟨x1, x2⟩ := fl_square_near R hR _ hx21
  obtain ⟨z1, z2⟩ := fl_square_near R hR _ hz21
  have qx0 := fl_nonneg R hR _ (mul_self_nonneg (R.fl (h.position.x - p.x)))
  have qz0 := fl_nonneg R hR _ (mul_self_nonneg (R.fl (h.position.z - p.z)))
  obtain ⟨x3, x4⟩ := abs_le.1 x1
  obtain ⟨z3, z4⟩ := abs_le.1 z1
  obtain ⟨x5, x6⟩ := abs_le.1 x2
  obtain ⟨z5, z6⟩ := abs_le.1 z2
  have s1 := fl_near R hR (R.fl (R.fl (h.position.x - p.x) * R.fl (h.position.x - p.x)))
    (by rw [abs_le]; constructor <;> linarith)
  obtain ⟨s3, s4⟩ := abs_le.1 s1
  have s0 := fl_nonneg R hR _ qx0
  have d1 := fl_near R hR
    (R.fl (R.fl (R.fl (h.position.x - p.x) * R.fl (h.position.x - p.x)))
      + R.fl (R.fl (h.position.z - p.z) * R.fl (h.position.z - p.z)))
    (by rw [abs_le]; constructor <;> linarith)
  obtain ⟨d3, d4⟩ := abs_le.1 d1
  have d0 := fl_nonneg R hR _ (add_nonneg s0 qz0)
  unfold glm_distance_fl Vec3.dot_fl Vec3.sub_fl
  simp only [hy, sub_self, hR.2.1, mul_zero, add_zero]
  apply sqrt_lt_twenty R hR _ d0
  norm_num at hxz
  linarith

/-- With an accurate rounding the code accepts no house whose exact horizontal
distance to the landing point is at least `20.01`, whatever its height. -/
theorem not_accepts_of_far (R : Rounding) (hR : R.Accurate) (p : Vec3) (h : House)
    (hd : (2001 / 100) ^ 2 ≤ horizontalSq p h) : ¬ accepts_fl R p h := by
  intro hacc
  have hlt := hacc.2
  unfold horizontalSq at hd
  have hxz : (2001 / 100 : ℚ) ^ 2 ≤ (h.position.x - p.x) * (h.position.x - p.x)
      + (h.position.z - p.z) * (h.position.z - p.z) := by
    nlinarith
  unfold glm_distance_fl Vec3.dot_fl Vec3.sub_fl at hlt
  simp only [] at hlt
  have qx0 := fl_nonneg R hR _ (mul_self_nonneg (R.fl (h.position.x - p.x)))
  have qy0 := fl_nonneg R hR _ (mul_self_nonneg (R.fl (h.position.y - 0)))
  have qz0 := fl_nonneg R hR _ (mul_self_nonneg (R.fl (h.position.z - p.z)))
  have s0 := fl_nonneg R hR _ (add_nonneg qx0 qy0)
  have smono : R.fl (R.fl (R.fl (h.position.x - p.x) * R.fl (h.position.x - p.x)))
      ≤ R.fl (R.fl (R.fl (h.position.x - p.x) * R.fl (h.position.x - p.x))
          + R.fl (R.fl (h.position.y - 0) * R.fl (h.position.y - 0))) :=
    hR.1 _ _ (by linarith)
  refine sqrt_ge_twenty R hR _ ?_ hlt
  by_cases hx : 21 ≤ |h.position.x - p.x|
  · have q := fl_square_far R hR _ hx
    have e1 := fl_near R hR 439 (by norm_num)
    have e2 := fl_near R hR 438 (by norm_num)
    obtain ⟨e3, _⟩ := abs_le.1 e1
    obtain ⟨e4, _⟩ := abs_le.1 e2
    have m1 := hR.1 439 _ q
    have m2 : (438 : ℚ) ≤ R.fl (R.fl (R.fl (h.position.x - p.x) * R.fl (h.position.x - p.x))
          + R.fl (R.fl (h.position.y - 0) * R.fl (h.position.y - 0)))
        + R.fl (R.fl (h.position.z - p.z) * R.fl (h.position.z - p.z)) := by linarith
    have m3 := hR.1 438 _ m2
    linarith
  · by_cases hz : 21 ≤ |h.position.z - p.z|
    · have q := fl_square_far R hR _ hz
      have e1 := fl_near R hR 439 (by norm_num)
      obtain ⟨e3, _⟩ := abs_le.1 e1
      have m2 : (439 : ℚ) ≤ R.fl (R.fl (R.fl (h.position.x - p.x) * R.fl (h.position.x - p.x))
            + R.fl (R.fl (h.position.y - 0) * R.fl (h.position.y - 0)))
          + R.fl (R.fl (h.position.z - p.z) * R.fl (h.position.z - p.z)) := by linarith
      have m3 := hR.1 439 _ m2
      linarith
    · obtain ⟨x1, x2⟩ := fl_square_near R hR _ (le_of_lt (not_le.1 hx))
      obtain ⟨z1, z2⟩ := fl_square_near R hR _ (le_of_lt (not_le.1 hz))
      obtain ⟨x3, x4⟩ := abs_le.1 x1
      obtain ⟨z3, z4⟩ := abs_le.1 z1
      obtain ⟨x5, x6⟩ := abs_le.1 x2
      obtain ⟨z5, z6⟩ := abs_le.1 z2
      have s1 := fl_near R hR
        (R.fl (R.fl (h.position.x - p.x) * R.fl (h.position.x - p.x)))
        (by rw [abs_le]; constructor <;> linarith)
      obtain ⟨s3, s4⟩ := abs_le.1 s1
      have d1 := fl_near R hR
        (R.fl (R.fl (R.fl (h.position.x - p.x) * R.fl (h.position.x - p.x)))
          + R.fl (R.fl (h.position.z - p.z) * R.fl (h.position.z - p.z)))
        (by rw [abs_le]; constructor <;> linarith)
      obtain ⟨d3, d4⟩ := abs_le.1 d1
      have m := hR.1
        (R.fl (R.fl (R.fl (h.position.x - p.x) * R.fl (h.position.x - p.x)))
          + R.fl (R.fl (h.position.z - p.z) * R.fl (h.position.z - p.z)))
        (R.fl (R.fl (R.fl (h.position.x - p.x) * R.fl (h.position.x - p.x))
          + R.fl (R.fl (h.position.y - 0) * R.fl (h.position.y - 0)))
        + R.fl (R.fl (h.position.z - p.z) * R.fl (h.position.z - p.z)))
        (by linarith)
      norm_num at hxz
      linarith

/-! ## C1 and C2 in binary32 arithmetic: delivery matching -/

/-- C1, the claim as stated fails in `float` arithmetic: the house at
`(12, 0, 16 - 2^-20)` is undelivered, on the plane `y = 0` and at horizontal
distance strictly less than `20` from the landing point `(0, 5, 0)` (its
squared distance is `400 - 2^-15 + 2^-40`), the package lands, and yet
`update_physics` leaves the house undelivered and the score at `0`: the
computed squared distance is `400 - 2^-15`, whose `float` square root is
`20.0f`. -/
theorem C1_exact_distance_counterexample :
    landingPoint_fl f32 1 ⟨⟨0, 25, 0⟩, ⟨0, -20, 0⟩, true, 0, 0⟩ = ⟨0, 5, 0⟩ ∧
    lands_fl f32 1 ⟨⟨0, 25, 0⟩, ⟨0, -20, 0⟩, true, 0, 0⟩ ∧
    horizontalSq ⟨0, 5, 0⟩ ⟨⟨12, 0, 16 - 1 / 1048576⟩, false, 0⟩ < 20 ^ 2 ∧
    glm_distance_fl f32 ⟨0, 0, 0⟩ ⟨12, 0, 16 - 1 / 1048576⟩ = 20 ∧
    (update_physics_fl f32 1 (sceneOf [⟨⟨12, 0, 16 - 1 / 1048576⟩, false, 0⟩]
        [⟨⟨0, 25, 0⟩, ⟨0, -20, 0⟩, true, 0, 0⟩] 0)).houses
      = [⟨⟨12, 0, 16 - 1 / 1048576⟩, false, 0⟩] ∧
    (update_physics_fl f32 1 (sceneOf [⟨⟨12, 0, 16 - 1 / 1048576⟩, false, 0⟩]
        [⟨⟨0, 25, 0⟩, ⟨0, -20, 0⟩, true, 0, 0⟩] 0)).deliveredPackages = 0 := by
  decide!

/-- C1, amended: in `float` arithmetic with any rounding, for every house list
and every package that lands in the tick (active, computed new height
`<= 5.0f`), if the code accepts some house (it has no package and the computed
`glm::distance` between `(x, 0, z)` of the landing point and the house position
is `< 20.0f`), then the house list splits as `pre ++ h :: post` with `h` the
first accepted house in stored order, and the loop body leaves `pre` and `post`
untouched, sets `h.hasPackage` and adds exactly one to `deliveredPackages`; the
same holds for the whole of `update_physics` in every scene where this is the
package that lands.  With a rounding as accurate as binary32 the test of the
code agrees with the exact horizontal distance away from the threshold: an
undelivered house on the plane `y = 0` at exact horizontal distance at most
`19.99` is accepted, and no house at exact horizontal distance `20.01` or more
is accepted. -/
theorem C1_first_accepted_house_is_delivered (R : Rounding) (deltaTime : ℚ) (pkg : Package)
    (houses : List House) (delivered : Int)
    (hland : lands_fl R deltaTime pkg)
    (hex : ∃ h ∈ houses, accepts_fl R (landingPoint_fl R deltaTime pkg) h) :
    (∃ pre h post,
      houses = pre ++ h :: post ∧
      (∀ g ∈ pre, ¬ accepts_fl R (landingPoint_fl R deltaTime pkg) g) ∧
      accepts_fl R (landingPoint_fl R deltaTime pkg) h ∧
      (update_physics_package_fl R deltaTime pkg houses delivered).2
        = (pre ++ { h with hasPackage := true } :: post, delivered + 1) ∧
      ∀ (s : Scene) (before after : List Package),
        s.houses = houses → s.deliveredPackages = delivered →
        s.packages = before ++ pkg :: after →
        (∀ q ∈ before ++ after, ¬ lands_fl R deltaTime q) →
        (update_physics_fl R deltaTime s).houses
          = pre ++ { h with hasPackage := true } :: post ∧
        (update_physics_fl R deltaTime s).deliveredPackages = delivered + 1) ∧
    (R.Accurate → ∀ g : House, g.hasPackage = false → g.position.y = 0 →
      horizontalSq (landingPoint_fl R deltaTime pkg) g ≤ (1999 / 100) ^ 2 →
      accepts_fl R (landingPoint_fl R deltaTime pkg) g) ∧
    (R.Accurate → ∀ g : House,
      (2001 / 100) ^ 2 ≤ horizontalSq (landingPoint_fl R deltaTime pkg) g →
      ¬ accepts_fl R (landingPoint_fl R deltaTime pkg) g) := by
  refine ⟨?_, fun hR g hund hy hd => accepts_of_near R hR _ g hund hy hd,
    fun hR g hd => not_accepts_of_far R hR _ g hd⟩
  obtain ⟨pre, h, post, hsplit, hpre, hel⟩ := exists_first_accepted R _ houses hex
  have hbody : (update_physics_package_fl R deltaTime pkg houses delivered).2
      = (pre ++ { h with hasPackage := true } :: post, delivered + 1) := by
    rw [package_landed_fl R deltaTime pkg houses delivered hland, hsplit,
      houses_first_fl R _ pre post h delivered hpre hel]
  refine ⟨pre, h, post, hsplit, hpre, hel, hbody, ?_⟩
  intro s before after hh hd hps hothers
  have hloop := loop_around_fl R deltaTime before after pkg houses delivered
    (fun q hq hl => absurd hl (hothers q (List.mem_append_left _ hq)))
    (fun q hq => hothers q (List.mem_append_right _ hq))
  rw [update_physics_houses_eq_fl, update_physics_delivered_eq_fl, hps, hh, hd, hloop, hbody]
  exact ⟨rfl, rfl⟩

/-- C1 witness, in binary32: a delivered house, a house at distance exactly
`20`, a house at distance `10` and a house at distance `0`; the package comes
down at `(0, 5, 0)`.  Binary32 is accurate, so the house at distance `10` is
accepted and a house at distance `25` is not. -/
theorem C1_first_accepted_house_is_delivered_witness :
    (∃ pre h post,
      [(⟨⟨1, 0, 0⟩, true, 0⟩ : House), ⟨⟨20, 0, 0⟩, false, 1⟩, ⟨⟨10, 0, 0⟩, false, 2⟩,
          ⟨⟨0, 0, 0⟩, false, 0⟩] = pre ++ h :: post ∧
      (∀ g ∈ pre,
        ¬ accepts_fl f32 (landingPoint_fl f32 1 ⟨⟨0, 25, 0⟩, ⟨0, -20, 0⟩, true, 0, 1⟩) g) ∧
      accepts_fl f32 (landingPoint_fl f32 1 ⟨⟨0, 25, 0⟩, ⟨0, -20, 0⟩, true, 0, 1⟩) h ∧
      (update_physics_package_fl f32 1 ⟨⟨0, 25, 0⟩, ⟨0, -20, 0⟩, true, 0, 1⟩
          [⟨⟨1, 0, 0⟩, true, 0⟩, ⟨⟨20, 0, 0⟩, false, 1⟩, ⟨⟨10, 0, 0⟩, false, 2⟩,
            ⟨⟨0, 0, 0⟩, false, 0⟩] 7).2
        = (pre ++ { h with hasPackage := true } :: post, 7 + 1) ∧
      ∀ (s : Scene) (before after : List Package),
        s.houses = [⟨⟨1, 0, 0⟩, true, 0⟩, ⟨⟨20, 0, 0⟩, false, 1⟩, ⟨⟨10, 0, 0⟩, false, 2⟩,
            ⟨⟨0, 0, 0⟩, false, 0⟩] →
        s.deliveredPackages = 7 →
        s.packages = before ++ (⟨⟨0, 25, 0⟩, ⟨0, -20, 0⟩, true, 0, 1⟩ : Package) :: after →
        (∀ q ∈ before ++ after, ¬ lands_fl f32 1 q) →
        (update_physics_fl f32 1 s).houses = pre ++ { h with hasPackage := true } :: post ∧
        (update_physics_fl f32 1 s).deliveredPackages = 7 + 1) ∧
    accepts_fl f32 (landingPoint_fl f32 1 ⟨⟨0, 25, 0⟩, ⟨0, -20, 0⟩, true, 0, 1⟩)
      ⟨⟨10, 0, 0⟩, false, 2⟩ ∧
    ¬ accepts_fl f32 (landingPoint_fl f32 1 ⟨⟨0, 25, 0⟩, ⟨0, -20, 0⟩, true, 0, 1⟩)
      ⟨⟨25, 0, 0⟩, false, 2⟩ :=
  ⟨(C1_first_accepted_house_is_delivered f32 1 ⟨⟨0, 25, 0⟩, ⟨0, -20, 0⟩, true, 0, 1⟩
      [⟨⟨1, 0, 0⟩, true, 0⟩, ⟨⟨20, 0, 0⟩, false, 1⟩, ⟨⟨10, 0, 0⟩, false, 2⟩,
        ⟨⟨0, 0, 0⟩, false, 0⟩] 7 (by decide!) (by decide!)).1,
    (C1_first_accepted_house_is_delivered f32 1 ⟨⟨0, 25, 0⟩, ⟨0, -20, 0⟩, true, 0, 1⟩
      [⟨⟨1, 0, 0⟩, true, 0⟩, ⟨⟨20, 0, 0⟩, false, 1⟩, ⟨⟨10, 0, 0⟩, false, 2⟩,
        ⟨⟨0, 0, 0⟩, false, 0⟩] 7 (by decide!) (by decide!)).2.1 f32_accurate
      ⟨⟨10, 0, 0⟩, false, 2⟩ rfl rfl (by decide!),
    (C1_first_accepted_house_is_delivered f32 1 ⟨⟨0, 25, 0⟩, ⟨0, -20, 0⟩, true, 0, 1⟩
      [⟨⟨1, 0, 0⟩, true, 0⟩, ⟨⟨20, 0, 0⟩, false, 1⟩, ⟨⟨10, 0, 0⟩, false, 2⟩,
        ⟨⟨0, 0, 0⟩, false, 0⟩] 7 (by decide!) (by decide!)).2.2 f32_accurate
      ⟨⟨25, 0, 0⟩, false, 2⟩ (by decide!)⟩

/-- The concrete outcome at the input of the C1 witness in binary32: the house
at distance exactly `20` keeps its flag, the house at distance `10` is delivered,
the closer house after it is not. -/
theorem delivery_example_fl :
    update_physics_fl f32 1 (sceneOf [⟨⟨1, 0, 0⟩, true, 0⟩, ⟨⟨20, 0, 0⟩, false, 1⟩,
        ⟨⟨10, 0, 0⟩, false, 2⟩, ⟨⟨0, 0, 0⟩, false, 0⟩]
        [⟨⟨0, 25, 0⟩, ⟨0, -20, 0⟩, true, 0, 1⟩] 7)
      = { sceneOf [⟨⟨1, 0, 0⟩, true, 0⟩, ⟨⟨20, 0, 0⟩, false, 1⟩,
            ⟨⟨10, 0, 0⟩, true, 2⟩, ⟨⟨0, 0, 0⟩, false, 0⟩] [] 8 with windTime := 1 } := by
  decide!

/-- C2, the claim as stated fails in `float` arithmetic: the only house, at
`(10195681 / 2^19, 0, 10832893 / 2^21)`, is at horizontal distance not less than
`20` from the landing point `(3575201 / 2^25, 5, 9481061 / 2^27)` (all of them
`float` values), so no house is both undelivered and at horizontal distance
`< 20`; the package lands, and `update_physics` marks the house and raises the
score, because the computed distance is the `float` below `20.0f`. -/
theorem C2_exact_distance_counterexample :
    landingPoint_fl f32 1
        ⟨⟨3575201 / 33554432, 25, 9481061 / 134217728⟩, ⟨0, -20, 0⟩, true, 0, 0⟩
      = ⟨3575201 / 33554432, 5, 9481061 / 134217728⟩ ∧
    lands_fl f32 1 ⟨⟨3575201 / 33554432, 25, 9481061 / 134217728⟩, ⟨0, -20, 0⟩, true, 0, 0⟩ ∧
    (20 : ℚ) ^ 2 ≤ horizontalSq ⟨3575201 / 33554432, 5, 9481061 / 134217728⟩
        ⟨⟨10195681 / 524288, 0, 10832893 / 2097152⟩, false, 0⟩ ∧
    glm_distance_fl f32 ⟨3575201 / 33554432, 0, 9481061 / 134217728⟩
        ⟨10195681 / 524288, 0, 10832893 / 2097152⟩ = 20 - 1 / 524288 ∧
    (update_physics_fl f32 1 (sceneOf [⟨⟨10195681 / 524288, 0, 10832893 / 2097152⟩, false, 0⟩]
        [⟨⟨3575201 / 33554432, 25, 9481061 / 134217728⟩, ⟨0, -20, 0⟩, true, 0, 0⟩] 0)).houses
      = [⟨⟨10195681 / 524288, 0, 10832893 / 2097152⟩, true, 0⟩] ∧
    (update_physics_fl f32 1 (sceneOf [⟨⟨10195681 / 524288, 0, 10832893 / 2097152⟩, false, 0⟩]
        [⟨⟨3575201 / 33554432, 25, 9481061 / 134217728⟩, ⟨0, -20, 0⟩, true, 0, 0⟩]
        0)).deliveredPackages = 1 := by
  decide!

/-- C2, amended: in `float` arithmetic with any rounding, a package that lands
(active, computed new height `<= 5.0f`) while the code accepts no house of the
scene (none is both undelivered and at computed `glm::distance` `< 20.0f` from
`(x, 0, z)` of the landing point): the loop body deactivates it and leaves every
house and `deliveredPackages` as they are; when it is the only package,
`update_physics` leaves houses and counter unchanged and the collection empty;
and in every scene the tick with this package changes houses, counter, `windTime`
and the other packages as the tick without it does, so it changes no flag, no
score, and is not in the collection afterwards.  With a rounding as accurate as
binary32 the code accepts no house when every house is delivered or at exact
horizontal distance `20.01` or more from the landing point. -/
theorem C2_no_accepted_house_no_effect (R : Rounding) (deltaTime : ℚ) (s : Scene)
    (pkg : Package) (hland : lands_fl R deltaTime pkg)
    (hno : ∀ h ∈ s.houses, ¬ accepts_fl R (landingPoint_fl R deltaTime pkg) h) :
    update_physics_package_fl R deltaTime pkg s.houses s.deliveredPackages
        = ({ update_physics_integrate_fl R deltaTime pkg with active := false },
            s.houses, s.deliveredPackages) ∧
    (s.packages = [pkg] →
        (update_physics_fl R deltaTime s).houses = s.houses ∧
        (update_physics_fl R deltaTime s).deliveredPackages = s.deliveredPackages ∧
        (update_physics_fl R deltaTime s).packages = []) ∧
    (∀ before after : List Package, s.packages = before ++ pkg :: after →
        update_physics_fl R deltaTime s
          = update_physics_fl R deltaTime { s with packages := before ++ after }) ∧
    (R.Accurate → ∀ hs : List House,
      (∀ h ∈ hs, h.hasPackage = true
        ∨ (2001 / 100) ^ 2 ≤ horizontalSq (landingPoint_fl R deltaTime pkg) h) →
      ∀ h ∈ hs, ¬ accepts_fl R (landingPoint_fl R deltaTime pkg) h) := by
  have hfar : R.Accurate → ∀ hs : List House,
      (∀ h ∈ hs, h.hasPackage = true
        ∨ (2001 / 100) ^ 2 ≤ horizontalSq (landingPoint_fl R deltaTime pkg) h) →
      ∀ h ∈ hs, ¬ accepts_fl R (landingPoint_fl R deltaTime pkg) h := by
    intro hR hs hall h hh hacc
    rcases hall h hh with hdel | hd
    · rw [hacc.1] at hdel
      exact absurd hdel (by simp)
    · exact not_accepts_of_far R hR _ h hd hacc
  have hbody : update_physics_package_fl R deltaTime pkg s.houses s.deliveredPackages
      = ({ update_physics_integrate_fl R deltaTime pkg with active := false },
          s.houses, s.deliveredPackages) := by
    rw [package_landed_fl R deltaTime pkg _ _ hland, houses_none_fl R _ _ _ hno]
  have hgen : ∀ before after : List Package, s.packages = before ++ pkg :: after →
      update_physics_fl R deltaTime s
        = update_physics_fl R deltaTime { s with packages := before ++ after } := by
    intro before after hps
    have h2 := loop_skip_fl R deltaTime before after pkg s.houses s.deliveredPackages
      (fun _ => hno)
    have h1 := purge_skip_fl R deltaTime before after pkg hland
    unfold update_physics_fl
    simp only [loop_packages_fl, hps, h1, h2]
  refine ⟨hbody, ?_, hgen, hfar⟩
  intro hps
  have h := hgen [] [] (by rw [hps]; rfl)
  rw [h]
  exact ⟨rfl, rfl, rfl⟩

/-- C2 witness, in binary32: one delivered house under the landing point and
one undelivered house at distance `30`; the package comes down at `(0, 5, 0)`. -/
theorem C2_no_accepted_house_no_effect_witness :
    update_physics_package_fl f32 1 ⟨⟨0, 25, 0⟩, ⟨0, -20, 0⟩, true, 0, 1⟩
        [⟨⟨0, 0, 0⟩, true, 0⟩, ⟨⟨30, 0, 0⟩, false, 1⟩] 1
      = (⟨⟨0, 5, 0⟩, ⟨0, -69, 0⟩, false, 1, 1⟩,
          [⟨⟨0, 0, 0⟩, true, 0⟩, ⟨⟨30, 0, 0⟩, false, 1⟩], 1) ∧
    (update_physics_fl f32 1 (sceneOf [⟨⟨0, 0, 0⟩, true, 0⟩, ⟨⟨30, 0, 0⟩, false, 1⟩]
        [⟨⟨0, 25, 0⟩, ⟨0, -20, 0⟩, true, 0, 1⟩] 1)).houses
      = [⟨⟨0, 0, 0⟩, true, 0⟩, ⟨⟨30, 0, 0⟩, false, 1⟩] ∧
    (update_physics_fl f32 1 (sceneOf [⟨⟨0, 0, 0⟩, true, 0⟩, ⟨⟨30, 0, 0⟩, false, 1⟩]
        [⟨⟨0, 25, 0⟩, ⟨0, -20, 0⟩, true, 0, 1⟩] 1)).deliveredPackages = 1 ∧
    (update_physics_fl f32 1 (sceneOf [⟨⟨0, 0, 0⟩, true, 0⟩, ⟨⟨30, 0, 0⟩, false, 1⟩]
        [⟨⟨0, 25, 0⟩, ⟨0, -20, 0⟩, true, 0, 1⟩] 1)).packages = [] := by
  have h := C2_no_accepted_house_no_effect f32 1
    (sceneOf [⟨⟨0, 0, 0⟩, true, 0⟩, ⟨⟨30, 0, 0⟩, false, 1⟩]
      [⟨⟨0, 25, 0⟩, ⟨0, -20, 0⟩, true, 0, 1⟩] 1)
    ⟨⟨0, 25, 0⟩, ⟨0, -20, 0⟩, true, 0, 1⟩ (by decide!) (by decide!)
  exact ⟨h.1.trans (by decide!), h.2.1 rfl⟩

/-! ## C6 in binary32 arithmetic: the integration step -/

/-- C6, the claim as stated fails in `float` arithmetic: the active package at
height `6` with `velocity.y = -(1 - 2^-24)` (a `float`) and `dt = 1` has the new
height `position.y + velocity.y * dt = 5 + 2^-24`, above `5.0`; the code rounds
the sum to `5.0f`, takes the package as landed and erases it, so after
`update_physics` there is no package with the stated fields. -/
theorem C6_exact_height_counterexample :
    (5 : ℚ) < 6 + -(1 - 1 / 16777216) * 1 ∧
    f32.fl (-(1 - 1 / 16777216)) = -(1 - 1 / 16777216) ∧
    (landingPoint_fl f32 1 ⟨⟨0, 6, 0⟩, ⟨0, -(1 - 1 / 16777216), 0⟩, true, 0, 0⟩).y = 5 ∧
    (update_physics_fl f32 1
      (sceneOf [] [⟨⟨0, 6, 0⟩, ⟨0, -(1 - 1 / 16777216), 0⟩, true, 0, 0⟩] 0)).packages = [] := by
  decide!

/-- C6, amended: in `float` arithmetic with any rounding `fl`, an active package
whose computed new height `fl (position.y + fl (velocity.y * dt))` stays above
`5.0f` is, after `update_physics`, in the collection between the survivors of
the packages before it and of the packages after it, with each component of
the position `fl (position + fl (velocity * dt))` computed from the velocity of
before the tick, rotation `fl (rotation + fl (rotationSpeed * dt))`,
`velocity.y` equal to `fl (velocity.y - fl (fl (fl 9.8 * dt) * 5))`, and
`velocity.x`, `velocity.z`, `rotationSpeed` and `active` as they were. -/
theorem C6_integration_step_rounded (R : Rounding) (deltaTime : ℚ) (s : Scene)
    (before after : List Package) (pkg : Package) (hps : s.packages = before ++ pkg :: after)
    (hact : pkg.active = true)
    (hup : 5 < R.fl (pkg.position.y + R.fl (pkg.velocity.y * deltaTime))) :
    (update_physics_fl R deltaTime s).packages
      = (update_physics_fl R deltaTime { s with packages := before }).packages
        ++ { position := ⟨R.fl (pkg.position.x + R.fl (pkg.velocity.x * deltaTime)),
                R.fl (pkg.position.y + R.fl (pkg.velocity.y * deltaTime)),
                R.fl (pkg.position.z + R.fl (pkg.velocity.z * deltaTime))⟩
             velocity := ⟨pkg.velocity.x,
                R.fl (pkg.velocity.y - R.fl (R.fl (R.fl 9.8 * deltaTime) * 5)),
                pkg.velocity.z⟩
             active := true
             rotation := R.fl (pkg.rotation + R.fl (pkg.rotationSpeed * deltaTime))
             rotationSpeed := pkg.rotationSpeed }
        :: (update_physics_fl R deltaTime { s with packages := after }).packages := by
  have hint := integrate_eq_fl R deltaTime pkg
  rw [hact] at hint
  have hact2 : (update_physics_integrate_fl R deltaTime pkg).active = true := by
    rw [integrate_active_fl, hact]
  rw [update_physics_packages_eq_fl, update_physics_packages_eq_fl,
    update_physics_packages_eq_fl, hps, List.map_append, List.filter_append, List.map_cons,
    package_flying_fl R deltaTime pkg [] 0 hact hup, List.filter_cons, hact2, if_pos rfl, hint]

/-- C6 witness, in binary32: a package at height 25 falling at 20 for a tick of
`0.1f`, between a package that lands and one that stays up.  The new height is
`23.0f`, not the exact `25 - 20 * 0.1f`, and the new `velocity.y` is `-24.9f`. -/
theorem C6_integration_step_rounded_witness :
    (update_physics_fl f32 (13421773 / 134217728) (sceneOf []
        [⟨⟨7, 5, 7⟩, ⟨0, -20, 0⟩, true, 0, 1⟩, ⟨⟨1, 25, 2⟩, ⟨3, -20, 4⟩, true, 5, 6⟩,
          ⟨⟨0, 100, 0⟩, ⟨0, -20, 0⟩, true, 0, 0⟩] 0)).packages
      = [⟨⟨5452595 / 4194304, 23, 5033165 / 2097152⟩, ⟨3, -13054771 / 524288, 4⟩, true,
            11744051 / 2097152, 6⟩,
          ⟨⟨0, 98, 0⟩, ⟨0, -13054771 / 524288, 0⟩, true, 0, 0⟩] :=
  (C6_integration_step_rounded f32 (13421773 / 134217728) (sceneOf []
      [⟨⟨7, 5, 7⟩, ⟨0, -20, 0⟩, true, 0, 1⟩, ⟨⟨1, 25, 2⟩, ⟨3, -20, 4⟩, true, 5, 6⟩,
        ⟨⟨0, 100, 0⟩, ⟨0, -20, 0⟩, true, 0, 0⟩] 0)
    [⟨⟨7, 5, 7⟩, ⟨0, -20, 0⟩, true, 0, 1⟩] [⟨⟨0, 100, 0⟩, ⟨0, -20, 0⟩, true, 0, 0⟩]
    ⟨⟨1, 25, 2⟩, ⟨3, -20, 4⟩, true, 5, 6⟩ rfl rfl (by decide!)).trans (by decide!)

/-! ## C8 in binary32 arithmetic: the score counts the flags that were raised -/

theorem ticks_succ_fl (R : Rounding) (dt : ℚ) (n : Nat) (s : Scene) :
    ticks_fl R dt (n + 1) s = ticks_fl R dt n (update_physics_fl R dt s) := rfl

theorem tickList_nil_fl (R : Rounding) (s : Scene) : tickList_fl R s [] = s := rfl

theorem tickList_cons_fl (R : Rounding) (s : Scene) (dt : ℚ) (t : List ℚ) :
    tickList_fl R s (dt :: t) = tickList_fl R (update_physics_fl R dt s) t := rfl

/-- A tick of a scene whose only package stays above `5.0f`. -/
theorem tick_single_flying_fl (R : Rounding) (dt : ℚ) (s : Scene) (p : Package)
    (hps : s.packages = [p]) (ha : p.active = true) (hup : 5 < (landingPoint_fl R dt p).y) :
    (update_physics_fl R dt s).packages = [update_physics_integrate_fl R dt p] ∧
    (update_physics_fl R dt s).houses = s.houses ∧
    (update_physics_fl R dt s).deliveredPackages = s.deliveredPackages := by
  have hl : ¬ lands_fl R dt p := fun h => absurd h.2 (not_le.2 hup)
  have h2 := loop_inert_fl R dt [p] s.houses s.deliveredPackages
    (fun q hq hlq => by rw [List.mem_singleton] at hq; subst hq; exact absurd hlq hl)
  have hact : (update_physics_integrate_fl R dt p).active = true := by
    rw [integrate_active_fl, ha]
  refine ⟨?_, ?_, ?_⟩
  · rw [update_physics_packages_eq_fl, hps, List.map_cons, List.map_nil,
      package_flying_fl R dt p [] 0 ha hup, List.filter_cons, hact, if_pos rfl, List.filter_nil]
  · rw [update_physics_houses_eq_fl, hps, h2]
  · rw [update_physics_delivered_eq_fl, hps, h2]

/-- A tick of a scene whose only package lands within computed reach of its only
house. -/
theorem tick_single_landing_fl (R : Rounding) (dt : ℚ) (s : Scene) (p : Package) (h : House)
    (hps : s.packages = [p]) (hh : s.houses = [h])
    (hl : lands_fl R dt p) (he : accepts_fl R (landingPoint_fl R dt p) h) :
    (update_physics_fl R dt s).packages = [] ∧
    (update_physics_fl R dt s).houses = [{ h with hasPackage := true }] ∧
    (update_physics_fl R dt s).deliveredPackages = s.deliveredPackages + 1 := by
  have hfirst := houses_first_fl R (landingPoint_fl R dt p) [] [] h s.deliveredPackages
    (by simp) he
  simp only [List.nil_append] at hfirst
  have hina : (update_physics_package_fl R dt p [] 0).1.active = false := by
    rw [package_landed_fl R dt p [] 0 hl]
  refine ⟨?_, ?_, ?_⟩
  · rw [update_physics_packages_eq_fl, hps, List.map_cons, List.map_nil, List.filter_cons, hina]
    rfl
  · rw [update_physics_houses_eq_fl, hps, hh, loop_cons_fl, loop_nil_fl,
      package_landed_fl R dt p _ _ hl, hfirst]
  · rw [update_physics_delivered_eq_fl, hps, hh, loop_cons_fl, loop_nil_fl,
      package_landed_fl R dt p _ _ hl, hfirst]

/-- A tick of a scene without packages changes neither houses nor counter. -/
theorem tick_empty_fl (R : Rounding) (dt : ℚ) (s : Scene) (hps : s.packages = []) :
    (update_physics_fl R dt s).packages = [] ∧
    (update_physics_fl R dt s).houses = s.houses ∧
    (update_physics_fl R dt s).deliveredPackages = s.deliveredPackages := by
  refine ⟨?_, ?_, ?_⟩
  · rw [update_physics_packages_eq_fl, hps]
    rfl
  · rw [update_physics_houses_eq_fl, hps, loop_nil_fl]
  · rw [update_physics_delivered_eq_fl, hps, loop_nil_fl]

/-- Ticks of any lengths on a scene without packages change neither houses nor
counter. -/
theorem tickList_empty_fl (R : Rounding) (dts : List ℚ) (s : Scene) (hps : s.packages = []) :
    (tickList_fl R s dts).packages = [] ∧
    (tickList_fl R s dts).houses = s.houses ∧
    (tickList_fl R s dts).deliveredPackages = s.deliveredPackages := by
  induction dts generalizing s with
  | nil => exact ⟨hps, rfl, rfl⟩
  | cons dt t ih =>
    have h1 := tick_empty_fl R dt s hps
    have h2 := ih (update_physics_fl R dt s) h1.1
    rw [tickList_cons_fl]
    exact ⟨h2.1, h2.2.1.trans h1.2.1, h2.2.2.trans h1.2.2⟩

/-- A package straight above a house on the plane `y = 0` whose coordinates are
`float` values is within computed reach of it: the computed distance is `0`. -/
theorem accepts_above_fl (R : Rounding) (hzero : R.fl 0 = 0) (hsqrt : R.sqrt 0 = 0)
    (h : House) (hund : h.hasPackage = false) (hy : h.position.y = 0) (p : Vec3)
    (hx : p.x = h.position.x) (hz : p.z = h.position.z) : accepts_fl R p h := by
  refine ⟨hund, ?_⟩
  unfold glm_distance_fl Vec3.dot_fl Vec3.sub_fl
  simp only [hx, hz, hy, sub_self, hzero, mul_zero, add_zero, hsqrt]
  norm_num

/-- The fall in `float` arithmetic.  The rounding is monotone and leaves the
multiples of `2^-17` up to `128` as they are, and the tick is at least
`2^-17 / 20`.  A single active package straight above the single undelivered
house, moving down at speed at least 20 and at height at most `5 + k * 2^-17`,
lands and is delivered within `k + 1` ticks: each tick takes the height down
by at least one step of the grid. -/
theorem fall_delivers_fl (R : Rounding)
    (hmono : ∀ x y : ℚ, x ≤ y → R.fl x ≤ R.fl y)
    (hgrid : ∀ k : Int, |k| ≤ 16777216 → R.fl ((k : ℚ) / 131072) = (k : ℚ) / 131072)
    (hsqrt : R.sqrt 0 = 0)
    (dt : ℚ) (hdt : 1 / 2621440 ≤ dt) (h : House) (hund : h.hasPackage = false)
    (hy : h.position.y = 0) (hfx : R.fl h.position.x = h.position.x)
    (hfz : R.fl h.position.z = h.position.z) (k : Nat) (hk : k ≤ 13107200) :
    ∀ (s : Scene) (p : Package), s.houses = [h] → s.packages = [p] → p.active = true →
      p.position.x = h.position.x → p.position.z = h.position.z →
      p.velocity.x = 0 → p.velocity.z = 0 → p.velocity.y ≤ -20 →
      p.position.y ≤ 5 + (k : ℚ) / 131072 →
      ∃ n : Nat, n ≤ k + 1 ∧ (ticks_fl R dt n s).packages = [] ∧
        (ticks_fl R dt n s).houses = [{ h with hasPackage := true }] ∧
        (ticks_fl R dt n s).deliveredPackages = s.deliveredPackages + 1 := by
  have hzero : R.fl 0 = 0 := by
    have := hgrid 0 (by norm_num)
    simpa using this
  have hfive : R.fl 5 = 5 := by
    have := hgrid 655360 (by norm_num)
    norm_num at this
    exact this
  have htwenty : R.fl (-20) = -20 := by
    have := hgrid (-2621440) (by norm_num)
    norm_num at this
    exact this
  have hstep : R.fl (-(1 / 131072)) = -(1 / 131072) := by
    have := hgrid (-1) (by norm_num)
    norm_num at this
    norm_num
    exact this
  have hdt0 : (0 : ℚ) < dt := lt_of_lt_of_le (by norm_num) hdt
  -- what one tick does to a package of the invariant
  have hmove : ∀ p : Package, p.velocity.y ≤ -20 →
      R.fl (p.velocity.y * dt) ≤ -(1 / 131072) := by
    intro p hvy
    rw [← hstep]
    apply hmono
    nlinarith
  have hxz : ∀ p : Package, p.position.x = h.position.x → p.position.z = h.position.z →
      p.velocity.x = 0 → p.velocity.z = 0 →
      (landingPoint_fl R dt p).x = h.position.x ∧ (landingPoint_fl R dt p).z = h.position.z := by
    intro p hx hz hvx hvz
    unfold landingPoint_fl Vec3.add_fl Vec3.scale_fl
    simp only [hvx, hvz, hx, hz, zero_mul, hzero, add_zero, hfx, hfz]
    exact ⟨trivial, trivial⟩
  have hvel : ∀ p : Package, p.velocity.y ≤ -20 →
      (update_physics_integrate_fl R dt p).velocity.y ≤ -20 := by
    intro p hvy
    rw [integrate_eq_fl]
    show R.fl (p.velocity.y - R.fl (R.fl (R.fl 9.8 * dt) * 5)) ≤ -20
    have h1 : 0 ≤ R.fl 9.8 := by
      rw [← hzero]
      exact hmono _ _ (by norm_num)
    have h2 : 0 ≤ R.fl (R.fl 9.8 * dt) := by
      rw [← hzero]
      exact hmono _ _ (mul_nonneg h1 (le_of_lt hdt0))
    have h3 : 0 ≤ R.fl (R.fl (R.fl 9.8 * dt) * 5) := by
      rw [← hzero]
      exact hmono _ _ (mul_nonneg h2 (by norm_num))
    rw [← htwenty]
    apply hmono
    linarith
  induction k with
  | zero =>
    intro s p hh hps ha hx hz hvx hvz hvy hpy
    have hl : lands_fl R dt p := by
      refine ⟨ha, ?_⟩
      rw [landingPoint_y_fl, ← hfive]
      apply hmono
      have := hmove p hvy
      simp only [Nat.cast_zero, zero_div, add_zero] at hpy
      linarith
    have hp := hxz p hx hz hvx hvz
    exact ⟨1, le_refl _, tick_single_landing_fl R dt s p h hps hh hl
      (accepts_above_fl R hzero hsqrt h hund hy _ hp.1 hp.2)⟩
  | succ k ih =>
    intro s p hh hps ha hx hz hvx hvz hvy hpy
    have hp := hxz p hx hz hvx hvz
    by_cases hland : (landingPoint_fl R dt p).y ≤ 5
    · exact ⟨1, by omega, tick_single_landing_fl R dt s p h hps hh ⟨ha, hland⟩
        (accepts_above_fl R hzero hsqrt h hund hy _ hp.1 hp.2)⟩
    · have hup : 5 < (landingPoint_fl R dt p).y := not_le.1 hland
      have ht := tick_single_flying_fl R dt s p hps ha hup
      have hg : R.fl (5 + (k : ℚ) / 131072) = 5 + (k : ℚ) / 131072 := by
        have hk2 : |(655360 + (k : Int))| ≤ 16777216 := by
          rw [abs_of_nonneg (by omega)]
          omega
        have := hgrid (655360 + (k : Int)) hk2
        have e : (((655360 + (k : Int)) : Int) : ℚ) / 131072 = 5 + (k : ℚ) / 131072 := by
          push_cast
          ring
        rw [e] at this
        exact this
      have hpy2 : (update_physics_integrate_fl R dt p).position.y ≤ 5 + (k : ℚ) / 131072 := by
        rw [integrate_position_fl, landingPoint_y_fl, ← hg]
        apply hmono
        have := hmove p hvy
        push_cast at hpy
        linarith
      have hx2 : (update_physics_integrate_fl R dt p).position.x = h.position.x := by
        rw [integrate_position_fl]
        exact hp.1
      have hz2 : (update_physics_integrate_fl R dt p).position.z = h.position.z := by
        rw [integrate_position_fl]
        exact hp.2
      obtain ⟨n, hn, h1, h2, h3⟩ := ih (by omega) (update_physics_fl R dt s)
        (update_physics_integrate_fl R dt p)
        (by rw [ht.2.1, hh]) ht.1 (by rw [integrate_active_fl, ha]) hx2 hz2 hvx hvz
        (hvel p hvy) hpy2
      refine ⟨n + 1, by omega, ?_, ?_, ?_⟩
      · rw [ticks_succ_fl, h1]
      · rw [ticks_succ_fl, h2]
      · rw [ticks_succ_fl, h3, ht.2.2]

/-- One tick of `2^-27` s in binary32 leaves the package just dropped from
height 115 as it is: `105 + fl (-20 * 2^-27)` rounds back to `105` and
`-20 - fl (fl (9.8f * 2^-27) * 5)` rounds back to `-20`. -/
theorem tick_stuck_fl (s : Scene)
    (hps : s.packages = [⟨⟨0, 105, 0⟩, ⟨0, -20, 0⟩, true, 0, 0⟩]) :
    (update_physics_fl f32 (1 / 134217728) s).packages
      = [⟨⟨0, 105, 0⟩, ⟨0, -20, 0⟩, true, 0, 0⟩] := by
  rw [update_physics_packages_eq_fl, hps]
  decide!

/-- Any number of ticks of `2^-27` s in binary32 leaves that package as it is. -/
theorem ticks_stuck_fl (n : Nat) :
    ∀ s : Scene, s.packages = [⟨⟨0, 105, 0⟩, ⟨0, -20, 0⟩, true, 0, 0⟩] →
      (ticks_fl f32 (1 / 134217728) n s).packages
        = [⟨⟨0, 105, 0⟩, ⟨0, -20, 0⟩, true, 0, 0⟩] := by
  induction n with
  | zero => exact fun s hps => hps
  | succ n ih =>
    intro s hps
    rw [ticks_succ_fl]
    exact ih _ (tick_stuck_fl s hps)

/-- C9, the claim as stated fails in `float` arithmetic: with the airship at
`(0, 115, 0)` above the only house `(0, 0, 0)`, undelivered, and the tick length
`dt = 2^-27 > 0` (a `float`), there is no number `n` of `update_physics` calls
after which the collection is empty: every tick leaves the dropped package at
height `105.0f` with `velocity.y = -20.0f`. -/
theorem C9_small_tick_counterexample :
    (0 : ℚ) < 1 / 134217728 ∧ f32.fl (1 / 134217728) = 1 / 134217728 ∧
    ¬ ∃ n : Nat,
      (ticks_fl f32 (1 / 134217728) n
        (drop_package_fl f32 0
          { sceneOf [⟨⟨0, 0, 0⟩, false, 0⟩] [] 0 with airshipPosition := ⟨0, 115, 0⟩ })).packages
        = [] := by
  refine ⟨by norm_num, by decide!, ?_⟩
  rintro ⟨n, hn⟩
  have h := ticks_stuck_fl n
    (drop_package_fl f32 0
      { sceneOf [⟨⟨0, 0, 0⟩, false, 0⟩] [] 0 with airshipPosition := ⟨0, 115, 0⟩ })
    (by decide!)
  rw [hn] at h
  exact absurd h (by simp)

/-- C9, amended: in `float` arithmetic whose rounding is monotone, leaves the
multiples of `2^-17` up to `128` as they are and has `sqrt 0 = 0` (as binary32
does), with the airship at height 115 straight above the only house of the
scene, the house undelivered, on the plane `y = 0` and with `float` coordinates,
and no live package: after one `drop_package`, for every tick length
`dt >= 2^-17 / 20` (about `3.8e-7` s) there is a number `n <= 13107201` of
`update_physics(dt)` calls after which the collection is empty, the house has
`hasPackage == true` and `deliveredPackages` is one more than before; ticks of
any lengths after that change neither the flag nor the score. -/
theorem C9_delivery_for_resolved_ticks (R : Rounding)
    (hmono : ∀ x y : ℚ, x ≤ y → R.fl x ≤ R.fl y)
    (hgrid : ∀ k : Int, |k| ≤ 16777216 → R.fl ((k : ℚ) / 131072) = (k : ℚ) / 131072)
    (hsqrt : R.sqrt 0 = 0)
    (deltaTime : ℚ) (s : Scene) (h : House) (rnd : Nat)
    (hdt : 1 / 2621440 ≤ deltaTime) (hh : s.houses = [h]) (hund : h.hasPackage = false)
    (hy : h.position.y = 0) (hfx : R.fl h.position.x = h.position.x)
    (hfz : R.fl h.position.z = h.position.z)
    (hair : s.airshipPosition = ⟨h.position.x, 115, h.position.z⟩)
    (hps : s.packages = []) :
    ∃ n : Nat, n ≤ 13107201 ∧
      (ticks_fl R deltaTime n (drop_package_fl R rnd s)).packages = [] ∧
      (ticks_fl R deltaTime n (drop_package_fl R rnd s)).houses
        = [{ h with hasPackage := true }] ∧
      (ticks_fl R deltaTime n (drop_package_fl R rnd s)).deliveredPackages
        = s.deliveredPackages + 1 ∧
      ∀ dts : List ℚ,
        (tickList_fl R (ticks_fl R deltaTime n (drop_package_fl R rnd s)) dts).houses
            = [{ h with hasPackage := true }] ∧
        (tickList_fl R (ticks_fl R deltaTime n (drop_package_fl R rnd s)) dts).deliveredPackages
            = s.deliveredPackages + 1 := by
  have hzero : R.fl 0 = 0 := by
    have := hgrid 0 (by norm_num)
    simpa using this
  have h105 : R.fl 105 = 105 := by
    have := hgrid 13762560 (by norm_num)
    norm_num at this
    exact this
  have hdrop : (drop_package_fl R rnd s).packages
      = [{ position := ⟨h.position.x, 105, h.position.z⟩
           velocity := ⟨0, -20, 0⟩
           active := true
           rotation := 0
           rotationSpeed := R.fl (R.fl (((rnd % 100 : Nat) : ℚ) / 100) * 2) }] := by
    unfold drop_package_fl Vec3.add_fl
    simp only [hps, hair, List.nil_append, add_zero, hfx, hfz]
    norm_num
    exact h105
  obtain ⟨n, hn, h1, h2, h3⟩ := fall_delivers_fl R hmono hgrid hsqrt deltaTime hdt h hund hy
    hfx hfz 13107200 (le_refl _) (drop_package_fl R rnd s) _ hh hdrop rfl rfl rfl rfl rfl
    (le_refl _) (by norm_num)
  refine ⟨n, hn, h1, h2, h3, ?_⟩
  intro dts
  have hr := tickList_empty_fl R dts _ h1
  exact ⟨hr.2.1.trans h2, hr.2.2.trans h3⟩

/-- The run of a drop above a house in binary32, evaluated with ticks of
`2^-6` s (`64` frames per second): after 106 ticks the package is still in the
air and the house undelivered; the 107th tick lands it and scores. -/
theorem end_to_end_example_fl :
    (ticks_fl f32 (1 / 64) 106 (drop_package_fl f32 7
        { sceneOf [⟨⟨3, 0, 4⟩, false, 2⟩] [] 0
            with airshipPosition := ⟨3, 115, 4⟩ })).packages.length = 1 ∧
    (ticks_fl f32 (1 / 64) 106 (drop_package_fl f32 7
        { sceneOf [⟨⟨3, 0, 4⟩, false, 2⟩] [] 0 with airshipPosition := ⟨3, 115, 4⟩ })).houses
          = [⟨⟨3, 0, 4⟩, false, 2⟩] ∧
    (ticks_fl f32 (1 / 64) 107 (drop_package_fl f32 7
        { sceneOf [⟨⟨3, 0, 4⟩, false, 2⟩] [] 0 with airshipPosition := ⟨3, 115, 4⟩ })).packages
          = [] ∧
    (ticks_fl f32 (1 / 64) 107 (drop_package_fl f32 7
        { sceneOf [⟨⟨3, 0, 4⟩, false, 2⟩] [] 0 with airshipPosition := ⟨3, 115, 4⟩ })).houses
          = [⟨⟨3, 0, 4⟩, true, 2⟩] ∧
    (ticks_fl f32 (1 / 64) 107 (drop_package_fl f32 7
        { sceneOf [⟨⟨3, 0, 4⟩, false, 2⟩] [] 0
            with airshipPosition := ⟨3, 115, 4⟩ })).deliveredPackages = 1 := by
  decide!

/-! ## The length of a normalized vector -/

/-- An accurate rounding of a non-negative number: two-sided bound, and the result
is not negative. -/
theorem fl_bounds (R : Rounding) (hR : R.Accurate) (z : ℚ) (hz : 0 ≤ z) :
    z - (z / 16777216 + 1 / 2 ^ 150) ≤ R.fl z ∧
    R.fl z ≤ z + (z / 16777216 + 1 / 2 ^ 150) ∧ 0 ≤ R.fl z := by
  have h := hR.2.2.1 z
  rw [abs_of_nonneg hz] at h
  obtain ⟨h1, h2⟩ := abs_le.1 h
  exact ⟨by linarith only [h1], by linarith only [h2], fl_nonneg R hR z hz⟩

/-- The computed `dot (v, v)` against the exact sum of squares: relative error
at most `2.5e-7`, absolute error `2^-147` from underflow. -/
theorem dot_self_bounds (R : Rounding) (hR : R.Accurate) (a b c : ℚ) :
    0 ≤ R.fl (R.fl (R.fl (a * a) + R.fl (b * b)) + R.fl (c * c)) ∧
    R.fl (R.fl (R.fl (a * a) + R.fl (b * b)) + R.fl (c * c))
      ≤ (a * a + b * b + c * c) * (1 + 1 / 4000000) + 1 / 2 ^ 147 ∧
    (a * a + b * b + c * c) * (1 - 1 / 4000000) - 1 / 2 ^ 147
      ≤ R.fl (R.fl (R.fl (a * a) + R.fl (b * b)) + R.fl (c * c)) := by
  have hA := mul_self_nonneg a
  have hB := mul_self_nonneg b
  have hC := mul_self_nonneg c
  obtain ⟨qa1, qa2, qa0⟩ := fl_bounds R hR (a * a) hA
  obtain ⟨qb1, qb2, qb0⟩ := fl_bounds R hR (b * b) hB
  obtain ⟨qc1, qc2, qc0⟩ := fl_bounds R hR (c * c) hC
  generalize R.fl (a * a) = qa at *
  generalize R.fl (b * b) = qb at *
  generalize R.fl (c * c) = qc at *
  obtain ⟨s1, s2, s0⟩ := fl_bounds R hR (qa + qb) (add_nonneg qa0 qb0)
  generalize R.fl (qa + qb) = s at *
  obtain ⟨d1, d2, d0⟩ := fl_bounds R hR (s + qc) (add_nonneg s0 qc0)
  generalize R.fl (s + qc) = d at *
  generalize a * a = A at *
  generalize b * b = B at *
  generalize c * c = C at *
  have e150 : (0 : ℚ) < 1 / 2 ^ 150 := by positivity
  have e147 : (1 : ℚ) / 2 ^ 147 = 8 * (1 / 2 ^ 150) := by norm_num
  rw [e147]
  generalize (1 : ℚ) / 2 ^ 150 = η at *
  refine ⟨d0, ?_, ?_⟩
  · linarith only [qa2, qb2, qc2, s2, d2, hA, hB, hC, e150]
  · linarith only [qa1, qb1, qc1, s1, d1, hA, hB, hC, e150]

/-- The computed reciprocal of a computed length between `0.00009999` and `2^61`:
its product with the length is within `6.25e-8` of `1`, and its square is at most
`2^27`. -/
theorem inv_bounds (R : Rounding) (hR : R.Accurate) (L : ℚ)
    (hL1 : 9999 / 100000000 ≤ L) (hL2 : L ≤ 2 ^ 61) :
    0 ≤ R.fl (1 / L) ∧ 1 - 1 / 16000000 ≤ R.fl (1 / L) * L ∧
    R.fl (1 / L) * L ≤ 1 + 1 / 16000000 ∧ R.fl (1 / L) ^ 2 ≤ 2 ^ 27 := by
  have L0 : 0 < L := lt_of_lt_of_le (by norm_num) hL1
  have hLne : L ≠ 0 := ne_of_gt L0
  have hz0 : 0 < 1 / L := by positivity
  obtain ⟨i1, i2, i0⟩ := fl_bounds R hR (1 / L) (le_of_lt hz0)
  generalize R.fl (1 / L) = inv at *
  have hL3 : L / 2 ^ 150 ≤ 1 / 2 ^ 89 := by
    rw [div_le_iff₀ (by positivity)]
    have : (1 : ℚ) / 2 ^ 89 * 2 ^ 150 = 2 ^ 61 := by norm_num
    rw [this]
    exact hL2
  have hL4 : (0 : ℚ) ≤ L / 2 ^ 150 := by positivity
  have hk1 : 1 - 1 / 16000000 ≤ inv * L := by
    have h := mul_le_mul_of_nonneg_right i1 (le_of_lt L0)
    have e : (1 / L - (1 / L / 16777216 + 1 / 2 ^ 150)) * L
        = 1 - 1 / 16777216 - L / 2 ^ 150 := by
      field_simp
      ring
    rw [e] at h
    have c : (1 : ℚ) - 1 / 16000000 ≤ 1 - 1 / 16777216 - 1 / 2 ^ 89 := by norm_num
    linarith only [h, hL3, c]
  have hk2 : inv * L ≤ 1 + 1 / 16000000 := by
    have h := mul_le_mul_of_nonneg_right i2 (le_of_lt L0)
    have e : (1 / L + (1 / L / 16777216 + 1 / 2 ^ 150)) * L
        = 1 + 1 / 16777216 + L / 2 ^ 150 := by
      field_simp
      ring
    rw [e] at h
    have c : (1 : ℚ) + 1 / 16777216 + 1 / 2 ^ 89 ≤ 1 + 1 / 16000000 := by norm_num
    linarith only [h, hL3, c]
  have hinv : inv ≤ 10002 := by
    by_contra hcon
    have h1 : (10002 : ℚ) ≤ inv := le_of_lt (not_le.1 hcon)
    have h2 : (10002 : ℚ) * (9999 / 100000000) ≤ inv * L :=
      mul_le_mul h1 hL1 (by norm_num) i0
    have c : (1 : ℚ) + 1 / 16000000 < 10002 * (9999 / 100000000) := by norm_num
    linarith only [h2, hk2, c]
  refine ⟨i0, hk1, hk2, ?_⟩
  calc inv ^ 2 ≤ (10002 : ℚ) ^ 2 := pow_le_pow_left₀ i0 hinv 2
    _ ≤ 2 ^ 27 := by norm_num

/-- The computed square of a computed component of size about `1`. -/
theorem component_bounds (R : Rounding) (hR : R.Accurate) (y : ℚ)
    (hy : y ^ 2 ≤ 1 + 7 / 10000000) :
    |R.fl y * R.fl y - y ^ 2| ≤ 13 / 100000000 := by
  have hya : |y| ≤ 1001 / 1000 := by
    apply abs_le_of_sq_le_sq _ (by norm_num)
    refine hy.trans ?_
    norm_num
  have hya2 := hya
  have h := hR.2.2.1 y
  have hg : |R.fl y - y| ≤ 6 / 100000000 := by
    refine h.trans ?_
    have h1 : |y| / 16777216 ≤ (1001 / 1000) / 16777216 :=
      div_le_div_of_nonneg_right hya2 (by norm_num)
    have e : ((1001 : ℚ) / 1000) / 16777216 + 1 / 2 ^ 150 ≤ 6 / 100000000 := by norm_num
    linarith only [h1, e]
  have hsum : |R.fl y + y| ≤ 21 / 10 := by
    have e : R.fl y + y = (R.fl y - y) + 2 * y := by ring
    rw [e]
    refine (abs_add _ _).trans ?_
    rw [abs_mul, abs_of_pos (by norm_num : (0 : ℚ) < 2)]
    linarith only [hg, hya2]
  have e : R.fl y * R.fl y - y ^ 2 = (R.fl y - y) * (R.fl y + y) := by ring
  rw [e, abs_mul]
  calc |R.fl y - y| * |R.fl y + y| ≤ 6 / 100000000 * (21 / 10) :=
        mul_le_mul hg hsum (abs_nonneg _) (by norm_num)
    _ ≤ 13 / 100000000 := by norm_num

/-- The algebra of the normalization: a sum of squares `S` whose computed value
`d` has the computed root `L`, scaled by the square of the computed reciprocal. -/
theorem scaled_sum_bounds (S d L inv : ℚ) (hS : 0 ≤ S)
    (dU : d ≤ S * (1 + 1 / 4000000) + 1 / 2 ^ 147)
    (dL : S * (1 - 1 / 4000000) - 1 / 2 ^ 147 ≤ d)
    (L1 : L ^ 2 * (1 - 1 / 10000000) ^ 2 ≤ d) (L2 : d ≤ L ^ 2 * (1 + 1 / 10000000) ^ 2)
    (hk0 : 0 ≤ inv * L) (hk1 : 1 - 1 / 16000000 ≤ inv * L)
    (hk2 : inv * L ≤ 1 + 1 / 16000000) (hI : inv ^ 2 ≤ 2 ^ 27) :
    1 - 7 / 10000000 ≤ S * inv ^ 2 ∧ S * inv ^ 2 ≤ 1 + 7 / 10000000 := by
  have hI0 : 0 ≤ inv ^ 2 := sq_nonneg inv
  have kk2 : (inv * L) ^ 2 ≤ (1 + 1 / 16000000) ^ 2 := pow_le_pow_left₀ hk0 hk2 2
  have kk1 : (1 - 1 / 16000000) ^ 2 ≤ (inv * L) ^ 2 :=
    pow_le_pow_left₀ (by norm_num) hk1 2
  have dI2 : d * inv ^ 2 ≤ 1 + 4 / 10000000 := by
    calc d * inv ^ 2 ≤ L ^ 2 * (1 + 1 / 10000000) ^ 2 * inv ^ 2 :=
          mul_le_mul_of_nonneg_right L2 hI0
      _ = (inv * L) ^ 2 * (1 + 1 / 10000000) ^ 2 := by ring
      _ ≤ (1 + 1 / 16000000) ^ 2 * (1 + 1 / 10000000) ^ 2 :=
          mul_le_mul_of_nonneg_right kk2 (by norm_num)
      _ ≤ 1 + 4 / 10000000 := by norm_num
  have dI1 : 1 - 4 / 10000000 ≤ d * inv ^ 2 := by
    calc (1 : ℚ) - 4 / 10000000 ≤ (1 - 1 / 16000000) ^ 2 * (1 - 1 / 10000000) ^ 2 := by
          norm_num
      _ ≤ (inv * L) ^ 2 * (1 - 1 / 10000000) ^ 2 :=
          mul_le_mul_of_nonneg_right kk1 (by norm_num)
      _ = L ^ 2 * (1 - 1 / 10000000) ^ 2 * inv ^ 2 := by ring
      _ ≤ d * inv ^ 2 := mul_le_mul_of_nonneg_right L1 hI0
  have hη : (1 : ℚ) / 2 ^ 147 * inv ^ 2 ≤ 1 / 2 ^ 120 := by
    calc (1 : ℚ) / 2 ^ 147 * inv ^ 2 ≤ 1 / 2 ^ 147 * 2 ^ 27 :=
          mul_le_mul_of_nonneg_left hI (by positivity)
      _ = 1 / 2 ^ 120 := by norm_num
  have hSI : 0 ≤ S * inv ^ 2 := mul_nonneg hS hI0
  have h1 := mul_le_mul_of_nonneg_right dL hI0
  have h2 := mul_le_mul_of_nonneg_right dU hI0
  have e1 : (S * (1 - 1 / 4000000) - 1 / 2 ^ 147) * inv ^ 2
      = S * inv ^ 2 * (1 - 1 / 4000000) - 1 / 2 ^ 147 * inv ^ 2 := by ring
  have e2 : (S * (1 + 1 / 4000000) + 1 / 2 ^ 147) * inv ^ 2
      = S * inv ^ 2 * (1 + 1 / 4000000) + 1 / 2 ^ 147 * inv ^ 2 := by ring
  rw [e1] at h1
  rw [e2] at h2
  generalize S * inv ^ 2 = X at *
  generalize d * inv ^ 2 = Y at *
  generalize (1 : ℚ) / 2 ^ 147 * inv ^ 2 = Z at *
  have c120 : (1 : ℚ) / 2 ^ 120 ≤ 1 / 100000000 := by norm_num
  constructor
  · linarith only [h2, dI1, hη, c120, hSI]
  · linarith only [h1, dI2, hη, c120, hSI]

/-- The normalization of `glm::normalize` on components: with an accurate
rounding, for a vector `(a, b, c)` with components up to `2^60` whose computed
length exceeds `0.0001f`, the squared length of the computed unit vector is
within `2e-6` of `1`. -/
theorem normalize_core (R : Rounding) (hR : R.Accurate) (a b c : ℚ)
    (ha : |a| ≤ 2 ^ 60) (hb : |b| ≤ 2 ^ 60) (hc : |c| ≤ 2 ^ 60)
    (hlen : R.fl 0.0001
      < R.sqrt (R.fl (R.fl (R.fl (a * a) + R.fl (b * b)) + R.fl (c * c)))) :
    |R.fl (a * R.fl (1 / R.sqrt (R.fl (R.fl (R.fl (a * a) + R.fl (b * b)) + R.fl (c * c)))))
        * R.fl (a * R.fl (1 / R.sqrt (R.fl (R.fl (R.fl (a * a) + R.fl (b * b)) + R.fl (c * c)))))
      + R.fl (b * R.fl (1 / R.sqrt (R.fl (R.fl (R.fl (a * a) + R.fl (b * b)) + R.fl (c * c)))))
        * R.fl (b * R.fl (1 / R.sqrt (R.fl (R.fl (R.fl (a * a) + R.fl (b * b)) + R.fl (c * c)))))
      + R.fl (c * R.fl (1 / R.sqrt (R.fl (R.fl (R.fl (a * a) + R.fl (b * b)) + R.fl (c * c)))))
        * R.fl (c * R.fl (1 / R.sqrt (R.fl (R.fl (R.fl (a * a) + R.fl (b * b)) + R.fl (c * c)))))
      - 1| ≤ 1 / 500000 := by
  have hτ : (9999 : ℚ) / 100000000 ≤ R.fl 0.0001 := by
    have h := (fl_bounds R hR 0.0001 (by norm_num)).1
    have e : (9999 : ℚ) / 100000000 ≤ 0.0001 - (0.0001 / 16777216 + 1 / 2 ^ 150) := by
      norm_num
    linarith only [h, e]
  have hA2 : a * a ≤ 2 ^ 60 * 2 ^ 60 := by
    have h := abs_mul_abs_self a
    have := mul_le_mul ha ha (abs_nonneg a) (by norm_num)
    linarith only [h, this]
  have hB2 : b * b ≤ 2 ^ 60 * 2 ^ 60 := by
    have h := abs_mul_abs_self b
    have := mul_le_mul hb hb (abs_nonneg b) (by norm_num)
    linarith only [h, this]
  have hC2 : c * c ≤ 2 ^ 60 * 2 ^ 60 := by
    have h := abs_mul_abs_self c
    have := mul_le_mul hc hc (abs_nonneg c) (by norm_num)
    linarith only [h, this]
  have hS0 : 0 ≤ a * a + b * b + c * c :=
    add_nonneg (add_nonneg (mul_self_nonneg a) (mul_self_nonneg b)) (mul_self_nonneg c)
  obtain ⟨d0, dU, dL⟩ := dot_self_bounds R hR a b c
  generalize R.fl (R.fl (R.fl (a * a) + R.fl (b * b)) + R.fl (c * c)) = d at *
  have hdpos : 0 < d := by
    rcases lt_or_eq_of_le d0 with h | h
    · exact h
    · rw [← h, hR.2.2.2.1] at hlen
      linarith only [hlen, hτ]
  obtain ⟨L0, L1, L2⟩ := hR.2.2.2.2 d hdpos
  generalize R.sqrt d = L at *
  have hLlow : (9999 : ℚ) / 100000000 ≤ L := by linarith only [hlen, hτ]
  have hLup : L ≤ 2 ^ 61 := by
    by_contra hcon
    have h1 : (2 : ℚ) ^ 61 ≤ L := le_of_lt (not_le.1 hcon)
    have h2 : (2 : ℚ) ^ 61 * 2 ^ 61 ≤ L * L := mul_le_mul h1 h1 (by norm_num) (le_of_lt L0)
    have h3 : L ^ 2 = L * L := by ring
    rw [h3] at L1
    generalize L * L = LL at *
    generalize a * a = A at *
    generalize b * b = B at *
    generalize c * c = C at *
    norm_num at h2 dU hA2 hB2 hC2 L1
    linarith only [h2, dU, hA2, hB2, hC2, L1]
  obtain ⟨i0, hk1, hk2, hI⟩ := inv_bounds R hR L hLlow hLup
  generalize R.fl (1 / L) = inv at *
  obtain ⟨hX1, hX2⟩ := scaled_sum_bounds (a * a + b * b + c * c) d L inv hS0 dU dL L1 L2
    (mul_nonneg i0 (le_of_lt L0)) hk1 hk2 hI
  have eX : (a * a + b * b + c * c) * inv ^ 2
      = (a * inv) ^ 2 + (b * inv) ^ 2 + (c * inv) ^ 2 := by ring
  rw [eX] at hX1 hX2
  have pa : 0 ≤ (a * inv) ^ 2 := sq_nonneg _
  have pb : 0 ≤ (b * inv) ^ 2 := sq_nonneg _
  have pc : 0 ≤ (c * inv) ^ 2 := sq_nonneg _
  obtain ⟨a1, a2⟩ := abs_le.1 (component_bounds R hR (a * inv) (by linarith only [hX2, pb, pc]))
  obtain ⟨b1, b2⟩ := abs_le.1 (component_bounds R hR (b * inv) (by linarith only [hX2, pa, pc]))
  obtain ⟨c1, c2⟩ := abs_le.1 (component_bounds R hR (c * inv) (by linarith only [hX2, pa, pb]))
  rw [abs_le]
  constructor
  · linarith only [hX1, a1, b1, c1]
  · linarith only [hX2, a2, b2, c2]

/-- The length of `glm::normalize(v)` in `float` arithmetic: with an accurate
rounding, for a vector with components up to `2^60` whose computed length exceeds
`0.0001f`, the squared length of `glm::normalize(v)` is within `2e-6` of `1`. -/
theorem normalize_near_unit (R : Rounding) (hR : R.Accurate) (v : GVec3 ℚ)
    (hx : |v.x| ≤ 2 ^ 60) (hy : |v.y| ≤ 2 ^ 60) (hz : |v.z| ≤ 2 ^ 60)
    (hlen : R.fl 0.0001 < glm_length_fl R v) :
    |GVec3.dot (glm_normalize_fl R v) (glm_normalize_fl R v) - 1| ≤ 1 / 500000 :=
  normalize_core R hR v.x v.y v.z hx hy hz hlen

/-! ## The size of the tangent before it is normalized -/

/-- C9 witness, in binary32 itself: rounding to binary32 is monotone and leaves
the multiples of `2^-17` up to `128` as they are, and `sqrtf 0 = 0`; the house at
`(3, 0, 4)`, the airship at `(3, 115, 4)`, ticks of `2^-6` s. -/
theorem C9_delivery_for_resolved_ticks_witness :
    ∃ n : Nat, n ≤ 13107201 ∧
      (ticks_fl f32 (1 / 64) n (drop_package_fl f32 7
        { sceneOf [⟨⟨3, 0, 4⟩, false, 2⟩] [] 0 with airshipPosition := ⟨3, 115, 4⟩ })).packages
          = [] ∧
      (ticks_fl f32 (1 / 64) n (drop_package_fl f32 7
        { sceneOf [⟨⟨3, 0, 4⟩, false, 2⟩] [] 0 with airshipPosition := ⟨3, 115, 4⟩ })).houses
          = [⟨⟨3, 0, 4⟩, true, 2⟩] ∧
      (ticks_fl f32 (1 / 64) n (drop_package_fl f32 7
        { sceneOf [⟨⟨3, 0, 4⟩, false, 2⟩] [] 0
            with airshipPosition := ⟨3, 115, 4⟩ })).deliveredPackages = 0 + 1 ∧
      ∀ dts : List ℚ,
        (tickList_fl f32 (ticks_fl f32 (1 / 64) n (drop_package_fl f32 7
          { sceneOf [⟨⟨3, 0, 4⟩, false, 2⟩] [] 0 with airshipPosition := ⟨3, 115, 4⟩ }))
          dts).houses = [⟨⟨3, 0, 4⟩, true, 2⟩] ∧
        (tickList_fl f32 (ticks_fl f32 (1 / 64) n (drop_package_fl f32 7
          { sceneOf [⟨⟨3, 0, 4⟩, false, 2⟩] [] 0 with airshipPosition := ⟨3, 115, 4⟩ }))
          dts).deliveredPackages = 0 + 1 :=
  C9_delivery_for_resolved_ticks f32 roundF32_mono roundF32_grid sqrtF32_zero (1 / 64)
    { sceneOf [⟨⟨3, 0, 4⟩, false, 2⟩] [] 0 with airshipPosition := ⟨3, 115, 4⟩ }
    ⟨⟨3, 0, 4⟩, false, 2⟩ 7 (by norm_num) rfl rfl rfl (by decide!) (by decide!) rfl rfl

/-! ## C14 in binary32 arithmetic: the tangent solver -/

theorem generate_airship_ring_eq_fl (R : Rounding) (P : CMath) (numStacks numSectors : Nat)
    (vertices : List (Vertex ℚ)) (i : Nat) :
    generate_airship_ring_fl R P numStacks numSectors vertices i
      = vertices ++ (List.range numSectors).flatMap
          (generate_airship_cell_fl R P numStacks numSectors i) := by
  unfold generate_airship_ring_fl
  rw [foldl_push]

theorem generate_airship_eq_fl (R : Rounding) (P : CMath) (vertices : List (Vertex ℚ)) :
    generate_airship_fl R P vertices
      = vertices ++ (List.range 8).flatMap (generate_airship_ring_fl R P 8 16 []) := by
  unfold generate_airship_fl
  refine foldl_push_of _ ?_ _ vertices
  intro vs i
  rw [generate_airship_ring_eq_fl, generate_airship_ring_eq_fl, List.nil_append]

/-- The vertices of the stack `i < 8` and the sector `j < 16` are vertices of
the mesh. -/
theorem generate_airship_cell_subset_fl (R : Rounding) (P : CMath) (i j : Nat) (hi : i < 8)
    (hj : j < 16) (v : Vertex ℚ) (hv : v ∈ generate_airship_cell_fl R P 8 16 i j) :
    v ∈ generate_airship_fl R P [] := by
  rw [generate_airship_eq_fl, List.nil_append]
  refine List.mem_flatMap.2 ⟨i, List.mem_range.2 hi, ?_⟩
  rw [generate_airship_ring_eq_fl, List.nil_append]
  exact List.mem_flatMap.2 ⟨j, List.mem_range.2 hj, hv⟩

/-- Every vertex of a cell of the hull sits at a point of the ellipsoid at two of
the angles of the cell and carries the normalized position as its normal. -/
theorem generate_airship_cell_normal_fl (R : Rounding) (P : CMath) (i j : Nat) :
    ∀ v ∈ generate_airship_cell_fl R P 8 16 i j,
      (∃ a b : Nat, a ≤ i + 1 ∧ b ≤ j + 1 ∧
        v.position
          = generate_airship_point_fl R P (airship_phi R P 8 a) (airship_theta R P 16 b)) ∧
      v.normal = glm_normalize_fl R v.position := by
  intro v hv
  unfold generate_airship_cell_fl at hv
  simp only [] at hv
  have h11 : ∃ a b : Nat, a ≤ i + 1 ∧ b ≤ j + 1 ∧
      generate_airship_point_fl R P (airship_phi R P 8 i) (airship_theta R P 16 j)
        = generate_airship_point_fl R P (airship_phi R P 8 a) (airship_theta R P 16 b) :=
    ⟨i, j, Nat.le_succ i, Nat.le_succ j, rfl⟩
  have h12 : ∃ a b : Nat, a ≤ i + 1 ∧ b ≤ j + 1 ∧
      generate_airship_point_fl R P (airship_phi R P 8 i) (airship_theta R P 16 (j + 1))
        = generate_airship_point_fl R P (airship_phi R P 8 a) (airship_theta R P 16 b) :=
    ⟨i, j + 1, Nat.le_succ i, le_refl _, rfl⟩
  have h21 : ∃ a b : Nat, a ≤ i + 1 ∧ b ≤ j + 1 ∧
      generate_airship_point_fl R P (airship_phi R P 8 (i + 1)) (airship_theta R P 16 j)
        = generate_airship_point_fl R P (airship_phi R P 8 a) (airship_theta R P 16 b) :=
    ⟨i + 1, j, le_refl _, Nat.le_succ j, rfl⟩
  have h22 : ∃ a b : Nat, a ≤ i + 1 ∧ b ≤ j + 1 ∧
      generate_airship_point_fl R P (airship_phi R P 8 (i + 1)) (airship_theta R P 16 (j + 1))
        = generate_airship_point_fl R P (airship_phi R P 8 a) (airship_theta R P 16 b) :=
    ⟨i + 1, j + 1, le_refl _, le_refl _, rfl⟩
  split at hv
  · simp only [List.mem_cons, List.mem_singleton, List.not_mem_nil, or_false] at hv
    rcases hv with h | h | h
    · rw [h]
      exact ⟨h11, rfl⟩
    · rw [h]
      exact ⟨h12, rfl⟩
    · rw [h]
      exact ⟨h21, rfl⟩
  · split at hv
    · simp only [List.mem_cons, List.mem_singleton, List.not_mem_nil, or_false] at hv
      rcases hv with h | h | h
      · rw [h]
        exact ⟨h21, rfl⟩
      · rw [h]
        exact ⟨h12, rfl⟩
      · rw [h]
        exact ⟨h22, rfl⟩
    · simp only [List.mem_cons, List.mem_singleton, List.not_mem_nil, or_false] at hv
      rcases hv with h | h | h | h | h | h
      · rw [h]
        exact ⟨h11, rfl⟩
      · rw [h]
        exact ⟨h12, rfl⟩
      · rw [h]
        exact ⟨h22, rfl⟩
      · rw [h]
        exact ⟨h11, rfl⟩
      · rw [h]
        exact ⟨h22, rfl⟩
      · rw [h]
        exact ⟨h21, rfl⟩

/-- A coordinate `r * s * c` of a point of the ellipsoid, computed with two
roundings in the arithmetic of the library and one conversion to `float`, is
within `3e-4` of the exact product, for a radius up to `20` and factors up to
`1`. -/
theorem coord_near (R W : Rounding) (hR : R.Accurate) (hW : W.Accurate) (r s c : ℚ)
    (hr0 : 0 ≤ r) (hr : r ≤ 20) (hs : |s| ≤ 1) (hc : |c| ≤ 1) :
    |R.fl (W.fl (W.fl (r * s) * c)) - r * s * c| ≤ 3 / 10000 ∧ |r * s * c| ≤ r := by
  have hrs : |r * s| ≤ r := by
    rw [abs_mul, abs_of_nonneg hr0]
    exact mul_le_of_le_one_right hr0 hs
  have h1 := fl_near W hW (r * s) (by linarith only [hrs, hr])
  obtain ⟨p1, p2⟩ := abs_le.1 hrs
  generalize r * s = X at *
  obtain ⟨a1, a2⟩ := abs_le.1 h1
  generalize W.fl X = a at *
  have ha : |a| ≤ r + 1 / 10000 := abs_le.2 ⟨by linarith only [a1, p1], by linarith only [a2, p2]⟩
  have hac : |a * c| ≤ r + 1 / 10000 := by
    rw [abs_mul]
    exact le_trans (mul_le_of_le_one_right (abs_nonneg a) hc) ha
  have hXc : |X * c| ≤ r := by
    rw [abs_mul]
    exact le_trans (mul_le_of_le_one_right (abs_nonneg X) hc) hrs
  have hdiff : |a * c - X * c| ≤ 1 / 10000 := by
    rw [← sub_mul, abs_mul]
    exact le_trans (mul_le_of_le_one_right (abs_nonneg _) hc) h1
  have h2 := fl_near W hW (a * c) (by linarith only [hac, hr])
  obtain ⟨q1, q2⟩ := abs_le.1 hac
  obtain ⟨d1, d2⟩ := abs_le.1 hdiff
  generalize a * c = Y at *
  generalize X * c = Z at *
  obtain ⟨b1, b2⟩ := abs_le.1 h2
  generalize W.fl Y = b at *
  have hb : |b| ≤ r + 2 / 10000 := abs_le.2 ⟨by linarith only [b1, q1], by linarith only [b2, q2]⟩
  have h3 := fl_near R hR b (by linarith only [hb, hr])
  obtain ⟨c1, c2⟩ := abs_le.1 h3
  exact ⟨abs_le.2 ⟨by linarith only [c1, b1, d1], by linarith only [c2, b2, d2]⟩, hXc⟩

/-- The coordinate `r * c` of a point of the ellipsoid, computed with one rounding
in the arithmetic of the library and one conversion to `float`, is within `2e-4`
of the exact product. -/
theorem coord_near_one (R W : Rounding) (hR : R.Accurate) (hW : W.Accurate) (r c : ℚ)
    (hr0 : 0 ≤ r) (hr : r ≤ 20) (hc : |c| ≤ 1) :
    |R.fl (W.fl (r * c)) - r * c| ≤ 2 / 10000 ∧ |r * c| ≤ r := by
  have hrc : |r * c| ≤ r := by
    rw [abs_mul, abs_of_nonneg hr0]
    exact mul_le_of_le_one_right hr0 hc
  have h1 := fl_near W hW (r * c) (by linarith only [hrc, hr])
  obtain ⟨p1, p2⟩ := abs_le.1 hrc
  generalize r * c = X at *
  obtain ⟨a1, a2⟩ := abs_le.1 h1
  generalize W.fl X = a at *
  have ha : |a| ≤ r + 1 / 10000 := abs_le.2 ⟨by linarith only [a1, p1], by linarith only [a2, p2]⟩
  have h3 := fl_near R hR a (by linarith only [ha, hr])
  obtain ⟨c1, c2⟩ := abs_le.1 h3
  exact ⟨abs_le.2 ⟨by linarith only [c1, a1], by linarith only [c2, a2]⟩, hrc⟩

/-- The square of a number `x` within `d` of `X`, with `|X| ≤ B`. -/
theorem sq_near (x X d B : ℚ) (hd : |x - X| ≤ d) (hX : |X| ≤ B) :
    X * X - (2 * B + d) * d ≤ x * x ∧ |x| ≤ B + d := by
  obtain ⟨d1, d2⟩ := abs_le.1 hd
  obtain ⟨x1, x2⟩ := abs_le.1 hX
  have hd0 : 0 ≤ d := le_trans (abs_nonneg _) hd
  refine ⟨?_, abs_le.2 ⟨by linarith only [d1, x1], by linarith only [d2, x2]⟩⟩
  have e : x * x = X * X + (x - X) * (x + X) := by ring
  have h1 : -((2 * B + d) * d) ≤ (x - X) * (x + X) := by
    have hs : |x + X| ≤ 2 * B + d :=
      abs_le.2 ⟨by linarith only [d1, x1], by linarith only [d2, x2]⟩
    have hm : |(x - X) * (x + X)| ≤ d * (2 * B + d) := by
      rw [abs_mul]
      exact mul_le_mul hd hs (abs_nonneg _) hd0
    have := (abs_le.1 hm).1
    linarith only [this]
  linarith only [e, h1]

/-- The points of the airship: with accurate arithmetic and library values within
the bounds at the two angles, the components are at most `21` in absolute value
and the squared length is at least `24`. -/
theorem generate_airship_point_bounds (R : Rounding) (P : CMath) (hR : R.Accurate)
    (hW : P.wide.Accurate) (phi theta : ℚ) (hphi : P.Bounded phi) (htheta : P.Bounded theta) :
    |(generate_airship_point_fl R P phi theta).x| ≤ 21 ∧
    |(generate_airship_point_fl R P phi theta).y| ≤ 21 ∧
    |(generate_airship_point_fl R P phi theta).z| ≤ 21 ∧
    24 ≤ GVec3.dot (generate_airship_point_fl R P phi theta)
      (generate_airship_point_fl R P phi theta) := by
  obtain ⟨hs1, hc1, hp1⟩ := hphi
  obtain ⟨hs2, hc2, hp2⟩ := htheta
  unfold generate_airship_point_fl GVec3.dot
  simp only []
  obtain ⟨hx, hxb⟩ := coord_near R P.wide hR hW 10 (P.sin phi) (P.cos theta)
    (by norm_num) (by norm_num) hs1 hc2
  obtain ⟨hy, hyb⟩ := coord_near_one R P.wide hR hW 5 (P.cos phi) (by norm_num) (by norm_num) hc1
  obtain ⟨hz, hzb⟩ := coord_near R P.wide hR hW 20 (P.sin phi) (P.sin theta)
    (by norm_num) (by norm_num) hs1 hs2
  obtain ⟨sx, bx⟩ := sq_near _ _ _ _ hx hxb
  obtain ⟨sy, byy⟩ := sq_near _ _ _ _ hy hyb
  obtain ⟨sz, bz⟩ := sq_near _ _ _ _ hz hzb
  generalize R.fl (P.wide.fl (P.wide.fl (10 * P.sin phi) * P.cos theta)) = x at *
  generalize R.fl (P.wide.fl (5 * P.cos phi)) = y at *
  generalize R.fl (P.wide.fl (P.wide.fl (20 * P.sin phi) * P.sin theta)) = z at *
  generalize P.sin phi = s1 at *
  generalize P.cos phi = c1 at *
  generalize P.sin theta = s2 at *
  generalize P.cos theta = c2 at *
  refine ⟨le_trans bx (by norm_num), le_trans byy (by norm_num), le_trans bz (by norm_num), ?_⟩
  have hss : 0 ≤ s1 * s1 := mul_self_nonneg s1
  have hm : s1 * s1 * (99 / 100) ≤ s1 * s1 * (s2 * s2 + c2 * c2) :=
    mul_le_mul_of_nonneg_left hp2 hss
  have hz2 : 0 ≤ (s1 * s1) * (s2 * s2) := mul_nonneg hss (mul_self_nonneg s2)
  have e1 : 10 * s1 * c2 * (10 * s1 * c2) = 100 * (s1 * s1 * (c2 * c2)) := by ring
  have e2 : 5 * c1 * (5 * c1) = 25 * (c1 * c1) := by ring
  have e3 : 20 * s1 * s2 * (20 * s1 * s2) = 400 * (s1 * s1 * (s2 * s2)) := by ring
  have e4 : s1 * s1 * (s2 * s2 + c2 * c2) = s1 * s1 * (s2 * s2) + s1 * s1 * (c2 * c2) := by ring
  rw [e1] at sx
  rw [e2] at sy
  rw [e3] at sz
  rw [e4] at hm
  generalize s1 * s1 * (c2 * c2) = A at *
  generalize s1 * s1 * (s2 * s2) = B at *
  generalize s1 * s1 = S at *
  generalize c1 * c1 = C at *
  generalize x * x = xx at *
  generalize y * y = yy at *
  generalize z * z = zz at *
  linarith only [sx, sy, sz, hm, hz2, hp1, hss]

/-- The computed length of a `float` vector with components up to `21` and exact
squared length at least `24`: it exceeds `0.0001f`, the divisor of the
normalization is not zero and the factor of the normalization is positive. -/
theorem length_of_bounds (R : Rounding) (hR : R.Accurate) (v : GVec3 ℚ)
    (hx : |v.x| ≤ 21) (hy : |v.y| ≤ 21) (hz : |v.z| ≤ 21) (h24 : 24 ≤ GVec3.dot v v) :
    R.fl 0.0001 < glm_length_fl R v ∧
    R.sqrt (GVec3.dot_fl R v v) ≠ 0 ∧
    0 < glm_inversesqrt_fl R (GVec3.dot_fl R v v) := by
  unfold glm_length_fl glm_inversesqrt_fl GVec3.dot_fl
  unfold GVec3.dot at h24
  obtain ⟨_, dhi, dlo⟩ := dot_self_bounds R hR v.x v.y v.z
  have hxx : v.x * v.x ≤ 441 := by
    have := abs_mul_abs_self v.x
    have h := mul_le_mul hx hx (abs_nonneg _) (by norm_num)
    linarith only [this, h]
  have hyy : v.y * v.y ≤ 441 := by
    have := abs_mul_abs_self v.y
    have h := mul_le_mul hy hy (abs_nonneg _) (by norm_num)
    linarith only [this, h]
  have hzz : v.z * v.z ≤ 441 := by
    have := abs_mul_abs_self v.z
    have h := mul_le_mul hz hz (abs_nonneg _) (by norm_num)
    linarith only [this, h]
  generalize R.fl (R.fl (R.fl (v.x * v.x) + R.fl (v.y * v.y)) + R.fl (v.z * v.z)) = D at *
  have e147 : (1 : ℚ) / 2 ^ 147 ≤ 1 / 1000 := by norm_num
  have hD1 : (239 : ℚ) / 10 ≤ D := by linarith only [dlo, h24, e147, hxx, hyy, hzz]
  have hD2 : D ≤ 1400 := by linarith only [dhi, e147, hxx, hyy, hzz]
  obtain ⟨L0, Llo, Lhi⟩ := hR.2.2.2.2 D (by linarith only [hD1])
  generalize R.sqrt D = L at *
  have hL4 : 4 ≤ L := by
    by_contra hc
    have h4 : L < 4 := not_le.1 hc
    have hsq : L ^ 2 ≤ 16 := by nlinarith
    have hk : (1 + 1 / 10000000 : ℚ) ^ 2 ≤ 11 / 10 := by norm_num
    have := mul_le_mul hsq hk (by positivity) (by norm_num)
    linarith only [this, Lhi, hD1]
  have hL40 : L ≤ 40 := by
    by_contra hc
    have h40 : 40 < L := not_le.1 hc
    have hsq : (1600 : ℚ) ≤ L ^ 2 := by nlinarith
    have hk : (9 / 10 : ℚ) ≤ (1 - 1 / 10000000) ^ 2 := by norm_num
    have := mul_le_mul hsq hk (by norm_num) (by positivity)
    linarith only [this, Llo, hD2]
  obtain ⟨_, f2, _⟩ := fl_bounds R hR 0.0001 (by norm_num)
  obtain ⟨_, i1, _, _⟩ := inv_bounds R hR L (by linarith only [hL4])
    (le_trans hL40 (by norm_num))
  refine ⟨?_, ne_of_gt L0, ?_⟩
  · have : (0.0001 : ℚ) + (0.0001 / 16777216 + 1 / 2 ^ 150) < 4 := by norm_num
    linarith only [this, f2, hL4]
  · by_contra hc
    have h0 : R.fl (1 / L) ≤ 0 := not_lt.1 hc
    have := mul_le_mul_of_nonneg_right h0 (le_of_lt L0)
    have h1 : (0 : ℚ) < 1 - 1 / 16000000 := by norm_num
    linarith only [this, i1, h1]

/-- A component of `glm::normalize(v)` does not point against the component of
`v` when the factor of the normalization is not negative. -/
theorem scale_sign (R : Rounding) (hR : R.Accurate) (a s : ℚ) (hs : 0 ≤ s) :
    0 ≤ R.fl (a * s) * a := by
  rcases le_total 0 a with h | h
  · exact mul_nonneg (fl_nonneg R hR _ (mul_nonneg h hs)) h
  · have h1 : a * s ≤ 0 := mul_nonpos_of_nonpos_of_nonneg h hs
    have h2 := hR.1 _ _ h1
    rw [hR.2.1] at h2
    exact mul_nonneg_of_nonpos_of_nonpos h2 h

/-- The number of vertices of a cell in floating-point arithmetic: three in the
two pole rings, six in the others. -/
theorem generate_airship_cell_length_fl (R : Rounding) (P : CMath) (i j : Nat) :
    (generate_airship_cell_fl R P 8 16 i j).length = if i = 0 ∨ i = 7 then 3 else 6 := by
  unfold generate_airship_cell_fl
  by_cases h0 : i = 0
  · simp [h0]
  · by_cases h7 : i = 7
    · simp [h7]
    · simp [h0, h7]

/-- The number of vertices of one ring of the airship in floating-point
arithmetic. -/
theorem generate_airship_ring_length_fl (R : Rounding) (P : CMath) (i : Nat) :
    (generate_airship_ring_fl R P 8 16 [] i).length
      = if i = 0 ∨ i = 7 then 3 * 16 else 3 * 32 := by
  rw [generate_airship_ring_eq_fl, List.nil_append,
    length_flatMap_const _ _ (if i = 0 ∨ i = 7 then 3 else 6)
      (fun j _ => generate_airship_cell_length_fl R P i j), List.length_range]
  split <;> rfl

/-- The airship has 672 vertices in floating-point arithmetic as well. -/
theorem generate_airship_length_fl (R : Rounding) (P : CMath) :
    (generate_airship_fl R P []).length = 672 := by
  have hr : List.range 8 = [0, 1, 2, 3, 4, 5, 6, 7] := by decide
  rw [generate_airship_eq_fl, List.nil_append, hr]
  simp [List.flatMap_cons, generate_airship_ring_length_fl]

/-! ## Binary32 vectors of exact length one -/

/-- In a sum of three integer squares that is a power of four, two of the three
numbers are zero. -/
theorem three_squares_pow_four (k : Nat) :
    ∀ a b c : Int, a ^ 2 + b ^ 2 + c ^ 2 = 4 ^ k →
      (a = 0 ∧ b = 0) ∨ (a = 0 ∧ c = 0) ∨ (b = 0 ∧ c = 0) := by
  induction k with
  | zero =>
    intro a b c h
    rw [pow_zero] at h
    have ha : a ^ 2 ≤ 1 := by nlinarith [sq_nonneg b, sq_nonneg c]
    have hb : b ^ 2 ≤ 1 := by nlinarith [sq_nonneg a, sq_nonneg c]
    have hc : c ^ 2 ≤ 1 := by nlinarith [sq_nonneg a, sq_nonneg b]
    have ha1 : -1 ≤ a ∧ a ≤ 1 := abs_le.1 (abs_le_one_iff_mul_self_le_one.2 (by nlinarith))
    have hb1 : -1 ≤ b ∧ b ≤ 1 := abs_le.1 (abs_le_one_iff_mul_self_le_one.2 (by nlinarith))
    have hc1 : -1 ≤ c ∧ c ≤ 1 := abs_le.1 (abs_le_one_iff_mul_self_le_one.2 (by nlinarith))
    obtain ⟨a1, a2⟩ := ha1
    obtain ⟨b1, b2⟩ := hb1
    obtain ⟨c1, c2⟩ := hc1
    interval_cases a <;> interval_cases b <;> interval_cases c <;> simp_all
  | succ k ih =>
    intro a b c h
    have h4 : (4 : Int) ^ (k + 1) = 4 * 4 ^ k := by ring
    rw [h4] at h
    have hmod : ∀ x : Int, (x ^ 2 % 4 = 0 ∧ x % 2 = 0) ∨ (x ^ 2 % 4 = 1 ∧ x % 2 = 1) := by
      intro x
      rcases Int.even_or_odd x with hx | hx
      · left
        obtain ⟨r, hr⟩ := hx
        refine ⟨?_, by omega⟩
        have : x ^ 2 = 4 * (r * r) := by rw [hr]; ring
        rw [this]
        exact Int.mul_emod_right 4 (r * r)
      · right
        exact ⟨Int.sq_mod_four_eq_one_of_odd hx, Int.odd_iff.1 hx⟩
    have ha := hmod a
    have hb := hmod b
    have hc := hmod c
    generalize ha2 : a ^ 2 = A at ha h
    generalize hb2 : b ^ 2 = B at hb h
    generalize hc2 : c ^ 2 = C at hc h
    obtain ⟨E, hE⟩ : ∃ E : Int, E = 4 ^ k := ⟨_, rfl⟩
    rw [← hE] at h
    have hae : a % 2 = 0 := by omega
    have hbe : b % 2 = 0 := by omega
    have hce : c % 2 = 0 := by omega
    obtain ⟨a', rfl⟩ : ∃ a', a = 2 * a' := ⟨a / 2, by omega⟩
    obtain ⟨b', rfl⟩ : ∃ b', b = 2 * b' := ⟨b / 2, by omega⟩
    obtain ⟨c', rfl⟩ : ∃ c', c = 2 * c' := ⟨c / 2, by omega⟩
    have hsum : a' ^ 2 + b' ^ 2 + c' ^ 2 = E := by
      have e1 : (2 * a') ^ 2 = 4 * a' ^ 2 := by ring
      have e2 : (2 * b') ^ 2 = 4 * b' ^ 2 := by ring
      have e3 : (2 * c') ^ 2 = 4 * c' ^ 2 := by ring
      rw [e1] at ha2
      rw [e2] at hb2
      rw [e3] at hc2
      linarith only [ha2, hb2, hc2, h]
    rw [hE] at hsum
    rcases ih a' b' c' hsum with ⟨h1, h2⟩ | ⟨h1, h2⟩ | ⟨h1, h2⟩
    · exact Or.inl ⟨by rw [h1]; rfl, by rw [h2]; rfl⟩
    · exact Or.inr (Or.inl ⟨by rw [h1]; rfl, by rw [h2]; rfl⟩)
    · exact Or.inr (Or.inr ⟨by rw [h1]; rfl, by rw [h2]; rfl⟩)

/-- A number is dyadic when it is an integer divided by a power of two; every
finite binary floating-point number is. -/
theorem dyadic_common (x y z : ℚ) (hx : ∃ (m : Int) (k : Nat), x = m / 2 ^ k)
    (hy : ∃ (m : Int) (k : Nat), y = m / 2 ^ k) (hz : ∃ (m : Int) (k : Nat), z = m / 2 ^ k) :
    ∃ (a b c : Int) (K : Nat), x = a / 2 ^ K ∧ y = b / 2 ^ K ∧ z = c / 2 ^ K := by
  obtain ⟨a, k1, rfl⟩ := hx
  obtain ⟨b, k2, rfl⟩ := hy
  obtain ⟨c, k3, rfl⟩ := hz
  refine ⟨a * 2 ^ (k2 + k3), b * 2 ^ (k1 + k3), c * 2 ^ (k1 + k2), k1 + k2 + k3, ?_, ?_, ?_⟩
  · push_cast
    rw [div_eq_div_iff (by positivity) (by positivity)]
    ring
  · push_cast
    rw [div_eq_div_iff (by positivity) (by positivity)]
    ring
  · push_cast
    rw [div_eq_div_iff (by positivity) (by positivity)]
    ring

/-- A vector of three dyadic numbers whose exact squared length is `1` has two
components equal to zero: it is a coordinate axis or its opposite. -/
theorem unit_dyadic_is_axis (x y z : ℚ) (hx : ∃ (m : Int) (k : Nat), x = m / 2 ^ k)
    (hy : ∃ (m : Int) (k : Nat), y = m / 2 ^ k) (hz : ∃ (m : Int) (k : Nat), z = m / 2 ^ k)
    (h : x * x + y * y + z * z = 1) :
    (x = 0 ∧ y = 0) ∨ (x = 0 ∧ z = 0) ∨ (y = 0 ∧ z = 0) := by
  obtain ⟨a, b, c, K, rfl, rfl, rfl⟩ := dyadic_common x y z hx hy hz
  have hpos : (0 : ℚ) < 2 ^ K := by positivity
  have hq : ((a ^ 2 + b ^ 2 + c ^ 2 : Int) : ℚ) = ((4 ^ K : Int) : ℚ) := by
    push_cast
    have e4 : (4 : ℚ) ^ K = 2 ^ K * 2 ^ K := by
      rw [← mul_pow]
      norm_num
    rw [e4]
    field_simp at h
    linarith only [h]
  have hint : a ^ 2 + b ^ 2 + c ^ 2 = 4 ^ K := by exact_mod_cast hq
  rcases three_squares_pow_four K a b c hint with ⟨h1, h2⟩ | ⟨h1, h2⟩ | ⟨h1, h2⟩
  · exact Or.inl ⟨by rw [h1]; simp, by rw [h2]; simp⟩
  · exact Or.inr (Or.inl ⟨by rw [h1]; simp, by rw [h2]; simp⟩)
  · exact Or.inr (Or.inr ⟨by rw [h1]; simp, by rw [h2]; simp⟩)


/-- A scaled integer is dyadic. -/
theorem scale2_dyadic (m k : Int) : ∃ (n : Int) (j : Nat), scale2 (m : ℚ) k = n / 2 ^ j := by
  unfold scale2
  split
  · exact ⟨m * 2 ^ k.toNat, 0, by push_cast; simp⟩
  · exact ⟨m, (-k).toNat, by push_cast; rfl⟩

/-- Every value of the rounding to binary32 is dyadic. -/
theorem roundF32_dyadic (x : ℚ) : ∃ (m : Int) (k : Nat), roundF32 x = m / 2 ^ k := by
  unfold roundF32
  split
  · exact ⟨0, 0, by simp⟩
  · simp only []
    obtain ⟨n, j, h⟩ := scale2_dyadic (roundHalfEven (scale2 |x| (23 - max (ilog2 |x|) (-126))))
      (max (ilog2 |x|) (-126) - 23)
    split
    · exact ⟨-n, j, by rw [h]; push_cast; ring⟩
    · exact ⟨n, j, h⟩

/-- Whatever values `sin` and `cos` return: a vertex of the airship whose normal,
computed in binary32, has exact squared length `1` has a normal with two
components equal to zero, a coordinate axis or its opposite. -/
theorem generate_airship_unit_normal_is_axis (P : CMath) (v : Vertex ℚ)
    (hv : v ∈ generate_airship_fl f32 P []) (h : GVec3.dot v.normal v.normal = 1) :
    (v.normal.x = 0 ∧ v.normal.y = 0) ∨ (v.normal.x = 0 ∧ v.normal.z = 0) ∨
      (v.normal.y = 0 ∧ v.normal.z = 0) := by
  rw [generate_airship_eq_fl, List.nil_append] at hv
  obtain ⟨i, _, hvi⟩ := List.mem_flatMap.1 hv
  rw [generate_airship_ring_eq_fl, List.nil_append] at hvi
  obtain ⟨j, _, hvj⟩ := List.mem_flatMap.1 hvi
  have hn := (generate_airship_cell_normal_fl f32 P i j v hvj).2
  rw [hn] at h ⊢
  exact unit_dyadic_is_axis _ _ _ (roundF32_dyadic _) (roundF32_dyadic _) (roundF32_dyadic _) h

/-! ## C18: the normals of the airship -/

/-- C18, refuted as stated: with the overloads of `sin` and `cos` for `float`
(reference values) the vertex 49 of the airship, in the stack `i = 1`, sits at
`p2 = (3.5355344, 4.619398, 2.9289327)` and its normal, `glm::normalize (p2)`
in binary32, is `(0.5428534, 0.7092721, 0.4497159)`, whose squared length is
`1 - 151971071 / 2^50`, not `1`; even the length that `glm::length` computes for
it in binary32 is `1 - 2^-24`. -/
theorem C18_unit_length_counterexample :
    ((generate_airship_fl f32 refMath [])[49]?).map (fun v => (v.position, v.normal))
      = some (⟨14829105 / 4194304, 9687579 / 2097152, 6142417 / 2097152⟩,
          ⟨9107569 / 16777216, 11899611 / 16777216, 15089915 / 33554432⟩) ∧
    GVec3.dot (⟨9107569 / 16777216, 11899611 / 16777216, 15089915 / 33554432⟩ : GVec3 ℚ)
        ⟨9107569 / 16777216, 11899611 / 16777216, 15089915 / 33554432⟩
      = 1 - 151971071 / 1125899906842624 ∧
    glm_length_fl f32 ⟨9107569 / 16777216, 11899611 / 16777216, 15089915 / 33554432⟩
      = 1 - 1 / 16777216 := by
  decide!

/-- C18, amended: in floating-point arithmetic as accurate as binary32 (the
`float` arithmetic of glm and the arithmetic of the products with `sin` and
`cos`), with values of `sin` and `cos` at the 9 angles `phi` and the 17 angles
`theta` of the generator that are at most `1` in absolute value with
`sin^2 + cos^2 >= 0.99`, every vertex that `generate_airship` emits has a
position of squared length at least `24`, which is not the zero vector; its
normal is `glm::normalize` of the position, the divisor `sqrt (dot (p, p))` of the
normalization is not zero and its factor is positive, no component of the normal
points against the component of the position, and the squared length of the
normal is within `2e-6` of `1`. -/
theorem C18_airship_normals_near_unit (R : Rounding) (P : CMath) (hR : R.Accurate)
    (hW : P.wide.Accurate)
    (hphi : ∀ k ≤ 8, P.Bounded (airship_phi R P 8 k))
    (htheta : ∀ k ≤ 16, P.Bounded (airship_theta R P 16 k)) :
    (generate_airship_fl R P []).length = 672 ∧
    ∀ v ∈ generate_airship_fl R P [],
      24 ≤ GVec3.dot v.position v.position ∧
      v.position ≠ ⟨0, 0, 0⟩ ∧
      v.normal = glm_normalize_fl R v.position ∧
      R.sqrt (GVec3.dot_fl R v.position v.position) ≠ 0 ∧
      0 < glm_inversesqrt_fl R (GVec3.dot_fl R v.position v.position) ∧
      0 ≤ v.normal.x * v.position.x ∧ 0 ≤ v.normal.y * v.position.y ∧
      0 ≤ v.normal.z * v.position.z ∧
      |GVec3.dot v.normal v.normal - 1| ≤ 1 / 500000 := by
  refine ⟨generate_airship_length_fl R P, ?_⟩
  intro v hv
  rw [generate_airship_eq_fl, List.nil_append] at hv
  obtain ⟨i, hi, hvi⟩ := List.mem_flatMap.1 hv
  rw [generate_airship_ring_eq_fl, List.nil_append] at hvi
  obtain ⟨j, hj, hvj⟩ := List.mem_flatMap.1 hvi
  have hi8 : i < 8 := List.mem_range.1 hi
  have hj16 : j < 16 := List.mem_range.1 hj
  obtain ⟨⟨a, b, ha, hb, hp⟩, hn⟩ := generate_airship_cell_normal_fl R P i j v hvj
  obtain ⟨bx, bby, bz, h24⟩ := generate_airship_point_bounds R P hR hW _ _
    (hphi a (by omega)) (htheta b (by omega))
  rw [← hp] at bx bby bz h24
  obtain ⟨hlen, hdiv, hinv⟩ := length_of_bounds R hR v.position bx bby bz h24
  have hunit := normalize_near_unit R hR v.position (le_trans bx (by norm_num))
    (le_trans bby (by norm_num)) (le_trans bz (by norm_num)) hlen
  refine ⟨h24, ?_, hn, hdiv, hinv, ?_, ?_, ?_, ?_⟩
  · intro h0
    rw [h0] at h24
    unfold GVec3.dot at h24
    norm_num at h24
  · rw [hn]
    exact scale_sign R hR _ _ (le_of_lt hinv)
  · rw [hn]
    exact scale_sign R hR _ _ (le_of_lt hinv)
  · rw [hn]
    exact scale_sign R hR _ _ (le_of_lt hinv)
  · rw [hn]
    exact hunit

/-- The reference values of `sin` and `cos` at the 9 angles `phi` of the airship
are within the bounds. -/
theorem refMath_bounded_phi : ∀ k ≤ 8, refMath.Bounded (airship_phi f32 refMath 8 k) := by
  decide!

/-- The reference values of `sin` and `cos` at the 17 angles `theta` of the
airship are within the bounds. -/
theorem refMath_bounded_theta :
    ∀ k ≤ 16, refMath.Bounded (airship_theta f32 refMath 16 k) := by
  decide!

/-- The vertex 49 of the airship in binary32 with the reference values of `sin`
and `cos`: the point `p2` of the stack `i = 1` and the sector `j = 0`. -/
theorem generate_airship_vertex_example :
    (generate_airship_fl f32 refMath [])[49]?
      = some (⟨⟨14829105 / 4194304, 9687579 / 2097152, 6142417 / 2097152⟩, ⟨1, 0⟩,
        ⟨9107569 / 16777216, 11899611 / 16777216, 15089915 / 33554432⟩,
        ⟨-13283251 / 134217728, 0, 16694849 / 16777216⟩, 0⟩ : Vertex ℚ) := by
  decide!

/-- C18 witness, in binary32 with the reference values of `sin` and `cos`: the
vertex 49 of the airship has a position of squared length at least `24` and a
normal of squared length within `2e-6` of `1`. -/
theorem C18_airship_normals_near_unit_witness :
    24 ≤ GVec3.dot (⟨14829105 / 4194304, 9687579 / 2097152, 6142417 / 2097152⟩ : GVec3 ℚ)
      ⟨14829105 / 4194304, 9687579 / 2097152, 6142417 / 2097152⟩ ∧
    |GVec3.dot (⟨9107569 / 16777216, 11899611 / 16777216, 15089915 / 33554432⟩ : GVec3 ℚ)
      ⟨9107569 / 16777216, 11899611 / 16777216, 15089915 / 33554432⟩ - 1| ≤ 1 / 500000 := by
  have h := (C18_airship_normals_near_unit f32 refMath f32_accurate f32_accurate
    refMath_bounded_phi refMath_bounded_theta).2 _
    (List.getElem?_mem generate_airship_vertex_example)
  exact ⟨h.1, h.2.2.2.2.2.2.2.2⟩

/-! ## What ticks and drops can change, in binary32 arithmetic

The facts about flags, order and counts that were proved for the exact
embedding hold word for word in `float` arithmetic with any rounding: they do
not depend on the values computed. -/

/-- In `float` arithmetic `update_physics` leaves the number and order of the
houses, each house's position and `houseType`, the trees, the rocks, the airship
position and rotation and `totalHouses` unchanged. -/
theorem update_physics_frame_fl (R : Rounding) (deltaTime : ℚ) (s : Scene) :
    (update_physics_fl R deltaTime s).houses.length = s.houses.length ∧
    (update_physics_fl R deltaTime s).houses.map House.position
      = s.houses.map House.position ∧
    (update_physics_fl R deltaTime s).houses.map House.houseType
      = s.houses.map House.houseType ∧
    (update_physics_fl R deltaTime s).treePositions = s.treePositions ∧
    (update_physics_fl R deltaTime s).rockPositions = s.rockPositions ∧
    (update_physics_fl R deltaTime s).airshipPosition = s.airshipPosition ∧
    (update_physics_fl R deltaTime s).airshipRotation = s.airshipRotation ∧
    (update_physics_fl R deltaTime s).totalHouses = s.totalHouses :=
  ⟨housesStep_length (update_physics_step_fl R deltaTime s),
    housesStep_position (update_physics_step_fl R deltaTime s),
    housesStep_houseType (update_physics_step_fl R deltaTime s), rfl, rfl, rfl, rfl, rfl⟩

/-- Ticks of any lengths in `float` arithmetic keep every house in place and only
raise flags. -/
theorem tickList_step_fl (R : Rounding) (dts : List ℚ) (s : Scene) :
    List.Forall₂ HouseStep s.houses (tickList_fl R s dts).houses := by
  induction dts generalizing s with
  | nil => exact housesStep_refl _
  | cons dt t ih =>
    rw [tickList_cons_fl]
    exact housesStep_trans (update_physics_step_fl R dt s) (ih _)

/-- In `float` arithmetic a house that has `hasPackage == true` keeps it, at the
same index, through `update_physics` and through every run of ticks. -/
theorem delivered_stays_delivered_fl (R : Rounding) (deltaTime : ℚ) (s : Scene) (i : Nat)
    (h : House) (hget : s.houses[i]? = some h) (hflag : h.hasPackage = true) :
    (∃ g, (update_physics_fl R deltaTime s).houses[i]? = some g ∧ g.hasPackage = true) ∧
    ∀ dts : List ℚ, ∃ g, (tickList_fl R s dts).houses[i]? = some g ∧ g.hasPackage = true := by
  constructor
  · obtain ⟨g, hg, hs⟩ := housesStep_get (update_physics_step_fl R deltaTime s) i h hget
    exact ⟨g, hg, hs.2.2 hflag⟩
  · intro dts
    obtain ⟨g, hg, hs⟩ := housesStep_get (tickList_step_fl R dts s) i h hget
    exact ⟨g, hg, hs.2.2 hflag⟩

/-- In `float` arithmetic, after `update_physics` every package of the collection
is active, and the collection is the list of the integrated packages whose
computed `position.y` is strictly greater than `5.0f`, taken over the packages
that were active, in stored order; so a tick never adds a package. -/
theorem ground_test_and_purge_fl (R : Rounding) (deltaTime : ℚ) (s : Scene) :
    (∀ q ∈ (update_physics_fl R deltaTime s).packages, q.active = true) ∧
    (update_physics_fl R deltaTime s).packages
      = ((s.packages.filter (fun p => p.active)).map
          (update_physics_integrate_fl R deltaTime)).filter
          (fun q => decide (5 < q.position.y)) ∧
    (update_physics_fl R deltaTime s).packages.length ≤ s.packages.length := by
  have hgen := (update_physics_packages_eq_fl R deltaTime s).trans
    (purge_eq_fl R deltaTime s.packages)
  refine ⟨?_, hgen, ?_⟩
  · intro q hq
    rw [update_physics_packages_eq_fl] at hq
    exact (List.mem_filter.1 hq).2
  · rw [update_physics_packages_eq_fl]
    exact (List.length_filter_le _ _).trans (by simp)

/-- In `float` arithmetic a drop request at the cap changes nothing and one
below the cap appends one package. -/
theorem main_drop_request_cap_fl (R : Rounding) (rnd : Nat) (s : Scene) :
    (20 ≤ s.packages.length → main_drop_request_fl R rnd s = s) ∧
    (s.packages.length < 20 →
      (main_drop_request_fl R rnd s).packages.length = s.packages.length + 1) := by
  constructor
  · intro h
    unfold main_drop_request_fl NUM_PACKAGES_MAX
    rw [if_neg (by omega)]
  · intro h
    unfold main_drop_request_fl NUM_PACKAGES_MAX
    rw [if_pos h]
    simp [drop_package_fl]

/-- In binary32 the spin rate `(rand() % 100) / 100.0f * 2.0f` of a dropped
package lies in `[0, 2)`, whatever `rand()` returns. -/
theorem drop_package_rotationSpeed_fl (rnd : Nat) :
    0 ≤ f32.fl (f32.fl (((rnd % 100 : Nat) : ℚ) / 100) * 2) ∧
    f32.fl (f32.fl (((rnd % 100 : Nat) : ℚ) / 100) * 2) < 2 := by
  have key : ∀ n : Nat, n < 100 →
      0 ≤ f32.fl (f32.fl ((n : ℚ) / 100) * 2) ∧ f32.fl (f32.fl ((n : ℚ) / 100) * 2) < 2 := by
    decide!
  exact key (rnd % 100) (Nat.mod_lt _ (by norm_num))

end Indiv3
